import Mathlib

/-!
Verification of the procedural dungeon-map generator (the `MapGenerator`
class of the frontend source, together with the earlier variant of the
same class kept in the repository).

The JavaScript code is shallowly embedded: the mutable generator object
becomes the structure `Gen` passed explicitly; `Math.random()` becomes an
explicit stream of values in `[0,1)` carried in the state; the
`while` loops of the corridor router and the room-sampling retry loop
become structurally recursive functions on an explicit fuel that equals
the loop's iteration bound; the `TypeError` thrown when an unknown theme
key is dereferenced becomes `Except Unit`.  Grid writes go through
`setCell`, which records an out-of-bounds write in the sticky `oob`
flag instead of performing it, so "the program never writes out of
bounds" is the statement that `oob` stays `false`.

Numeric values that are floats in the source (random draws, half-cell
room centres, distances) are modelled exactly by the fraction type `Q`
below — unnormalised numerator/denominator pairs with the usual field
operations and floor, i.e. exact real-number semantics for every
arithmetic step the source performs.  `Math.sqrt d <= b` becomes
`0 ≤ b ∧ d ≤ b * b`; `Date.now() + Math.random()` used only as an
opaque element id is modelled by one draw from the random stream.
-/

namespace DnD

/-- Exact fractions `num / den` (denominator intended positive, kept
unnormalised so that every operation is plain integer arithmetic). -/
structure Q : Type where
  num : Int
  den : Int
deriving DecidableEq, Repr

/-- Embed an integer. -/
def qint (n : Int) : Q := ⟨n, 1⟩

/-- Fraction addition. -/
def qadd (a b : Q) : Q := ⟨a.num * b.den + b.num * a.den, a.den * b.den⟩

/-- Fraction subtraction. -/
def qsub (a b : Q) : Q := ⟨a.num * b.den - b.num * a.den, a.den * b.den⟩

/-- Fraction multiplication. -/
def qmul (a b : Q) : Q := ⟨a.num * b.num, a.den * b.den⟩

/-- Fraction division (second argument intended positive). -/
def qdiv (a b : Q) : Q := ⟨a.num * b.den, a.den * b.num⟩

/-- Comparison `a ≤ b`, by cross-multiplication (valid for positive
denominators, the only way fractions arise here). -/
def qle (a b : Q) : Prop := a.num * b.den ≤ b.num * a.den

/-- Comparison `a < b`, by cross-multiplication. -/
def qlt (a b : Q) : Prop := a.num * b.den < b.num * a.den

instance (a b : Q) : Decidable (qle a b) :=
  inferInstanceAs (Decidable (_ ≤ _))

instance (a b : Q) : Decidable (qlt a b) :=
  inferInstanceAs (Decidable (_ < _))

/-- `Math.floor`, via Euclidean division (= floor division, the
denominator being positive). -/
def qfloor (a : Q) : Int := Int.ediv a.num a.den

/-- A valid `Math.random()` outcome: a value in `[0, 1)` (this also
forces the denominator positive). -/
def validQ (q : Q) : Prop := 0 ≤ q.num ∧ q.num < q.den

/-- Tile classification: the grid-cell constants WALL = 0, FLOOR = 1,
DOOR = 2 of the source. -/
inductive Cell : Type
  | wall
  | floor
  | door
deriving DecidableEq, Repr

/-- The `roomStyle` tags of the `MAP_THEMES` table. -/
inductive RoomStyle : Type
  | rectangular
  | irregular
  | formal
  | organic
deriving DecidableEq, Repr

/-- The `roomStyle` field of `MAP_THEMES[key]`; `none` when the key is
not in the table (the source would then throw on `themeConfig.roomStyle`). -/
def themeStyle : String → Option RoomStyle
  | "dungeon" => some RoomStyle.rectangular
  | "cave" => some RoomStyle.irregular
  | "castle" => some RoomStyle.formal
  | "camp" => some RoomStyle.organic
  | _ => none

/-- A room record `{ x, y, width, height }`. -/
structure Room : Type where
  x : Int
  y : Int
  width : Int
  height : Int
deriving DecidableEq, Repr

/-- An interactive element `{ type, x, y, id }`. -/
structure Elem : Type where
  etype : String
  x : Int
  y : Int
  id : Q
deriving DecidableEq, Repr

/-- The `MapGenerator` object state: constructor fields plus the
explicit random stream and the out-of-bounds-write flag of the
embedding. -/
structure Gen : Type where
  width : Nat
  height : Nat
  theme : String
  grid : List (List Cell)
  rooms : List Room
  elems : List Elem
  rng : List Q
  oob : Bool
deriving DecidableEq, Repr

/-- The constructor: a `height × width` grid of walls, no rooms, no
elements. -/
def mkGen (w h : Nat) (theme : String) (rng : List Q) : Gen :=
  ⟨w, h, theme, List.replicate h (List.replicate w Cell.wall), [], [], rng, false⟩

/-- One draw of `Math.random()`: pop the head of the stream (an
exhausted stream yields 0, which is in `[0,1)`). -/
def randNext (s : Gen) : Q × Gen :=
  match s.rng with
  | [] => (qint 0, s)
  | q :: rest => (q, { s with rng := rest })

/-- Read `grid[y][x]`; `none` when the coordinate is outside the grid. -/
def getCell (s : Gen) (x y : Int) : Option Cell :=
  if 0 ≤ y ∧ 0 ≤ x then s.grid[y.toNat]?.bind (fun row => row[x.toNat]?)
  else none

/-- Write `grid[y][x] = v`.  An in-bounds write updates the grid; an
out-of-bounds write is recorded in the sticky `oob` flag and leaves the
grid unchanged. -/
def setCell (s : Gen) (x y : Int) (v : Cell) : Gen :=
  if 0 ≤ y ∧ 0 ≤ x ∧ y.toNat < s.grid.length ∧ x.toNat < (s.grid.getD y.toNat []).length then
    { s with grid := s.grid.set y.toNat ((s.grid.getD y.toNat []).set x.toNat v) }
  else { s with oob := true }

/-- The overlap-rejection test of `generateRoom`: the candidate
`(x, y, w, h)` against one existing room, exactly the four strict
comparisons of the source. -/
def overlapsRoom (x y w h : Int) (room : Room) : Bool :=
  decide (x < room.x + room.width + 1) && decide (x + w + 1 > room.x) &&
  decide (y < room.y + room.height + 1) && decide (y + h + 1 > room.y)

/-- `generateRoom(minSize, maxSize)`: draws a size (the `formal` style
widens the width draw by 2), draws a position inside the 1-cell border,
and rejects with `null` (`none`) when the candidate overlaps any
existing room.  Throws when the theme key is unknown. -/
def generateRoom (s : Gen) (minSize maxSize : Int) : Except Unit (Option Room × Gen) :=
  match themeStyle s.theme with
  | none => Except.error ()
  | some st =>
    let p1 := randNext s
    let p2 := randNext p1.2
    let w : Int :=
      if st = RoomStyle.formal then
        qfloor (qmul p1.1 (qint (maxSize - minSize + 1))) + minSize + 2
      else qfloor (qmul p1.1 (qint (maxSize - minSize + 1))) + minSize
    let h : Int := qfloor (qmul p2.1 (qint (maxSize - minSize + 1))) + minSize
    let p3 := randNext p2.2
    let p4 := randNext p3.2
    let x : Int := qfloor (qmul p3.1 (qint ((s.width : Int) - w - 2))) + 1
    let y : Int := qfloor (qmul p4.1 (qint ((s.height : Int) - h - 2))) + 1
    if s.rooms.any (fun room => overlapsRoom x y w h room) then
      Except.ok (none, p4.2)
    else
      Except.ok (some ⟨x, y, w, h⟩, p4.2)

/-- Room centre, `Math.floor(room.x + room.width / 2)` and likewise
for `y`. -/
def getRoomCenter (r : Room) : Int × Int :=
  (qfloor (qadd (qint r.x) (qdiv (qint r.width) (qint 2))),
   qfloor (qadd (qint r.y) (qdiv (qint r.height) (qint 2))))

/-- Inner loop of the rectangular carve: one row of `room.width` cells
set to floor, walking `x` rightward. -/
def carveRowAux (y : Int) : Nat → Int → Gen → Gen
  | 0, _, s => s
  | n + 1, x, s => carveRowAux y n (x + 1) (setCell s x y Cell.floor)

/-- Outer loop of the rectangular carve: `room.height` rows. -/
def carveRectAux (x0 : Int) (w : Nat) : Nat → Int → Gen → Gen
  | 0, _, s => s
  | n + 1, y, s => carveRectAux x0 w n (y + 1) (carveRowAux y w x0 s)

/-- `carveStandardRoom`: every cell of the rectangle becomes floor.
The earlier variant's `carveRoom` contains this identical double loop
inline for its non-irregular styles. -/
def carveStandardRoom (s : Gen) (r : Room) : Gen :=
  carveRectAux r.x r.width.toNat r.height.toNat r.y s

/-- Centre abscissa `room.x + room.width / 2` (exact). -/
def centerXQ (r : Room) : Q := qadd (qint r.x) (qdiv (qint r.width) (qint 2))

/-- Centre ordinate `room.y + room.height / 2`. -/
def centerYQ (r : Room) : Q := qadd (qint r.y) (qdiv (qint r.height) (qint 2))

/-- Squared Euclidean distance of `(x,y)` from the room centre. -/
def dist2 (r : Room) (x y : Int) : Q :=
  qadd (qmul (qsub (qint x) (centerXQ r)) (qsub (qint x) (centerXQ r)))
       (qmul (qsub (qint y) (centerYQ r)) (qsub (qint y) (centerYQ r)))

/-- `Math.min(width, height) / 2`, the irregular carve's base radius. -/
def maxRadiusQ (r : Room) : Q := qdiv (qint (min r.width r.height)) (qint 2)

/-- `Math.sqrt d2 <= bound` for `d2 ≥ 0`, over exact fractions. -/
def sqrtLe (d2 bound : Q) : Bool :=
  decide (qle (qint 0) bound) && decide (qle d2 (qmul bound bound))

/-- One cell of the irregular carve: draw the noise
`(Math.random() - 0.5) * 2` and carve when the distance from the centre
is within `maxRadius + noise`. -/
def carveIrrCell (r : Room) (x y : Int) (s : Gen) : Gen :=
  let p := randNext s
  let noise : Q := qmul (qsub p.1 ⟨1, 2⟩) (qint 2)
  if sqrtLe (dist2 r x y) (qadd (maxRadiusQ r) noise) then setCell p.2 x y Cell.floor
  else p.2

/-- One row of the irregular carve. -/
def carveIrrRow (r : Room) (y : Int) : Nat → Int → Gen → Gen
  | 0, _, s => s
  | n + 1, x, s => carveIrrRow r y n (x + 1) (carveIrrCell r x y s)

/-- Row loop of the irregular carve. -/
def carveIrrRect (r : Room) : Nat → Int → Gen → Gen
  | 0, _, s => s
  | n + 1, y, s => carveIrrRect r n (y + 1) (carveIrrRow r y r.width.toNat r.x s)

/-- `carveIrregularRoom`: cave-style carve with per-cell radial noise. -/
def carveIrregularRoom (s : Gen) (r : Room) : Gen :=
  carveIrrRect r r.height.toNat r.y s

/-- One cell of the circular carve (`radius = min(w,h)/2 - 1`, no
randomness). -/
def carveCircCell (r : Room) (x y : Int) (s : Gen) : Gen :=
  if sqrtLe (dist2 r x y) (qsub (maxRadiusQ r) (qint 1)) then setCell s x y Cell.floor
  else s

/-- One row of the circular carve. -/
def carveCircRow (r : Room) (y : Int) : Nat → Int → Gen → Gen
  | 0, _, s => s
  | n + 1, x, s => carveCircRow r y n (x + 1) (carveCircCell r x y s)

/-- Row loop of the circular carve. -/
def carveCircRect (r : Room) : Nat → Int → Gen → Gen
  | 0, _, s => s
  | n + 1, y, s => carveCircRect r n (y + 1) (carveCircRow r y r.width.toNat r.x s)

/-- `carveCircularRoom`. -/
def carveCircularRoom (s : Gen) (r : Room) : Gen :=
  carveCircRect r r.height.toNat r.y s

/-- One cell of the organic carve: a corner cell is carved only when
`Math.random() > 0.6` (the draw happens only for corners, mirroring the
short-circuit `!isCorner || Math.random() > 0.6`). -/
def carveOrgCell (r : Room) (x y : Int) (s : Gen) : Gen :=
  if (x = r.x ∨ x = r.x + r.width - 1) ∧ (y = r.y ∨ y = r.y + r.height - 1) then
    let p := randNext s
    if qlt ⟨6, 10⟩ p.1 then setCell p.2 x y Cell.floor else p.2
  else setCell s x y Cell.floor

/-- One row of the organic carve. -/
def carveOrgRow (r : Room) (y : Int) : Nat → Int → Gen → Gen
  | 0, _, s => s
  | n + 1, x, s => carveOrgRow r y n (x + 1) (carveOrgCell r x y s)

/-- Row loop of the organic carve. -/
def carveOrgRect (r : Room) : Nat → Int → Gen → Gen
  | 0, _, s => s
  | n + 1, y, s => carveOrgRect r n (y + 1) (carveOrgRow r y r.width.toNat r.x s)

/-- `carveOrganicRoom`: rectangle with randomly softened corners. -/
def carveOrganicRoom (s : Gen) (r : Room) : Gen :=
  carveOrgRect r r.height.toNat r.y s

/-- `carveRoom` of the enhanced variant: dispatch on the theme's room
style; the `formal` style draws one random and carves circularly when
it exceeds 0.7 and both dimensions are at least 6.  Throws on an
unknown theme key. -/
def carveRoom (s : Gen) (r : Room) : Except Unit Gen :=
  match themeStyle s.theme with
  | none => Except.error ()
  | some RoomStyle.irregular => Except.ok (carveIrregularRoom s r)
  | some RoomStyle.formal =>
    let p := randNext s
    if qlt ⟨7, 10⟩ p.1 ∧ 6 ≤ r.width ∧ 6 ≤ r.height then
      Except.ok (carveCircularRoom p.2 r)
    else Except.ok (carveStandardRoom p.2 r)
  | some RoomStyle.organic => Except.ok (carveOrganicRoom s r)
  | some RoomStyle.rectangular => Except.ok (carveStandardRoom s r)

/-- One cell of the earlier variant's irregular carve: an edge cell is
carved only when `Math.random() > 0.3`. -/
def carveEdgeCell (r : Room) (x y : Int) (s : Gen) : Gen :=
  if y = r.y ∨ y = r.y + r.height - 1 ∨ x = r.x ∨ x = r.x + r.width - 1 then
    let p := randNext s
    if qlt ⟨3, 10⟩ p.1 then setCell p.2 x y Cell.floor else p.2
  else setCell s x y Cell.floor

/-- One row of the earlier variant's irregular carve. -/
def carveEdgeRow (r : Room) (y : Int) : Nat → Int → Gen → Gen
  | 0, _, s => s
  | n + 1, x, s => carveEdgeRow r y n (x + 1) (carveEdgeCell r x y s)

/-- Row loop of the earlier variant's irregular carve. -/
def carveEdgeRect (r : Room) : Nat → Int → Gen → Gen
  | 0, _, s => s
  | n + 1, y, s => carveEdgeRect r n (y + 1) (carveEdgeRow r y r.width.toNat r.x s)

/-- `carveRoom` of the earlier variant: edge-noise carve for the
irregular style, and the plain rectangular double loop (line-identical
to `carveStandardRoom` above) for every other style. -/
def carveRoomV0 (s : Gen) (r : Room) : Except Unit Gen :=
  match themeStyle s.theme with
  | none => Except.error ()
  | some RoomStyle.irregular => Except.ok (carveEdgeRect r r.height.toNat r.y s)
  | some _ => Except.ok (carveStandardRoom s r)

/-- One step of a coordinate toward its target:
`current += current < target ? 1 : -1`. -/
def corrDirStep (c target : Int) : Int :=
  c + (if c < target then 1 else -1)

/-- The horizontal corridor loop `while (currentX !== x2)`: carve the
current cell, then step.  Structural recursion on fuel; called with
fuel `|x1 - x2|`, which is exactly the number of iterations.  Returns
the state and the final `currentX`. -/
def corrH (x2 y : Int) : Nat → Int → Gen → Gen × Int
  | 0, x, s => (s, x)
  | f + 1, x, s =>
    if x = x2 then (s, x)
    else corrH x2 y f (corrDirStep x x2) (setCell s x y Cell.floor)

/-- The vertical corridor loop `while (currentY !== y2)`. -/
def corrV (y2 x : Int) : Nat → Int → Gen → Gen × Int
  | 0, y, s => (s, y)
  | f + 1, y, s =>
    if y = y2 then (s, y)
    else corrV y2 x f (corrDirStep y y2) (setCell s x y Cell.floor)

/-- One movement of the organic corridor: step along whichever axis has
the larger remaining absolute delta. -/
def organicStep (x y x2 y2 : Int) : Int × Int :=
  if (x - x2).natAbs > (y - y2).natAbs then (corrDirStep x x2, y)
  else (x, corrDirStep y y2)

/-- The organic corridor loop
`while (currentX !== x2 || currentY !== y2)`: carve the current cell,
then take an `organicStep`.  Called with fuel `|dx| + |dy|`, which is
exactly the number of iterations. -/
def corrOrganic (x2 y2 : Int) : Nat → Int → Int → Gen → Gen × Int × Int
  | 0, x, y, s => (s, x, y)
  | f + 1, x, y, s =>
    if x = x2 ∧ y = y2 then (s, x, y)
    else
      let s1 := setCell s x y Cell.floor
      let p := organicStep x y x2 y2
      corrOrganic x2 y2 f p.1 p.2 s1

/-- `createCorridor(x1, y1, x2, y2)`: the organic theme uses the greedy
staircase loop, every other theme the two L-shaped loops; both variants
carve the final destination cell after the loop.  Throws on an unknown
theme key. -/
def createCorridor (s : Gen) (x1 y1 x2 y2 : Int) : Except Unit Gen :=
  match themeStyle s.theme with
  | none => Except.error ()
  | some st =>
    if st = RoomStyle.organic then
      let o := corrOrganic x2 y2 ((x1 - x2).natAbs + (y1 - y2).natAbs) x1 y1 s
      Except.ok (setCell o.1 o.2.1 o.2.2 Cell.floor)
    else
      let hRes := corrH x2 y1 (x1 - x2).natAbs x1 s
      let vRes := corrV y2 hRes.2 (y1 - y2).natAbs y1 hRes.1
      Except.ok (setCell vRes.1 hRes.2 vRes.2 Cell.floor)

/-- The list `[a, a+1, ..., a+n-1]`. -/
def intRange (a : Int) : Nat → List Int
  | 0 => []
  | n + 1 => a :: intRange (a + 1) n

/-- The `walls` list of `addDoors`: the four perimeter rings (top,
bottom, left, right) one cell outside the room, in source order. -/
def wallsList (r : Room) : List (Int × Int) :=
  (intRange r.x r.width.toNat).map (fun i => (i, r.y - 1)) ++
  (intRange r.x r.width.toNat).map (fun i => (i, r.y + r.height)) ++
  (intRange r.y r.height.toNat).map (fun i => (r.x - 1, i)) ++
  (intRange r.y r.height.toNat).map (fun i => (r.x + r.width, i))

/-- The body of the `addDoors` wall loop for one perimeter cell: when
it is inside the grid bounds and currently floor, each of the four edge
tests converts the matching room-side interior cell to a door. -/
def addDoorsWall (r : Room) (s : Gen) (wx wy : Int) : Gen :=
  if 0 ≤ wx ∧ wx < (s.width : Int) ∧ 0 ≤ wy ∧ wy < (s.height : Int) then
    if getCell s wx wy = some Cell.floor then
      let s1 := if wy = r.y - 1 then setCell s wx r.y Cell.door else s
      let s2 := if wy = r.y + r.height then setCell s1 wx (r.y + r.height - 1) Cell.door else s1
      let s3 := if wx = r.x - 1 then setCell s2 r.x wy Cell.door else s2
      if wx = r.x + r.width then setCell s3 (r.x + r.width - 1) wy Cell.door else s3
    else s
  else s

/-- The `addDoors` pass for one room: fold the wall-loop body over the
room's perimeter list. -/
def addDoorsRoom (s : Gen) (r : Room) : Gen :=
  (wallsList r).foldl (fun acc w => addDoorsWall r acc w.1 w.2) s

/-- `addDoors()`: the per-room pass over every room in placement
order. -/
def addDoors (s : Gen) : Gen :=
  s.rooms.foldl addDoorsRoom s

/-- `addInteractiveElement(type, x, y)`: succeeds only when the target
cell currently reads floor (an out-of-bounds read gives `undefined`,
hence failure); on success appends one `{type, x, y, id}` record, the
id token taken from the random stream. -/
def addInteractiveElement (s : Gen) (t : String) (x y : Int) : Bool × Gen :=
  if getCell s x y = some Cell.floor then
    let p := randNext s
    (true, { p.2 with elems := p.2.elems ++ [⟨t, x, y, p.1⟩] })
  else (false, s)

/-- `removeInteractiveElement(x, y)`: drop every element at that exact
coordinate. -/
def removeInteractiveElement (s : Gen) (x y : Int) : Gen :=
  { s with elems := s.elems.filter (fun e => !(decide (e.x = x) && decide (e.y = y))) }

/-- The room-sampling retry loop of `generate`:
`while (rooms.length < roomCount && attempts < 100)`.  The fuel is
`100 - attempts`, so fuel 0 is exactly `attempts = 100`; each accepted
room is pushed and then carved.  Returns the state and the final value
of `attempts`. -/
def roomsLoopAux (rc : Nat) : Nat → Gen → Nat → Except Unit (Gen × Nat)
  | 0, s, att => Except.ok (s, att)
  | f + 1, s, att =>
    if s.rooms.length < rc then
      match generateRoom s 4 10 with
      | Except.error e => Except.error e
      | Except.ok (none, s1) => roomsLoopAux rc f s1 (att + 1)
      | Except.ok (some r, s1) =>
        match carveRoom { s1 with rooms := s1.rooms ++ [r] } r with
        | Except.error e => Except.error e
        | Except.ok s2 => roomsLoopAux rc f s2 (att + 1)
    else Except.ok (s, att)

/-- Consecutive pairs of the room list, for the sequential
corridor-connection loop. -/
def consecPairs : List Room → List (Room × Room)
  | [] => []
  | [_] => []
  | a :: b :: rest => (a, b) :: consecPairs (b :: rest)

/-- The corridor-connection loop: connect the centres of each
consecutive pair of rooms. -/
def connectPhase : Gen → List (Room × Room) → Except Unit Gen
  | s, [] => Except.ok s
  | s, (a, b) :: rest =>
    let c1 := getRoomCenter a
    let c2 := getRoomCenter b
    match createCorridor s c1.1 c1.2 c2.1 c2.2 with
    | Except.error e => Except.error e
    | Except.ok s1 => connectPhase s1 rest

/-- Pick `rooms[Math.floor(Math.random() * rooms.length)]` and take its
centre (the index is always in range for a valid draw; an empty list
yields a degenerate default, unreachable under the `length > 3`
guard). -/
def pickRoomCenter (s : Gen) : (Int × Int) × Gen :=
  let p := randNext s
  let idx := (qfloor (qmul p.1 (qint (s.rooms.length : Int)))).toNat
  (getRoomCenter (p.2.rooms.getD idx ⟨0, 0, 0, 0⟩), p.2)

/-- The two extra random connections added when more than 3 rooms were
placed (the `for (let i = 0; i < 2; i++)` loop, unrolled). -/
def extraPhase (s : Gen) : Except Unit Gen :=
  if 3 < s.rooms.length then
    let a1 := pickRoomCenter s
    let a2 := pickRoomCenter a1.2
    match createCorridor a2.2 a1.1.1 a1.1.2 a2.1.1 a2.1.2 with
    | Except.error e => Except.error e
    | Except.ok s3 =>
      let b1 := pickRoomCenter s3
      let b2 := pickRoomCenter b1.2
      createCorridor b2.2 b1.1.1 b1.1.2 b2.1.1 b2.1.2
  else Except.ok s

/-- `generate(roomCount)` up to, but not including, the door pass:
room sampling and carving, sequential connections, extra random
connections. -/
def generatePre (s : Gen) (rc : Nat) : Except Unit Gen :=
  match roomsLoopAux rc 100 s 0 with
  | Except.error e => Except.error e
  | Except.ok (s1, _) =>
    match connectPhase s1 (consecPairs s1.rooms) with
    | Except.error e => Except.error e
    | Except.ok s2 => extraPhase s2

/-- `generate(roomCount)`: the full pass, ending with `addDoors`. -/
def generate (s : Gen) (rc : Nat) : Except Unit Gen :=
  match generatePre s rc with
  | Except.error e => Except.error e
  | Except.ok s3 => Except.ok (addDoors s3)

/-! ### Basic facts about the embedding -/

set_option maxRecDepth 100000

/-- Validity of a whole random stream: every entry is a `Math.random()`
outcome in `[0,1)`. -/
def validRng (l : List Q) : Prop := ∀ q ∈ l, validQ q

/-- Shape of a generator state: the grid really is `height` rows of
`width` cells. -/
def WF (s : Gen) : Prop :=
  s.grid.length = s.height ∧
    ∀ (i : Nat) (row : List Cell), s.grid[i]? = some row → row.length = s.width

theorem validQ_zero : validQ (qint 0) := by
  refine ⟨le_refl 0, ?_⟩
  simp [qint]

theorem validRng_nil : validRng [] := by
  intro q hq
  simp at hq

theorem randNext_fst_valid {s : Gen} (h : validRng s.rng) : validQ (randNext s).1 := by
  unfold randNext
  cases hl : s.rng with
  | nil => exact validQ_zero
  | cons q rest => exact h q (by rw [hl]; exact List.mem_cons_self q rest)

theorem randNext_snd (s : Gen) :
    (randNext s).2 = { s with rng := s.rng.drop 1 } := by
  unfold randNext
  cases hl : s.rng with
  | nil =>
    show s = { s with rng := List.drop 1 [] }
    rw [show List.drop 1 ([] : List Q) = [] from rfl, ← hl]
  | cons q rest => rfl

theorem validRng_drop {l : List Q} (h : validRng l) (k : Nat) : validRng (l.drop k) := by
  intro q hq
  exact h q (List.mem_of_mem_drop hq)

theorem isSome_getElem_iff {α : Type} (l : List α) (n : Nat) :
    l[n]?.isSome ↔ n < l.length := by
  constructor
  · intro h
    obtain ⟨a, ha⟩ := Option.isSome_iff_exists.mp h
    rw [List.getElem?_eq_some] at ha
    exact ha.1
  · intro h
    rw [List.getElem?_eq_getElem h]
    rfl

theorem getCell_oobFlag (s : Gen) (a b : Int) :
    getCell { s with oob := true } a b = getCell s a b := rfl

/-- Reading a doubly-indexed list after a nested `set`, at the level of
natural indices. -/
theorem bindRead_set (g : List (List Cell)) (v : Cell) (x y a b : Nat)
    (hylt : y < g.length) (hxlt : x < (g.getD y []).length) :
    ((g.set y ((g.getD y []).set x v))[b]?.bind fun r => r[a]?) =
      if a = x ∧ b = y then some v
      else (g[b]?.bind fun r => r[a]?) := by
  have hrow : g[y]? = some (g.getD y []) := by
    rw [List.getElem?_eq_getElem hylt, List.getD_eq_getElem g [] hylt]
  by_cases hby : b = y
  · subst hby
    rw [List.getElem?_set_self', hrow]
    show ((g.getD b []).set x v)[a]? = _
    by_cases hax : a = x
    · subst hax
      rw [List.getElem?_set_eq_of_lt v hxlt, if_pos ⟨rfl, rfl⟩]
    · rw [List.getElem?_set_ne (fun h => hax h.symm), if_neg (fun h => hax h.1)]
      rfl
  · rw [List.getElem?_set_ne (fun h => hby h.symm), if_neg (fun h => hby h.2)]

/-- Pointwise description of `setCell`: the written cell reads back as
the new value when the write was in bounds, and every other cell (and
any out-of-bounds write) leaves all reads unchanged. -/
theorem getCell_setCell (s : Gen) (x y : Int) (v : Cell) (a b : Int) :
    getCell (setCell s x y v) a b =
      if a = x ∧ b = y then (getCell s x y).map (fun _ => v) else getCell s a b := by
  unfold setCell
  by_cases hc : 0 ≤ y ∧ 0 ≤ x ∧ y.toNat < s.grid.length ∧
      x.toNat < (s.grid.getD y.toNat []).length
  · rw [if_pos hc]
    obtain ⟨hy0, hx0, hylt, hxlt⟩ := hc
    have hrow : s.grid[y.toNat]? = some (s.grid.getD y.toNat []) := by
      rw [List.getElem?_eq_getElem hylt, List.getD_eq_getElem s.grid [] hylt]
    have hsome : getCell s x y = some (s.grid.getD y.toNat [])[x.toNat] := by
      unfold getCell
      rw [if_pos ⟨hy0, hx0⟩, hrow]
      show (s.grid.getD y.toNat [])[x.toNat]? = _
      rw [List.getElem?_eq_getElem hxlt]
    by_cases hb : 0 ≤ b ∧ 0 ≤ a
    · have lhs : getCell { s with
          grid := s.grid.set y.toNat ((s.grid.getD y.toNat []).set x.toNat v) } a b =
          ((s.grid.set y.toNat ((s.grid.getD y.toNat []).set x.toNat v))[b.toNat]?.bind
            fun r => r[a.toNat]?) := by
        unfold getCell
        rw [if_pos hb]
      rw [lhs, bindRead_set s.grid v x.toNat y.toNat a.toNat b.toNat hylt hxlt]
      by_cases hab : a = x ∧ b = y
      · rw [if_pos ⟨by rw [hab.1], by rw [hab.2]⟩, if_pos hab, hsome]
        rfl
      · have hab2 : ¬(a.toNat = x.toNat ∧ b.toNat = y.toNat) := by omega
        rw [if_neg hab2, if_neg hab]
        unfold getCell
        rw [if_pos hb]
    · have hab : ¬(a = x ∧ b = y) := by
        intro hcc
        exact hb ⟨hcc.2 ▸ hy0, hcc.1 ▸ hx0⟩
      rw [if_neg hab]
      show getCell _ a b = getCell s a b
      unfold getCell
      rw [if_neg hb, if_neg hb]
  · rw [if_neg hc, getCell_oobFlag]
    by_cases hab : a = x ∧ b = y
    · obtain ⟨rfl, rfl⟩ := hab
      rw [if_pos ⟨rfl, rfl⟩]
      have hnone : getCell s a b = none := by
        unfold getCell
        by_cases hyx2 : 0 ≤ b ∧ 0 ≤ a
        · rw [if_pos hyx2]
          cases hrow2 : s.grid[b.toNat]? with
          | none => rfl
          | some row =>
            show row[a.toNat]? = none
            apply List.getElem?_eq_none
            have hlt : b.toNat < s.grid.length :=
              (isSome_getElem_iff _ _).mp (by rw [hrow2]; rfl)
            have hgd : s.grid.getD b.toNat [] = row := by
              have h2 := List.getElem?_eq_getElem hlt
              rw [h2] at hrow2
              rw [List.getD_eq_getElem s.grid [] hlt]
              exact Option.some_inj.mp hrow2
            push_neg at hc
            have h3 := hc hyx2.1 hyx2.2 hlt
            rw [hgd] at h3
            exact h3
        · rw [if_neg hyx2]
      rw [hnone]
      rfl
    · rw [if_neg hab]

theorem setCell_width (s : Gen) (x y : Int) (v : Cell) :
    (setCell s x y v).width = s.width := by
  unfold setCell
  split <;> rfl

theorem setCell_height (s : Gen) (x y : Int) (v : Cell) :
    (setCell s x y v).height = s.height := by
  unfold setCell
  split <;> rfl

theorem setCell_theme (s : Gen) (x y : Int) (v : Cell) :
    (setCell s x y v).theme = s.theme := by
  unfold setCell
  split <;> rfl

theorem setCell_rooms (s : Gen) (x y : Int) (v : Cell) :
    (setCell s x y v).rooms = s.rooms := by
  unfold setCell
  split <;> rfl

theorem setCell_elems (s : Gen) (x y : Int) (v : Cell) :
    (setCell s x y v).elems = s.elems := by
  unfold setCell
  split <;> rfl

theorem setCell_rng (s : Gen) (x y : Int) (v : Cell) :
    (setCell s x y v).rng = s.rng := by
  unfold setCell
  split <;> rfl

theorem setCell_grid_length (s : Gen) (x y : Int) (v : Cell) :
    (setCell s x y v).grid.length = s.grid.length := by
  unfold setCell
  split
  · exact List.length_set _ _ _
  · rfl

/-- The `oob` flag is sticky: no write ever clears it. -/
theorem setCell_oob_sticky (s : Gen) (x y : Int) (v : Cell) (h : s.oob = true) :
    (setCell s x y v).oob = true := by
  unfold setCell
  split
  · exact h
  · rfl

/-- An in-bounds write (the target cell reads back) does not touch the
`oob` flag. -/
theorem setCell_oob_of_isSome (s : Gen) (x y : Int) (v : Cell)
    (h : (getCell s x y).isSome) : (setCell s x y v).oob = s.oob := by
  unfold getCell at h
  by_cases hyx : 0 ≤ y ∧ 0 ≤ x
  · rw [if_pos hyx] at h
    cases hrow : s.grid[y.toNat]? with
    | none =>
      rw [hrow] at h
      simp at h
    | some row =>
      rw [hrow] at h
      have hxl : x.toNat < row.length := by
        have : (row[x.toNat]?).isSome := h
        exact (isSome_getElem_iff _ _).mp this
      have hyl : y.toNat < s.grid.length :=
        (isSome_getElem_iff _ _).mp (by rw [hrow]; rfl)
      have hgd : s.grid.getD y.toNat [] = row := by
        rw [List.getD_eq_getElem s.grid [] hyl]
        have h2 := List.getElem?_eq_getElem hyl
        rw [h2] at hrow
        exact Option.some_inj.mp hrow
      unfold setCell
      rw [if_pos ⟨hyx.1, hyx.2, hyl, by rw [hgd]; exact hxl⟩]
  · rw [if_neg hyx] at h
    simp at h

/-- `setCell` preserves the grid shape. -/
theorem WF_setCell (s : Gen) (x y : Int) (v : Cell) (h : WF s) :
    WF (setCell s x y v) := by
  obtain ⟨hlen, hrows⟩ := h
  constructor
  · rw [setCell_grid_length, setCell_height]
    exact hlen
  · intro i row hi
    rw [setCell_width]
    unfold setCell at hi
    split at hi
    · rename_i hcond
      by_cases hiy : y.toNat = i
      · subst hiy
        rw [List.getElem?_set_self'] at hi
        cases hrow : s.grid[y.toNat]? with
        | none =>
          rw [hrow] at hi
          simp at hi
        | some row0 =>
          rw [hrow] at hi
          have : row = (s.grid.getD y.toNat []).set x.toNat v := by
            simpa using hi.symm
          rw [this, List.length_set]
          have hgd : s.grid.getD y.toNat [] = row0 := by
            rw [List.getD_eq_getElem s.grid [] hcond.2.2.1]
            have h2 := List.getElem?_eq_getElem hcond.2.2.1
            rw [h2] at hrow
            exact Option.some_inj.mp hrow
          rw [hgd]
          exact hrows y.toNat row0 hrow
      · rw [List.getElem?_set_ne hiy] at hi
        exact hrows i row hi
    · exact hrows i row hi

/-- In a well-formed state, a cell reads back exactly when its
coordinates are inside `[0,width) × [0,height)`. -/
theorem getCell_isSome_iff (s : Gen) (h : WF s) (x y : Int) :
    (getCell s x y).isSome ↔
      0 ≤ x ∧ x < (s.width : Int) ∧ 0 ≤ y ∧ y < (s.height : Int) := by
  obtain ⟨hlen, hrows⟩ := h
  unfold getCell
  by_cases hyx : 0 ≤ y ∧ 0 ≤ x
  · rw [if_pos hyx]
    cases hrow : s.grid[y.toNat]? with
    | none =>
      have : ¬ y.toNat < s.grid.length := by
        intro hc
        rw [List.getElem?_eq_getElem hc] at hrow
        exact Option.noConfusion hrow
      constructor
      · intro hs
        simp at hs
      · intro hb
        exfalso
        exact this (by omega)
    | some row =>
      have hyl : y.toNat < s.grid.length :=
        (isSome_getElem_iff _ _).mp (by rw [hrow]; rfl)
      have hrl : row.length = s.width := hrows y.toNat row hrow
      constructor
      · intro hs
        have hxl : x.toNat < row.length := (isSome_getElem_iff _ _).mp hs
        refine ⟨hyx.2, by omega, hyx.1, by omega⟩
      · intro hb
        show (row[x.toNat]?).isSome
        rw [isSome_getElem_iff]
        omega
  · rw [if_neg hyx]
    constructor
    · intro hs
      simp at hs
    · intro hb
      exfalso
      exact hyx ⟨hb.2.2.1, hb.1⟩

theorem WF_mkGen (w h : Nat) (t : String) (rng : List Q) : WF (mkGen w h t rng) := by
  constructor
  · exact List.length_replicate h _
  · intro i row hi
    have h2 : (List.replicate h (List.replicate w Cell.wall))[i]? = some row := hi
    simp only [List.getElem?_replicate] at h2
    split at h2
    · injection h2 with h3
      rw [← h3]
      exact List.length_replicate w _
    · exact Option.noConfusion h2

@[simp] theorem randNext_grid (s : Gen) : (randNext s).2.grid = s.grid := by
  rw [randNext_snd]

@[simp] theorem randNext_rooms (s : Gen) : (randNext s).2.rooms = s.rooms := by
  rw [randNext_snd]

@[simp] theorem randNext_elems (s : Gen) : (randNext s).2.elems = s.elems := by
  rw [randNext_snd]

@[simp] theorem randNext_width (s : Gen) : (randNext s).2.width = s.width := by
  rw [randNext_snd]

@[simp] theorem randNext_height (s : Gen) : (randNext s).2.height = s.height := by
  rw [randNext_snd]

@[simp] theorem randNext_theme (s : Gen) : (randNext s).2.theme = s.theme := by
  rw [randNext_snd]

@[simp] theorem randNext_oob (s : Gen) : (randNext s).2.oob = s.oob := by
  rw [randNext_snd]

theorem randNext_rng (s : Gen) : (randNext s).2.rng = s.rng.drop 1 := by
  rw [randNext_snd]

/-! ### Arithmetic facts about the fraction type -/

/-- For a valid draw `q ∈ [0,1)` and a positive integer `k`, the index
`Math.floor(q * k)` lies in `[0, k-1]`. -/
theorem qfloor_qmul_qint_bounds {q : Q} (hq : validQ q) {k : Int} (hk : 1 ≤ k) :
    0 ≤ qfloor (qmul q (qint k)) ∧ qfloor (qmul q (qint k)) < k := by
  obtain ⟨h0, h1⟩ := hq
  have hden : 0 < q.den := lt_of_le_of_lt h0 h1
  constructor
  · show 0 ≤ Int.ediv (q.num * k) (q.den * 1)
    exact Int.ediv_nonneg (mul_nonneg h0 (by omega)) (by omega)
  · show Int.ediv (q.num * k) (q.den * 1) < k
    have heq : Int.ediv (q.num * k) (q.den * 1) = (q.num * k) / (q.den * 1) := rfl
    rw [heq, Int.ediv_lt_iff_lt_mul (by omega)]
    have h2 : q.num * k < q.den * k :=
      mul_lt_mul_of_pos_right h1 (by omega)
    nlinarith

/-- The room centre in plain integer terms. -/
theorem getRoomCenter_eq (r : Room) :
    getRoomCenter r = ((2 * r.x + r.width) / 2, (2 * r.y + r.height) / 2) := by
  unfold getRoomCenter qfloor qadd qdiv qint
  show (Int.ediv (r.x * (1 * 2) + r.width * 1 * 1) (1 * (1 * 2)),
        Int.ediv (r.y * (1 * 2) + r.height * 1 * 1) (1 * (1 * 2))) = _
  have e1 : r.x * (1 * 2) + r.width * 1 * 1 = 2 * r.x + r.width := by ring
  have e2 : r.y * (1 * 2) + r.height * 1 * 1 = 2 * r.y + r.height := by ring
  have e3 : (1 : Int) * (1 * 2) = 2 := by norm_num
  rw [e1, e2, e3]
  rfl

/-- The centre of a room with both dimensions at least 2 lies strictly
inside the room rectangle. -/
theorem getRoomCenter_bounds (r : Room) (hw : 2 ≤ r.width) (hh : 2 ≤ r.height) :
    r.x ≤ (getRoomCenter r).1 ∧ (getRoomCenter r).1 ≤ r.x + r.width - 1 ∧
    r.y ≤ (getRoomCenter r).2 ∧ (getRoomCenter r).2 ≤ r.y + r.height - 1 := by
  rw [getRoomCenter_eq]
  dsimp only
  omega

/-! ### Claim C6: the interactive-element precondition -/

/-- C6.  `addInteractiveElement` returns `true` exactly when the target
cell is in bounds and currently reads `Floor` (that conjunction is
`getCell s x y = some floor`); on success exactly one `{type, x, y, id}`
record is appended to the element list and the grid is untouched; on
failure the whole state is returned unchanged. -/
theorem claim_C6 (s : Gen) (t : String) (x y : Int) :
    ((addInteractiveElement s t x y).1 = true ↔ getCell s x y = some Cell.floor) ∧
    ((addInteractiveElement s t x y).1 = true →
      (addInteractiveElement s t x y).2.grid = s.grid ∧
      (addInteractiveElement s t x y).2.rooms = s.rooms ∧
      (addInteractiveElement s t x y).2.elems.length = s.elems.length + 1 ∧
      ∃ e : Elem, (addInteractiveElement s t x y).2.elems = s.elems ++ [e] ∧
        e.etype = t ∧ e.x = x ∧ e.y = y) ∧
    ((addInteractiveElement s t x y).1 = false → (addInteractiveElement s t x y).2 = s) := by
  unfold addInteractiveElement
  by_cases hcell : getCell s x y = some Cell.floor
  · rw [if_pos hcell]
    refine ⟨⟨fun _ => hcell, fun _ => rfl⟩, fun _ => ?_, fun hfalse => by simp at hfalse⟩
    refine ⟨by simp, by simp, by simp, ⟨⟨t, x, y, (randNext s).1⟩, by simp, rfl, rfl, rfl⟩⟩
  · rw [if_neg hcell]
    exact ⟨⟨fun htrue => by simp at htrue, fun hc => absurd hc hcell⟩,
      fun htrue => by simp at htrue, fun _ => rfl⟩

/-- C6 witness: a concrete success (on a floor cell) and a concrete
failure (on a wall cell), both through `claim_C6`. -/
theorem claim_C6_witness :
    ((addInteractiveElement (setCell (mkGen 3 3 "dungeon" []) 1 1 Cell.floor)
        "treasure" 1 1).1 = true) ∧
    (addInteractiveElement (mkGen 3 3 "dungeon" []) "treasure" 1 1).2 =
      mkGen 3 3 "dungeon" [] :=
  ⟨(claim_C6 (setCell (mkGen 3 3 "dungeon" []) 1 1 Cell.floor) "treasure" 1 1).1.mpr
      (by decide),
   (claim_C6 (mkGen 3 3 "dungeon" []) "treasure" 1 1).2.2 (by decide)⟩

/-! ### Claim C8: the room proposal never mutates the generator -/

/-- C8.  `generateRoom` is a pure proposal: whether it returns a room
or rejects with `null`, the grid, room list, element list and every
other generator field except the random stream are unchanged. -/
theorem generateRoom_frame (s : Gen) (minS maxS : Int) (r? : Option Room) (s1 : Gen)
    (h : generateRoom s minS maxS = Except.ok (r?, s1)) :
    s1.grid = s.grid ∧ s1.rooms = s.rooms ∧ s1.elems = s.elems ∧
    s1.width = s.width ∧ s1.height = s.height ∧ s1.theme = s.theme ∧ s1.oob = s.oob := by
  unfold generateRoom at h
  cases hts : themeStyle s.theme with
  | none =>
    rw [hts] at h
    exact Except.noConfusion h
  | some st =>
    rw [hts] at h
    rw [ite_eq_iff] at h
    rcases h with ⟨-, h⟩ | ⟨-, h⟩ <;>
    · simp only [Except.ok.injEq, Prod.mk.injEq] at h
      rw [← h.2]
      simp

theorem claim_C8 (s : Gen) (minS maxS : Int) (r? : Option Room) (s1 : Gen)
    (h : generateRoom s minS maxS = Except.ok (r?, s1)) :
    s1.grid = s.grid ∧ s1.rooms = s.rooms ∧ s1.elems = s.elems ∧
    s1.width = s.width ∧ s1.height = s.height ∧ s1.theme = s.theme ∧ s1.oob = s.oob :=
  generateRoom_frame s minS maxS r? s1 h

/-- C8 witness: the dungeon theme at a concrete state. -/
theorem claim_C8_witness :
    (mkGen 20 20 "dungeon" []).grid = (mkGen 20 20 "dungeon" []).grid ∧
    (mkGen 20 20 "dungeon" []).rooms = (mkGen 20 20 "dungeon" []).rooms ∧
    (mkGen 20 20 "dungeon" []).elems = (mkGen 20 20 "dungeon" []).elems ∧
    (mkGen 20 20 "dungeon" []).width = (mkGen 20 20 "dungeon" []).width ∧
    (mkGen 20 20 "dungeon" []).height = (mkGen 20 20 "dungeon" []).height ∧
    (mkGen 20 20 "dungeon" []).theme = (mkGen 20 20 "dungeon" []).theme ∧
    (mkGen 20 20 "dungeon" []).oob = (mkGen 20 20 "dungeon" []).oob :=
  claim_C8 (mkGen 20 20 "dungeon" []) 4 10
    (some ⟨1, 1, 4, 4⟩) (mkGen 20 20 "dungeon" []) (by rfl)

/-! ### Claim C10: unknown theme keys -/

/-- One unfolding step of the sampling loop. -/
theorem roomsLoopAux_step (rc f : Nat) (s : Gen) (att : Nat) :
    roomsLoopAux rc (f + 1) s att =
      if s.rooms.length < rc then
        match generateRoom s 4 10 with
        | Except.error e => Except.error e
        | Except.ok (none, s1) => roomsLoopAux rc f s1 (att + 1)
        | Except.ok (some r, s1) =>
          match carveRoom { s1 with rooms := s1.rooms ++ [r] } r with
          | Except.error e => Except.error e
          | Except.ok s2 => roomsLoopAux rc f s2 (att + 1)
      else Except.ok (s, att) := rfl

/-- C10.  With a theme key missing from the theme table, `generate`
throws (the first room proposal dereferences the missing configuration)
whenever at least one room is requested, and returns the untouched
all-wall state when zero rooms are requested. -/
theorem claim_C10 (w h : Nat) (key : String) (rng : List Q)
    (hkey : themeStyle key = none) :
    (∀ rc : Nat, 1 ≤ rc → generate (mkGen w h key rng) rc = Except.error ()) ∧
    generate (mkGen w h key rng) 0 = Except.ok (mkGen w h key rng) := by
  constructor
  · intro rc hrc
    have h0 : (mkGen w h key rng).rooms.length < rc := by
      show (0 : Nat) < rc
      omega
    unfold generate generatePre
    rw [show (100 : Nat) = 99 + 1 from rfl, roomsLoopAux_step, if_pos h0]
    unfold generateRoom
    have hkey2 : themeStyle (mkGen w h key rng).theme = none := hkey
    rw [hkey2]
  · rfl

/-- C10 witness: the key `"swamp"` is not in the theme table. -/
theorem claim_C10_witness :
    (generate (mkGen 20 20 "swamp" []) 1 = Except.error ()) ∧
    generate (mkGen 20 20 "swamp" []) 0 = Except.ok (mkGen 20 20 "swamp" []) :=
  ⟨(claim_C10 20 20 "swamp" [] (by decide)).1 1 (by decide),
   (claim_C10 20 20 "swamp" [] (by decide)).2⟩

/-! ### The rectangular carve, cell by cell -/

/-- A cell inside a room's rectangle. -/
def inRect (r : Room) (a b : Int) : Prop :=
  r.x ≤ a ∧ a < r.x + r.width ∧ r.y ≤ b ∧ b < r.y + r.height

instance (r : Room) (a b : Int) : Decidable (inRect r a b) :=
  inferInstanceAs (Decidable (_ ∧ _ ∧ _ ∧ _))

theorem carveRowAux_getCell (y : Int) (n : Nat) (x0 : Int) (s : Gen) (a b : Int) :
    getCell (carveRowAux y n x0 s) a b =
      if b = y ∧ x0 ≤ a ∧ a < x0 + n then (getCell s a b).map (fun _ => Cell.floor)
      else getCell s a b := by
  induction n generalizing x0 s with
  | zero =>
    show getCell s a b = _
    rw [if_neg (by omega)]
  | succ n ih =>
    show getCell (carveRowAux y n (x0 + 1) (setCell s x0 y Cell.floor)) a b = _
    rw [ih, getCell_setCell]
    by_cases hb : b = y
    · subst hb
      by_cases ha0 : a = x0
      · subst ha0
        rw [if_neg (by omega), if_pos ⟨rfl, rfl⟩, if_pos (by omega)]
      · by_cases hin : x0 + 1 ≤ a ∧ a < x0 + 1 + n
        · rw [if_pos ⟨rfl, hin⟩, if_neg (by omega), if_pos (by omega)]
        · rw [if_neg (by omega), if_neg (by omega), if_neg (by omega)]
    · rw [if_neg (by omega), if_neg (by omega), if_neg (by omega)]

theorem carveRectAux_getCell (x0 : Int) (w : Nat) (n : Nat) (y0 : Int) (s : Gen)
    (a b : Int) :
    getCell (carveRectAux x0 w n y0 s) a b =
      if (x0 ≤ a ∧ a < x0 + w) ∧ y0 ≤ b ∧ b < y0 + n then
        (getCell s a b).map (fun _ => Cell.floor)
      else getCell s a b := by
  induction n generalizing y0 s with
  | zero =>
    show getCell s a b = _
    rw [if_neg (by omega)]
  | succ n ih =>
    show getCell (carveRectAux x0 w n (y0 + 1) (carveRowAux y0 w x0 s)) a b = _
    rw [ih, carveRowAux_getCell]
    by_cases hb : b = y0
    · subst hb
      by_cases hx : x0 ≤ a ∧ a < x0 + w
      · rw [if_neg (by omega), if_pos ⟨rfl, hx.1, hx.2⟩, if_pos (by omega)]
      · rw [if_neg (by omega), if_neg (by omega), if_neg (by omega)]
    · by_cases hrest : (x0 ≤ a ∧ a < x0 + w) ∧ y0 + 1 ≤ b ∧ b < y0 + 1 + n
      · rw [if_pos hrest, if_neg (by omega), if_pos (by omega)]
      · rw [if_neg hrest, if_neg (by omega), if_neg (by omega)]

/-- `carveStandardRoom` sets every cell of the rectangle to floor and
touches no other cell. -/
theorem carveStandardRoom_getCell (s : Gen) (r : Room) (a b : Int) :
    getCell (carveStandardRoom s r) a b =
      if inRect r a b then (getCell s a b).map (fun _ => Cell.floor)
      else getCell s a b := by
  unfold carveStandardRoom
  rw [carveRectAux_getCell]
  by_cases h : inRect r a b
  · rw [if_pos h, if_pos (by unfold inRect at h; omega)]
  · rw [if_neg h, if_neg (by unfold inRect at h; omega)]

/-! ### Claim C9: the two rectangular carves agree -/

/-- C9.  On the `dungeon` theme (rectangular style) the earlier
variant's `carveRoom` and the enhanced variant's `carveRoom` produce
identical states, and both set exactly the room rectangle to floor,
leaving every other cell untouched. -/
theorem claim_C9 (s : Gen) (r : Room) (hth : s.theme = "dungeon") :
    carveRoomV0 s r = carveRoom s r ∧
    ∀ s2, carveRoom s r = Except.ok s2 →
      ∀ a b, getCell s2 a b =
        if inRect r a b then (getCell s a b).map (fun _ => Cell.floor)
        else getCell s a b := by
  have hts : themeStyle s.theme = some RoomStyle.rectangular := by
    rw [hth]
    rfl
  constructor
  · unfold carveRoomV0 carveRoom
    rw [hts]
  · intro s2 h2
    unfold carveRoom at h2
    rw [hts] at h2
    injection h2 with h3
    rw [← h3]
    intro a b
    exact carveStandardRoom_getCell s r a b

/-- C9 witness: a concrete dungeon state and room, checked at one
inside cell and via the variant equality. -/
theorem claim_C9_witness :
    carveRoomV0 (mkGen 6 6 "dungeon" []) ⟨1, 1, 2, 2⟩ =
      carveRoom (mkGen 6 6 "dungeon" []) ⟨1, 1, 2, 2⟩ ∧
    getCell (carveStandardRoom (mkGen 6 6 "dungeon" []) ⟨1, 1, 2, 2⟩) 1 1 =
      if inRect ⟨1, 1, 2, 2⟩ 1 1 then
        (getCell (mkGen 6 6 "dungeon" []) 1 1).map (fun _ => Cell.floor)
      else getCell (mkGen 6 6 "dungeon" []) 1 1 :=
  ⟨(claim_C9 (mkGen 6 6 "dungeon" []) ⟨1, 1, 2, 2⟩ rfl).1,
   (claim_C9 (mkGen 6 6 "dungeon" []) ⟨1, 1, 2, 2⟩ rfl).2
     (carveStandardRoom (mkGen 6 6 "dungeon" []) ⟨1, 1, 2, 2⟩) rfl 1 1⟩

/-! ### Corridor loops, cell by cell -/

theorem map_floor_idem (o : Option Cell) :
    (o.map fun _ => Cell.floor).map (fun _ => Cell.floor) = o.map fun _ => Cell.floor := by
  cases o <;> rfl

theorem corrDirStep_cases (x x2 : Int) :
    (x < x2 ∧ corrDirStep x x2 = x + 1) ∨ (¬x < x2 ∧ corrDirStep x x2 = x - 1) := by
  unfold corrDirStep
  split
  · exact Or.inl ⟨‹_›, rfl⟩
  · exact Or.inr ⟨‹_›, rfl⟩

theorem corrDirStep_natAbs {x x2 : Int} (h : x ≠ x2) :
    (corrDirStep x x2 - x2).natAbs + 1 = (x - x2).natAbs := by
  rcases corrDirStep_cases x x2 with ⟨h1, h2⟩ | ⟨h1, h2⟩ <;> rw [h2] <;> omega

theorem corrH_reach (x2 y : Int) (f : Nat) (x : Int) (s : Gen)
    (hf : (x - x2).natAbs ≤ f) : (corrH x2 y f x s).2 = x2 := by
  induction f generalizing x s with
  | zero =>
    show x = x2
    omega
  | succ f ih =>
    show (if x = x2 then ((s, x) : Gen × Int)
      else corrH x2 y f (corrDirStep x x2) (setCell s x y Cell.floor)).2 = x2
    by_cases hx : x = x2
    · rw [if_pos hx]
      exact hx
    · rw [if_neg hx]
      exact ih _ _ (by have := corrDirStep_natAbs hx; omega)

theorem corrH_frame (x2 y : Int) (f : Nat) (x : Int) (s : Gen) :
    (corrH x2 y f x s).1.width = s.width ∧ (corrH x2 y f x s).1.height = s.height ∧
    (corrH x2 y f x s).1.theme = s.theme ∧ (corrH x2 y f x s).1.rooms = s.rooms ∧
    (corrH x2 y f x s).1.elems = s.elems ∧ (corrH x2 y f x s).1.rng = s.rng := by
  induction f generalizing x s with
  | zero => exact ⟨rfl, rfl, rfl, rfl, rfl, rfl⟩
  | succ f ih =>
    by_cases hx : x = x2
    · have he : corrH x2 y (f + 1) x s = (s, x) := by
        simp only [corrH]
        rw [if_pos hx]

      rw [he]
      exact ⟨rfl, rfl, rfl, rfl, rfl, rfl⟩
    · have he : corrH x2 y (f + 1) x s =
          corrH x2 y f (corrDirStep x x2) (setCell s x y Cell.floor) := by
        simp only [corrH]
        rw [if_neg hx]
      rw [he]
      have h2 := ih (corrDirStep x x2) (setCell s x y Cell.floor)
      rw [setCell_width, setCell_height, setCell_theme, setCell_rooms, setCell_elems,
        setCell_rng] at h2
      exact h2

/-- Exact description of the horizontal corridor loop run with fuel
equal to the remaining distance: it floors precisely the cells
`(a, y)` with `a` between `x` and `x2`, excluding the end `x2`
itself. -/
theorem corrH_exact (x2 y : Int) (x : Int) (s : Gen) (a b : Int) :
    getCell (corrH x2 y (x - x2).natAbs x s).1 a b =
      if b = y ∧ min x x2 ≤ a ∧ a ≤ max x x2 ∧ a ≠ x2 then
        (getCell s a b).map (fun _ => Cell.floor)
      else getCell s a b := by
  generalize hn : (x - x2).natAbs = n
  induction n generalizing x s with
  | zero =>
    show getCell s a b = _
    rw [if_neg (by omega)]
  | succ n ih =>
    have hx : x ≠ x2 := by omega
    show getCell (if x = x2 then ((s, x) : Gen × Int)
      else corrH x2 y n (corrDirStep x x2) (setCell s x y Cell.floor)).1 a b = _
    rw [if_neg hx]
    have hstep := corrDirStep_natAbs hx
    have hrec := ih (corrDirStep x x2) (setCell s x y Cell.floor) (by omega)
    rw [hrec, getCell_setCell]
    rcases corrDirStep_cases x x2 with ⟨h1, h2⟩ | ⟨h1, h2⟩ <;> rw [h2] at *
    · by_cases hb : b = y
      · subst hb
        by_cases ha0 : a = x
        · subst ha0
          rw [if_neg (by omega), if_pos ⟨rfl, rfl⟩, if_pos (by omega)]
        · by_cases hin : min (x + 1) x2 ≤ a ∧ a ≤ max (x + 1) x2 ∧ a ≠ x2
          · rw [if_pos ⟨rfl, hin⟩, if_neg (by omega), if_pos (by omega)]
          · rw [if_neg (by omega), if_neg (by omega), if_neg (by omega)]
      · rw [if_neg (by omega), if_neg (by omega), if_neg (by omega)]
    · by_cases hb : b = y
      · subst hb
        by_cases ha0 : a = x
        · subst ha0
          rw [if_neg (by omega), if_pos ⟨rfl, rfl⟩, if_pos (by omega)]
        · by_cases hin : min (x - 1) x2 ≤ a ∧ a ≤ max (x - 1) x2 ∧ a ≠ x2
          · rw [if_pos ⟨rfl, hin⟩, if_neg (by omega), if_pos (by omega)]
          · rw [if_neg (by omega), if_neg (by omega), if_neg (by omega)]
      · rw [if_neg (by omega), if_neg (by omega), if_neg (by omega)]

theorem corrV_reach (y2 x : Int) (f : Nat) (y : Int) (s : Gen)
    (hf : (y - y2).natAbs ≤ f) : (corrV y2 x f y s).2 = y2 := by
  induction f generalizing y s with
  | zero =>
    show y = y2
    omega
  | succ f ih =>
    show (if y = y2 then ((s, y) : Gen × Int)
      else corrV y2 x f (corrDirStep y y2) (setCell s x y Cell.floor)).2 = y2
    by_cases hy : y = y2
    · rw [if_pos hy]
      exact hy
    · rw [if_neg hy]
      exact ih _ _ (by have := corrDirStep_natAbs hy; omega)

theorem corrV_frame (y2 x : Int) (f : Nat) (y : Int) (s : Gen) :
    (corrV y2 x f y s).1.width = s.width ∧ (corrV y2 x f y s).1.height = s.height ∧
    (corrV y2 x f y s).1.theme = s.theme ∧ (corrV y2 x f y s).1.rooms = s.rooms ∧
    (corrV y2 x f y s).1.elems = s.elems ∧ (corrV y2 x f y s).1.rng = s.rng := by
  induction f generalizing y s with
  | zero => exact ⟨rfl, rfl, rfl, rfl, rfl, rfl⟩
  | succ f ih =>
    by_cases hy : y = y2
    · have he : corrV y2 x (f + 1) y s = (s, y) := by
        simp only [corrV]
        rw [if_pos hy]
      rw [he]
      exact ⟨rfl, rfl, rfl, rfl, rfl, rfl⟩
    · have he : corrV y2 x (f + 1) y s =
          corrV y2 x f (corrDirStep y y2) (setCell s x y Cell.floor) := by
        simp only [corrV]
        rw [if_neg hy]
      rw [he]
      have h2 := ih (corrDirStep y y2) (setCell s x y Cell.floor)
      rw [setCell_width, setCell_height, setCell_theme, setCell_rooms, setCell_elems,
        setCell_rng] at h2
      exact h2

/-- Exact description of the vertical corridor loop. -/
theorem corrV_exact (y2 x : Int) (y : Int) (s : Gen) (a b : Int) :
    getCell (corrV y2 x (y - y2).natAbs y s).1 a b =
      if a = x ∧ min y y2 ≤ b ∧ b ≤ max y y2 ∧ b ≠ y2 then
        (getCell s a b).map (fun _ => Cell.floor)
      else getCell s a b := by
  generalize hn : (y - y2).natAbs = n
  induction n generalizing y s with
  | zero =>
    show getCell s a b = _
    rw [if_neg (by omega)]
  | succ n ih =>
    have hy : y ≠ y2 := by omega
    show getCell (if y = y2 then ((s, y) : Gen × Int)
      else corrV y2 x n (corrDirStep y y2) (setCell s x y Cell.floor)).1 a b = _
    rw [if_neg hy]
    have hstep := corrDirStep_natAbs hy
    have hrec := ih (corrDirStep y y2) (setCell s x y Cell.floor) (by omega)
    rw [hrec, getCell_setCell]
    rcases corrDirStep_cases y y2 with ⟨h1, h2⟩ | ⟨h1, h2⟩ <;> rw [h2] at *
    · by_cases ha : a = x
      · subst ha
        by_cases hb0 : b = y
        · subst hb0
          rw [if_neg (by omega), if_pos ⟨rfl, rfl⟩, if_pos (by omega)]
        · by_cases hin : min (y + 1) y2 ≤ b ∧ b ≤ max (y + 1) y2 ∧ b ≠ y2
          · rw [if_pos ⟨rfl, hin⟩, if_neg (by omega), if_pos (by omega)]
          · rw [if_neg (by omega), if_neg (by omega), if_neg (by omega)]
      · rw [if_neg (by omega), if_neg (by omega), if_neg (by omega)]
    · by_cases ha : a = x
      · subst ha
        by_cases hb0 : b = y
        · subst hb0
          rw [if_neg (by omega), if_pos ⟨rfl, rfl⟩, if_pos (by omega)]
        · by_cases hin : min (y - 1) y2 ≤ b ∧ b ≤ max (y - 1) y2 ∧ b ≠ y2
          · rw [if_pos ⟨rfl, hin⟩, if_neg (by omega), if_pos (by omega)]
          · rw [if_neg (by omega), if_neg (by omega), if_neg (by omega)]
      · rw [if_neg (by omega), if_neg (by omega), if_neg (by omega)]

/-- Each organic-corridor movement strictly decreases the remaining
taxicab distance to the target, by exactly one. -/
theorem organicStep_decreases (x y x2 y2 : Int) (h : ¬(x = x2 ∧ y = y2)) :
    ((organicStep x y x2 y2).1 - x2).natAbs + ((organicStep x y x2 y2).2 - y2).natAbs + 1 =
      (x - x2).natAbs + (y - y2).natAbs := by
  unfold organicStep
  split
  · rename_i hgt
    have hx : x ≠ x2 := by omega
    have hstep := corrDirStep_natAbs hx
    dsimp only
    omega
  · rename_i hle
    have hy : y ≠ y2 := by omega
    have hstep := corrDirStep_natAbs hy
    dsimp only
    omega

theorem corrOrganic_reach (x2 y2 : Int) (f : Nat) (x y : Int) (s : Gen)
    (hf : (x - x2).natAbs + (y - y2).natAbs ≤ f) :
    (corrOrganic x2 y2 f x y s).2.1 = x2 ∧ (corrOrganic x2 y2 f x y s).2.2 = y2 := by
  induction f generalizing x y s with
  | zero =>
    show x = x2 ∧ y = y2
    omega
  | succ f ih =>
    by_cases hxy : x = x2 ∧ y = y2
    · have he : corrOrganic x2 y2 (f + 1) x y s = (s, x, y) := by
        simp only [corrOrganic]
        rw [if_pos hxy]
      rw [he]
      exact hxy
    · have he : corrOrganic x2 y2 (f + 1) x y s =
          corrOrganic x2 y2 f (organicStep x y x2 y2).1 (organicStep x y x2 y2).2
            (setCell s x y Cell.floor) := by
        simp only [corrOrganic]
        rw [if_neg hxy]
      rw [he]
      have hdec := organicStep_decreases x y x2 y2 hxy
      exact ih _ _ _ (by omega)

theorem corrOrganic_frame (x2 y2 : Int) (f : Nat) (x y : Int) (s : Gen) :
    (corrOrganic x2 y2 f x y s).1.width = s.width ∧
    (corrOrganic x2 y2 f x y s).1.height = s.height ∧
    (corrOrganic x2 y2 f x y s).1.theme = s.theme ∧
    (corrOrganic x2 y2 f x y s).1.rooms = s.rooms ∧
    (corrOrganic x2 y2 f x y s).1.elems = s.elems ∧
    (corrOrganic x2 y2 f x y s).1.rng = s.rng := by
  induction f generalizing x y s with
  | zero => exact ⟨rfl, rfl, rfl, rfl, rfl, rfl⟩
  | succ f ih =>
    by_cases hxy : x = x2 ∧ y = y2
    · have he : corrOrganic x2 y2 (f + 1) x y s = (s, x, y) := by
        simp only [corrOrganic]
        rw [if_pos hxy]
      rw [he]
      exact ⟨rfl, rfl, rfl, rfl, rfl, rfl⟩
    · have he : corrOrganic x2 y2 (f + 1) x y s =
          corrOrganic x2 y2 f (organicStep x y x2 y2).1 (organicStep x y x2 y2).2
            (setCell s x y Cell.floor) := by
        simp only [corrOrganic]
        rw [if_neg hxy]
      rw [he]
      have h2 := ih (organicStep x y x2 y2).1 (organicStep x y x2 y2).2
        (setCell s x y Cell.floor)
      rw [setCell_width, setCell_height, setCell_theme, setCell_rooms, setCell_elems,
        setCell_rng] at h2
      exact h2

theorem corrOrganic_floorOnly (x2 y2 : Int) (f : Nat) (a b : Int) (x y : Int) (s : Gen) :
    getCell (corrOrganic x2 y2 f x y s).1 a b = getCell s a b ∨
    getCell (corrOrganic x2 y2 f x y s).1 a b = (getCell s a b).map (fun _ => Cell.floor) := by
  induction f generalizing x y s with
  | zero => exact Or.inl rfl
  | succ f ih =>
    by_cases hxy : x = x2 ∧ y = y2
    · have he : corrOrganic x2 y2 (f + 1) x y s = (s, x, y) := by
        simp only [corrOrganic]
        rw [if_pos hxy]
      rw [he]
      exact Or.inl rfl
    · have he : corrOrganic x2 y2 (f + 1) x y s =
          corrOrganic x2 y2 f (organicStep x y x2 y2).1 (organicStep x y x2 y2).2
            (setCell s x y Cell.floor) := by
        simp only [corrOrganic]
        rw [if_neg hxy]
      rw [he]
      rcases ih (organicStep x y x2 y2).1 (organicStep x y x2 y2).2
          (setCell s x y Cell.floor) with h | h
      · rw [h, getCell_setCell]
        by_cases hab : a = x ∧ b = y
        · obtain ⟨rfl, rfl⟩ := hab
          rw [if_pos ⟨rfl, rfl⟩]
          exact Or.inr rfl
        · rw [if_neg hab]
          exact Or.inl rfl
      · rw [h, getCell_setCell]
        by_cases hab : a = x ∧ b = y
        · obtain ⟨rfl, rfl⟩ := hab
          rw [if_pos ⟨rfl, rfl⟩]
          exact Or.inr (map_floor_idem _)
        · rw [if_neg hab]
          exact Or.inr rfl

theorem corrH_oob (x2 y : Int) (f : Nat) (x : Int) (s : Gen)
    (hWF : WF s) (hoob : s.oob = false)
    (hb : 0 ≤ min x x2 ∧ max x x2 < (s.width : Int) ∧ 0 ≤ y ∧ y < (s.height : Int)) :
    (corrH x2 y f x s).1.oob = false ∧ WF (corrH x2 y f x s).1 := by
  induction f generalizing x s with
  | zero => exact ⟨hoob, hWF⟩
  | succ f ih =>
    by_cases hx : x = x2
    · have he : corrH x2 y (f + 1) x s = (s, x) := by
        simp only [corrH]
        rw [if_pos hx]
      rw [he]
      exact ⟨hoob, hWF⟩
    · have he : corrH x2 y (f + 1) x s =
          corrH x2 y f (corrDirStep x x2) (setCell s x y Cell.floor) := by
        simp only [corrH]
        rw [if_neg hx]
      rw [he]
      have hsome : (getCell s x y).isSome := by
        rw [getCell_isSome_iff s hWF]
        omega
      refine ih (corrDirStep x x2) (setCell s x y Cell.floor) ?_ ?_ ?_
      · exact WF_setCell s x y Cell.floor hWF
      · rw [setCell_oob_of_isSome s x y Cell.floor hsome]
        exact hoob
      · rw [setCell_width, setCell_height]
        rcases corrDirStep_cases x x2 with ⟨h1, h2⟩ | ⟨h1, h2⟩ <;> rw [h2] <;> omega

theorem corrV_oob (y2 x : Int) (f : Nat) (y : Int) (s : Gen)
    (hWF : WF s) (hoob : s.oob = false)
    (hb : 0 ≤ x ∧ x < (s.width : Int) ∧ 0 ≤ min y y2 ∧ max y y2 < (s.height : Int)) :
    (corrV y2 x f y s).1.oob = false ∧ WF (corrV y2 x f y s).1 := by
  induction f generalizing y s with
  | zero => exact ⟨hoob, hWF⟩
  | succ f ih =>
    by_cases hy : y = y2
    · have he : corrV y2 x (f + 1) y s = (s, y) := by
        simp only [corrV]
        rw [if_pos hy]
      rw [he]
      exact ⟨hoob, hWF⟩
    · have he : corrV y2 x (f + 1) y s =
          corrV y2 x f (corrDirStep y y2) (setCell s x y Cell.floor) := by
        simp only [corrV]
        rw [if_neg hy]
      rw [he]
      have hsome : (getCell s x y).isSome := by
        rw [getCell_isSome_iff s hWF]
        omega
      refine ih (corrDirStep y y2) (setCell s x y Cell.floor) ?_ ?_ ?_
      · exact WF_setCell s x y Cell.floor hWF
      · rw [setCell_oob_of_isSome s x y Cell.floor hsome]
        exact hoob
      · rw [setCell_width, setCell_height]
        rcases corrDirStep_cases y y2 with ⟨h1, h2⟩ | ⟨h1, h2⟩ <;> rw [h2] <;> omega

theorem corrOrganic_oob (x2 y2 : Int) (f : Nat) (x y : Int) (s : Gen)
    (hWF : WF s) (hoob : s.oob = false)
    (hb : 0 ≤ min x x2 ∧ max x x2 < (s.width : Int) ∧
      0 ≤ min y y2 ∧ max y y2 < (s.height : Int)) :
    (corrOrganic x2 y2 f x y s).1.oob = false ∧ WF (corrOrganic x2 y2 f x y s).1 := by
  induction f generalizing x y s with
  | zero => exact ⟨hoob, hWF⟩
  | succ f ih =>
    by_cases hxy : x = x2 ∧ y = y2
    · have he : corrOrganic x2 y2 (f + 1) x y s = (s, x, y) := by
        simp only [corrOrganic]
        rw [if_pos hxy]
      rw [he]
      exact ⟨hoob, hWF⟩
    · have he : corrOrganic x2 y2 (f + 1) x y s =
          corrOrganic x2 y2 f (organicStep x y x2 y2).1 (organicStep x y x2 y2).2
            (setCell s x y Cell.floor) := by
        simp only [corrOrganic]
        rw [if_neg hxy]
      rw [he]
      have hsome : (getCell s x y).isSome := by
        rw [getCell_isSome_iff s hWF]
        omega
      refine ih (organicStep x y x2 y2).1 (organicStep x y x2 y2).2
        (setCell s x y Cell.floor) ?_ ?_ ?_
      · exact WF_setCell s x y Cell.floor hWF
      · rw [setCell_oob_of_isSome s x y Cell.floor hsome]
        exact hoob
      · rw [setCell_width, setCell_height]
        unfold organicStep
        split
        · dsimp only
          rcases corrDirStep_cases x x2 with ⟨h1, h2⟩ | ⟨h1, h2⟩ <;> rw [h2] <;> omega
        · dsimp only
          rcases corrDirStep_cases y y2 with ⟨h3, h4⟩ | ⟨h3, h4⟩ <;> rw [h4] <;> omega

/-! ### Claim C7: the L-shaped corridor carves exactly its path -/

/-- The L-shaped path from `(x1,y1)` to `(x2,y2)`: the horizontal leg
at row `y1` between `x1` and `x2` inclusive, then the vertical leg at
column `x2` between `y1` and `y2` inclusive. -/
def onLPath (x1 y1 x2 y2 a b : Int) : Prop :=
  (b = y1 ∧ min x1 x2 ≤ a ∧ a ≤ max x1 x2) ∨
  (a = x2 ∧ min y1 y2 ≤ b ∧ b ≤ max y1 y2)

instance (x1 y1 x2 y2 a b : Int) : Decidable (onLPath x1 y1 x2 y2 a b) :=
  inferInstanceAs (Decidable (_ ∨ _))

/-- The composed standard corridor (horizontal leg, vertical leg, then
the final explicit carve) floors exactly the L-shaped path. -/
theorem corrL_spec (s : Gen) (x1 y1 x2 y2 : Int) (a b : Int) :
    getCell (setCell (corrV y2 (corrH x2 y1 (x1 - x2).natAbs x1 s).2 (y1 - y2).natAbs y1
        (corrH x2 y1 (x1 - x2).natAbs x1 s).1).1
      (corrH x2 y1 (x1 - x2).natAbs x1 s).2
      (corrV y2 (corrH x2 y1 (x1 - x2).natAbs x1 s).2 (y1 - y2).natAbs y1
        (corrH x2 y1 (x1 - x2).natAbs x1 s).1).2 Cell.floor) a b =
      if onLPath x1 y1 x2 y2 a b then (getCell s a b).map (fun _ => Cell.floor)
      else getCell s a b := by
  have hx2 : (corrH x2 y1 (x1 - x2).natAbs x1 s).2 = x2 :=
    corrH_reach _ _ _ _ _ le_rfl
  rw [hx2]
  have hy2 : (corrV y2 x2 (y1 - y2).natAbs y1
      (corrH x2 y1 (x1 - x2).natAbs x1 s).1).2 = y2 :=
    corrV_reach _ _ _ _ _ le_rfl
  rw [hy2, getCell_setCell, corrV_exact, corrV_exact, corrH_exact, corrH_exact]
  by_cases hfin : a = x2 ∧ b = y2
  · obtain ⟨rfl, rfl⟩ := hfin
    rw [if_pos ⟨rfl, rfl⟩, if_neg (by omega), if_neg (by omega),
      if_pos (show onLPath x1 y1 a b a b from Or.inr ⟨rfl, by omega, by omega⟩)]
  · rw [if_neg hfin]
    by_cases hv : a = x2 ∧ min y1 y2 ≤ b ∧ b ≤ max y1 y2 ∧ b ≠ y2
    · rw [if_pos hv, if_neg (by omega),
        if_pos (show onLPath x1 y1 x2 y2 a b from Or.inr ⟨hv.1, hv.2.1, hv.2.2.1⟩)]
    · rw [if_neg hv]
      by_cases hh : b = y1 ∧ min x1 x2 ≤ a ∧ a ≤ max x1 x2 ∧ a ≠ x2
      · rw [if_pos hh,
          if_pos (show onLPath x1 y1 x2 y2 a b from Or.inl ⟨hh.1, hh.2.1, hh.2.2.1⟩)]
      · rw [if_neg hh, if_neg (by
          intro hc
          unfold onLPath at hc
          omega)]

/-- C7.  For every non-organic theme and all integer endpoints,
`createCorridor` succeeds and sets to floor exactly the cells of the
L-shaped path — every cell on the path becomes floor (including the
explicitly carved destination) and every other cell is untouched.
Degenerate `x1 = x2` or `y1 = y2` legs collapse to a straight line,
which is the same statement. -/
theorem claim_C7 (s : Gen) (x1 y1 x2 y2 : Int) (st : RoomStyle)
    (hts : themeStyle s.theme = some st) (hst : st ≠ RoomStyle.organic) :
    createCorridor s x1 y1 x2 y2 ≠ Except.error () ∧
    ∀ s2, createCorridor s x1 y1 x2 y2 = Except.ok s2 →
      ∀ a b, getCell s2 a b =
        if onLPath x1 y1 x2 y2 a b then (getCell s a b).map (fun _ => Cell.floor)
        else getCell s a b := by
  cases st with
  | organic => exact absurd rfl hst
  | rectangular =>
    refine ⟨fun hbad => ?_, fun s2 h2 => ?_⟩
    · unfold createCorridor at hbad
      rw [hts] at hbad
      exact Except.noConfusion hbad
    · unfold createCorridor at h2
      rw [hts] at h2
      have h3 := Except.ok.inj h2
      rw [← h3]
      intro a b
      exact corrL_spec s x1 y1 x2 y2 a b
  | irregular =>
    refine ⟨fun hbad => ?_, fun s2 h2 => ?_⟩
    · unfold createCorridor at hbad
      rw [hts] at hbad
      exact Except.noConfusion hbad
    · unfold createCorridor at h2
      rw [hts] at h2
      have h3 := Except.ok.inj h2
      rw [← h3]
      intro a b
      exact corrL_spec s x1 y1 x2 y2 a b
  | formal =>
    refine ⟨fun hbad => ?_, fun s2 h2 => ?_⟩
    · unfold createCorridor at hbad
      rw [hts] at hbad
      exact Except.noConfusion hbad
    · unfold createCorridor at h2
      rw [hts] at h2
      have h3 := Except.ok.inj h2
      rw [← h3]
      intro a b
      exact corrL_spec s x1 y1 x2 y2 a b

/-- C7 witness: a concrete dungeon-theme corridor from `(1,1)` to
`(3,2)` on a 6×6 grid, checked at the corner cell of the L. -/
theorem claim_C7_witness :
    createCorridor (mkGen 6 6 "dungeon" []) 1 1 3 2 ≠ Except.error () ∧
    getCell (setCell (corrV 2 3 ((1 - 2 : Int)).natAbs 1
        (corrH 3 1 ((1 - 3 : Int)).natAbs 1 (mkGen 6 6 "dungeon" [])).1).1 3
        (corrV 2 3 ((1 - 2 : Int)).natAbs 1
          (corrH 3 1 ((1 - 3 : Int)).natAbs 1 (mkGen 6 6 "dungeon" [])).1).2 Cell.floor)
        3 1 =
      if onLPath 1 1 3 2 3 1 then
        (getCell (mkGen 6 6 "dungeon" []) 3 1).map (fun _ => Cell.floor)
      else getCell (mkGen 6 6 "dungeon" []) 3 1 :=
  ⟨(claim_C7 (mkGen 6 6 "dungeon" []) 1 1 3 2 RoomStyle.rectangular rfl (by decide)).1,
   (claim_C7 (mkGen 6 6 "dungeon" []) 1 1 3 2 RoomStyle.rectangular rfl (by decide)).2
     _ rfl 3 1⟩

/-! ### Claim C5: termination of the loops -/

theorem roomsLoopAux_att (rc f : Nat) (s : Gen) (att : Nat) (s1 : Gen) (att' : Nat)
    (h : roomsLoopAux rc f s att = Except.ok (s1, att')) : att' ≤ att + f := by
  induction f generalizing s att with
  | zero =>
    simp only [roomsLoopAux, Except.ok.injEq, Prod.mk.injEq] at h
    omega
  | succ f ih =>
    rw [roomsLoopAux_step] at h
    by_cases hlen : s.rooms.length < rc
    · rw [if_pos hlen] at h
      cases hgen : generateRoom s 4 10 with
      | error e =>
        rw [hgen] at h
        exact Except.noConfusion h
      | ok pr =>
        rw [hgen] at h
        obtain ⟨ro, s'⟩ := pr
        cases ro with
        | none =>
          have h' : roomsLoopAux rc f s' (att + 1) = Except.ok (s1, att') := h
          have := ih s' (att + 1) h'
          omega
        | some r =>
          have h' : (match carveRoom { s' with rooms := s'.rooms ++ [r] } r with
            | Except.error e => Except.error e
            | Except.ok s2 => roomsLoopAux rc f s2 (att + 1)) = Except.ok (s1, att') := h
          cases hcarve : carveRoom { s' with rooms := s'.rooms ++ [r] } r with
          | error e =>
            rw [hcarve] at h'
            exact Except.noConfusion h'
          | ok s2 =>
            rw [hcarve] at h'
            have := ih s2 (att + 1) h'
            omega
    · rw [if_neg hlen] at h
      simp only [Except.ok.injEq, Prod.mk.injEq] at h
      omega

/-- C5.  Termination of every loop in `generate`: the room-sampling
retry loop never exceeds 100 attempts; both corridor-loop step
functions strictly decrease the remaining distance to the target at
every iteration, for arbitrary integer endpoints; and with fuel equal
to that distance both corridor loops reach their target exactly. -/
theorem claim_C5 :
    (∀ (s : Gen) (rc : Nat) (s1 : Gen) (att : Nat),
        roomsLoopAux rc 100 s 0 = Except.ok (s1, att) → att ≤ 100) ∧
    (∀ x x2 : Int, x ≠ x2 → (corrDirStep x x2 - x2).natAbs < (x - x2).natAbs) ∧
    (∀ x y x2 y2 : Int, ¬(x = x2 ∧ y = y2) →
        ((organicStep x y x2 y2).1 - x2).natAbs + ((organicStep x y x2 y2).2 - y2).natAbs <
          (x - x2).natAbs + (y - y2).natAbs) ∧
    (∀ (s : Gen) (x1 y1 x2 y2 : Int),
        (corrOrganic x2 y2 ((x1 - x2).natAbs + (y1 - y2).natAbs) x1 y1 s).2 = (x2, y2) ∧
        (corrH x2 y1 (x1 - x2).natAbs x1 s).2 = x2 ∧
        (corrV y2 x2 (y1 - y2).natAbs y1 s).2 = y2) := by
  refine ⟨?_, ?_, ?_, ?_⟩
  · intro s rc s1 att h
    have := roomsLoopAux_att rc 100 s 0 s1 att h
    omega
  · intro x x2 hx
    have := corrDirStep_natAbs hx
    omega
  · intro x y x2 y2 hxy
    have := organicStep_decreases x y x2 y2 hxy
    omega
  · intro s x1 y1 x2 y2
    have hreach := corrOrganic_reach x2 y2 ((x1 - x2).natAbs + (y1 - y2).natAbs) x1 y1 s le_rfl
    refine ⟨?_, corrH_reach _ _ _ _ _ le_rfl, corrV_reach _ _ _ _ _ le_rfl⟩
    rw [Prod.ext_iff]
    exact ⟨hreach.1, hreach.2⟩

/-- C5 witness: the loop bounds at concrete inputs. -/
theorem claim_C5_witness :
    ((0 : Nat) ≤ 100) ∧
    ((corrDirStep 0 5 - 5).natAbs < ((0 : Int) - 5).natAbs) ∧
    (((organicStep 0 0 3 4).1 - 3).natAbs + ((organicStep 0 0 3 4).2 - 4).natAbs <
      ((0 : Int) - 3).natAbs + ((0 : Int) - 4).natAbs) ∧
    ((corrOrganic 3 3 (((1 : Int) - 3).natAbs + ((1 : Int) - 3).natAbs) 1 1
        (mkGen 5 5 "camp" [])).2 = (3, 3) ∧
      (corrH 3 1 (((1 : Int) - 3).natAbs) 1 (mkGen 5 5 "camp" [])).2 = 3 ∧
      (corrV 3 3 (((1 : Int) - 3).natAbs) 1 (mkGen 5 5 "camp" [])).2 = 3) :=
  ⟨claim_C5.1 (mkGen 5 5 "dungeon" []) 0 (mkGen 5 5 "dungeon" []) 0 rfl,
   claim_C5.2.1 0 5 (by decide),
   claim_C5.2.2.1 0 0 3 4 (by decide),
   claim_C5.2.2.2 (mkGen 5 5 "camp" []) 1 1 3 3⟩

/-! ### A carving step: the state evolves by flooring cells only -/

/-- One floor-carving evolution step: all generator fields except the
grid and the random stream are fixed, stream validity is preserved, and
every grid cell either keeps its reading or becomes floor. -/
def FloorStep (s s' : Gen) : Prop :=
  s'.width = s.width ∧ s'.height = s.height ∧ s'.theme = s.theme ∧
  s'.rooms = s.rooms ∧ s'.elems = s.elems ∧
  (validRng s.rng → validRng s'.rng) ∧
  ∀ a b, getCell s' a b = getCell s a b ∨
    getCell s' a b = (getCell s a b).map (fun _ => Cell.floor)

theorem FloorStep_refl (s : Gen) : FloorStep s s :=
  ⟨rfl, rfl, rfl, rfl, rfl, id, fun _ _ => Or.inl rfl⟩

theorem FloorStep_trans {s t u : Gen} (h1 : FloorStep s t) (h2 : FloorStep t u) :
    FloorStep s u := by
  obtain ⟨w1, h1', t1, r1, e1, v1, g1⟩ := h1
  obtain ⟨w2, h2', t2, r2, e2, v2, g2⟩ := h2
  refine ⟨w2.trans w1, h2'.trans h1', t2.trans t1, r2.trans r1, e2.trans e1,
    fun hv => v2 (v1 hv), fun a b => ?_⟩
  rcases g2 a b with hu | hu <;> rcases g1 a b with ht | ht
  · exact Or.inl (hu.trans ht)
  · exact Or.inr (hu.trans ht)
  · exact Or.inr (by rw [hu, ht])
  · exact Or.inr (by rw [hu, ht, map_floor_idem])

theorem FloorStep_setCell (s : Gen) (x y : Int) :
    FloorStep s (setCell s x y Cell.floor) := by
  refine ⟨setCell_width s x y _, setCell_height s x y _, setCell_theme s x y _,
    setCell_rooms s x y _, setCell_elems s x y _, ?_, fun a b => ?_⟩
  · rw [setCell_rng]
    exact id
  · rw [getCell_setCell]
    by_cases hab : a = x ∧ b = y
    · obtain ⟨rfl, rfl⟩ := hab
      rw [if_pos ⟨rfl, rfl⟩]
      exact Or.inr rfl
    · rw [if_neg hab]
      exact Or.inl rfl

theorem FloorStep_randNext (s : Gen) : FloorStep s (randNext s).2 := by
  rw [randNext_snd]
  exact ⟨rfl, rfl, rfl, rfl, rfl, fun hv => validRng_drop hv 1, fun _ _ => Or.inl rfl⟩

theorem FloorStep_carveRowAux (y : Int) (n : Nat) (x : Int) (s : Gen) :
    FloorStep s (carveRowAux y n x s) := by
  induction n generalizing x s with
  | zero => exact FloorStep_refl s
  | succ n ih =>
    exact FloorStep_trans (FloorStep_setCell s x y) (ih (x + 1) (setCell s x y Cell.floor))

theorem FloorStep_carveRectAux (x0 : Int) (w n : Nat) (y : Int) (s : Gen) :
    FloorStep s (carveRectAux x0 w n y s) := by
  induction n generalizing y s with
  | zero => exact FloorStep_refl s
  | succ n ih =>
    exact FloorStep_trans (FloorStep_carveRowAux y w x0 s)
      (ih (y + 1) (carveRowAux y w x0 s))

theorem FloorStep_carveIrrCell (r : Room) (x y : Int) (s : Gen) :
    FloorStep s (carveIrrCell r x y s) := by
  unfold carveIrrCell
  dsimp only
  split
  · exact FloorStep_trans (FloorStep_randNext s) (FloorStep_setCell (randNext s).2 x y)
  · exact FloorStep_randNext s

theorem FloorStep_carveIrrRow (r : Room) (y : Int) (n : Nat) (x : Int) (s : Gen) :
    FloorStep s (carveIrrRow r y n x s) := by
  induction n generalizing x s with
  | zero => exact FloorStep_refl s
  | succ n ih =>
    exact FloorStep_trans (FloorStep_carveIrrCell r x y s) (ih (x + 1) _)

theorem FloorStep_carveIrrRect (r : Room) (n : Nat) (y : Int) (s : Gen) :
    FloorStep s (carveIrrRect r n y s) := by
  induction n generalizing y s with
  | zero => exact FloorStep_refl s
  | succ n ih =>
    exact FloorStep_trans (FloorStep_carveIrrRow r y r.width.toNat r.x s) (ih (y + 1) _)

theorem FloorStep_carveCircCell (r : Room) (x y : Int) (s : Gen) :
    FloorStep s (carveCircCell r x y s) := by
  unfold carveCircCell
  split
  · exact FloorStep_setCell s x y
  · exact FloorStep_refl s

theorem FloorStep_carveCircRow (r : Room) (y : Int) (n : Nat) (x : Int) (s : Gen) :
    FloorStep s (carveCircRow r y n x s) := by
  induction n generalizing x s with
  | zero => exact FloorStep_refl s
  | succ n ih =>
    exact FloorStep_trans (FloorStep_carveCircCell r x y s) (ih (x + 1) _)

theorem FloorStep_carveCircRect (r : Room) (n : Nat) (y : Int) (s : Gen) :
    FloorStep s (carveCircRect r n y s) := by
  induction n generalizing y s with
  | zero => exact FloorStep_refl s
  | succ n ih =>
    exact FloorStep_trans (FloorStep_carveCircRow r y r.width.toNat r.x s) (ih (y + 1) _)

theorem FloorStep_carveOrgCell (r : Room) (x y : Int) (s : Gen) :
    FloorStep s (carveOrgCell r x y s) := by
  unfold carveOrgCell
  dsimp only
  split
  · split
    · exact FloorStep_trans (FloorStep_randNext s) (FloorStep_setCell (randNext s).2 x y)
    · exact FloorStep_randNext s
  · exact FloorStep_setCell s x y

theorem FloorStep_carveOrgRow (r : Room) (y : Int) (n : Nat) (x : Int) (s : Gen) :
    FloorStep s (carveOrgRow r y n x s) := by
  induction n generalizing x s with
  | zero => exact FloorStep_refl s
  | succ n ih =>
    exact FloorStep_trans (FloorStep_carveOrgCell r x y s) (ih (x + 1) _)

theorem FloorStep_carveOrgRect (r : Room) (n : Nat) (y : Int) (s : Gen) :
    FloorStep s (carveOrgRect r n y s) := by
  induction n generalizing y s with
  | zero => exact FloorStep_refl s
  | succ n ih =>
    exact FloorStep_trans (FloorStep_carveOrgRow r y r.width.toNat r.x s) (ih (y + 1) _)

theorem FloorStep_carveEdgeCell (r : Room) (x y : Int) (s : Gen) :
    FloorStep s (carveEdgeCell r x y s) := by
  unfold carveEdgeCell
  dsimp only
  split
  · split
    · exact FloorStep_trans (FloorStep_randNext s) (FloorStep_setCell (randNext s).2 x y)
    · exact FloorStep_randNext s
  · exact FloorStep_setCell s x y

theorem FloorStep_carveEdgeRow (r : Room) (y : Int) (n : Nat) (x : Int) (s : Gen) :
    FloorStep s (carveEdgeRow r y n x s) := by
  induction n generalizing x s with
  | zero => exact FloorStep_refl s
  | succ n ih =>
    exact FloorStep_trans (FloorStep_carveEdgeCell r x y s) (ih (x + 1) _)

theorem FloorStep_carveEdgeRect (r : Room) (n : Nat) (y : Int) (s : Gen) :
    FloorStep s (carveEdgeRect r n y s) := by
  induction n generalizing y s with
  | zero => exact FloorStep_refl s
  | succ n ih =>
    exact FloorStep_trans (FloorStep_carveEdgeRow r y r.width.toNat r.x s) (ih (y + 1) _)

theorem FloorStep_carveRoom (s : Gen) (r : Room) (s2 : Gen)
    (h : carveRoom s r = Except.ok s2) : FloorStep s s2 := by
  unfold carveRoom at h
  cases hts : themeStyle s.theme with
  | none =>
    rw [hts] at h
    exact Except.noConfusion h
  | some st =>
    rw [hts] at h
    cases st with
    | rectangular =>
      have h3 := Except.ok.inj h
      rw [← h3]
      exact FloorStep_carveRectAux r.x r.width.toNat r.height.toNat r.y s
    | irregular =>
      have h3 := Except.ok.inj h
      rw [← h3]
      exact FloorStep_carveIrrRect r r.height.toNat r.y s
    | organic =>
      have h3 := Except.ok.inj h
      rw [← h3]
      exact FloorStep_carveOrgRect r r.height.toNat r.y s
    | formal =>
      have h4 : (if qlt ⟨7, 10⟩ (randNext s).1 ∧ 6 ≤ r.width ∧ 6 ≤ r.height then
          Except.ok (carveCircularRoom (randNext s).2 r)
        else Except.ok (carveStandardRoom (randNext s).2 r)) = Except.ok s2 := h
      split at h4
      · have h3 := Except.ok.inj h4
        rw [← h3]
        exact FloorStep_trans (FloorStep_randNext s)
          (FloorStep_carveCircRect r r.height.toNat r.y (randNext s).2)
      · have h3 := Except.ok.inj h4
        rw [← h3]
        exact FloorStep_trans (FloorStep_randNext s)
          (FloorStep_carveRectAux r.x r.width.toNat r.height.toNat r.y (randNext s).2)

theorem FloorStep_corrH (x2 y : Int) (f : Nat) (x : Int) (s : Gen) :
    FloorStep s (corrH x2 y f x s).1 := by
  induction f generalizing x s with
  | zero => exact FloorStep_refl s
  | succ f ih =>
    by_cases hx : x = x2
    · have he : corrH x2 y (f + 1) x s = (s, x) := by
        simp only [corrH]
        rw [if_pos hx]
      rw [he]
      exact FloorStep_refl s
    · have he : corrH x2 y (f + 1) x s =
          corrH x2 y f (corrDirStep x x2) (setCell s x y Cell.floor) := by
        simp only [corrH]
        rw [if_neg hx]
      rw [he]
      exact FloorStep_trans (FloorStep_setCell s x y) (ih _ _)

theorem FloorStep_corrV (y2 x : Int) (f : Nat) (y : Int) (s : Gen) :
    FloorStep s (corrV y2 x f y s).1 := by
  induction f generalizing y s with
  | zero => exact FloorStep_refl s
  | succ f ih =>
    by_cases hy : y = y2
    · have he : corrV y2 x (f + 1) y s = (s, y) := by
        simp only [corrV]
        rw [if_pos hy]
      rw [he]
      exact FloorStep_refl s
    · have he : corrV y2 x (f + 1) y s =
          corrV y2 x f (corrDirStep y y2) (setCell s x y Cell.floor) := by
        simp only [corrV]
        rw [if_neg hy]
      rw [he]
      exact FloorStep_trans (FloorStep_setCell s x y) (ih _ _)

theorem FloorStep_corrOrganic (x2 y2 : Int) (f : Nat) (x y : Int) (s : Gen) :
    FloorStep s (corrOrganic x2 y2 f x y s).1 := by
  induction f generalizing x y s with
  | zero => exact FloorStep_refl s
  | succ f ih =>
    by_cases hxy : x = x2 ∧ y = y2
    · have he : corrOrganic x2 y2 (f + 1) x y s = (s, x, y) := by
        simp only [corrOrganic]
        rw [if_pos hxy]
      rw [he]
      exact FloorStep_refl s
    · have he : corrOrganic x2 y2 (f + 1) x y s =
          corrOrganic x2 y2 f (organicStep x y x2 y2).1 (organicStep x y x2 y2).2
            (setCell s x y Cell.floor) := by
        simp only [corrOrganic]
        rw [if_neg hxy]
      rw [he]
      exact FloorStep_trans (FloorStep_setCell s x y) (ih _ _ _)

theorem FloorStep_createCorridor (s : Gen) (x1 y1 x2 y2 : Int) (s2 : Gen)
    (h : createCorridor s x1 y1 x2 y2 = Except.ok s2) : FloorStep s s2 := by
  unfold createCorridor at h
  cases hts : themeStyle s.theme with
  | none =>
    rw [hts] at h
    exact Except.noConfusion h
  | some st =>
    rw [hts] at h
    cases st with
    | organic =>
      have h3 := Except.ok.inj h
      rw [← h3]
      exact FloorStep_trans (FloorStep_corrOrganic x2 y2 _ x1 y1 s)
        (FloorStep_setCell _ _ _)
    | rectangular =>
      have h3 := Except.ok.inj h
      rw [← h3]
      exact FloorStep_trans (FloorStep_corrH x2 y1 _ x1 s)
        (FloorStep_trans (FloorStep_corrV y2 _ _ y1 _) (FloorStep_setCell _ _ _))
    | irregular =>
      have h3 := Except.ok.inj h
      rw [← h3]
      exact FloorStep_trans (FloorStep_corrH x2 y1 _ x1 s)
        (FloorStep_trans (FloorStep_corrV y2 _ _ y1 _) (FloorStep_setCell _ _ _))
    | formal =>
      have h3 := Except.ok.inj h
      rw [← h3]
      exact FloorStep_trans (FloorStep_corrH x2 y1 _ x1 s)
        (FloorStep_trans (FloorStep_corrV y2 _ _ y1 _) (FloorStep_setCell _ _ _))

/-! ### The door pass: the state evolves by placing doors only -/

theorem map_door_idem (o : Option Cell) :
    (o.map fun _ => Cell.door).map (fun _ => Cell.door) = o.map fun _ => Cell.door := by
  cases o <;> rfl

/-- One door-placing evolution step: all fields except the grid are
fixed (the door pass draws no randoms) and every grid cell either keeps
its reading or becomes a door. -/
def DoorStep (s s' : Gen) : Prop :=
  s'.width = s.width ∧ s'.height = s.height ∧ s'.theme = s.theme ∧
  s'.rooms = s.rooms ∧ s'.elems = s.elems ∧ s'.rng = s.rng ∧
  ∀ a b, getCell s' a b = getCell s a b ∨
    getCell s' a b = (getCell s a b).map (fun _ => Cell.door)

theorem DoorStep_refl (s : Gen) : DoorStep s s :=
  ⟨rfl, rfl, rfl, rfl, rfl, rfl, fun _ _ => Or.inl rfl⟩

theorem DoorStep_trans {s t u : Gen} (h1 : DoorStep s t) (h2 : DoorStep t u) :
    DoorStep s u := by
  obtain ⟨w1, h1', t1, r1, e1, n1, g1⟩ := h1
  obtain ⟨w2, h2', t2, r2, e2, n2, g2⟩ := h2
  refine ⟨w2.trans w1, h2'.trans h1', t2.trans t1, r2.trans r1, e2.trans e1,
    n2.trans n1, fun a b => ?_⟩
  rcases g2 a b with hu | hu <;> rcases g1 a b with ht | ht
  · exact Or.inl (hu.trans ht)
  · exact Or.inr (hu.trans ht)
  · exact Or.inr (by rw [hu, ht])
  · exact Or.inr (by rw [hu, ht, map_door_idem])

theorem DoorStep_setCell (s : Gen) (x y : Int) :
    DoorStep s (setCell s x y Cell.door) := by
  refine ⟨setCell_width s x y _, setCell_height s x y _, setCell_theme s x y _,
    setCell_rooms s x y _, setCell_elems s x y _, setCell_rng s x y _, fun a b => ?_⟩
  rw [getCell_setCell]
  by_cases hab : a = x ∧ b = y
  · obtain ⟨rfl, rfl⟩ := hab
    rw [if_pos ⟨rfl, rfl⟩]
    exact Or.inr rfl
  · rw [if_neg hab]
    exact Or.inl rfl

theorem DoorStep_condSet (s : Gen) (c : Prop) [Decidable c] (x y : Int) :
    DoorStep s (if c then setCell s x y Cell.door else s) := by
  split
  · exact DoorStep_setCell s x y
  · exact DoorStep_refl s

theorem DoorStep_addDoorsWall (r : Room) (s : Gen) (wx wy : Int) :
    DoorStep s (addDoorsWall r s wx wy) := by
  unfold addDoorsWall
  dsimp only
  split
  · split
    · exact DoorStep_trans (DoorStep_condSet s _ _ _)
        (DoorStep_trans (DoorStep_condSet _ _ _ _)
          (DoorStep_trans (DoorStep_condSet _ _ _ _) (DoorStep_condSet _ _ _ _)))
    · exact DoorStep_refl s
  · exact DoorStep_refl s

theorem DoorStep_foldWalls (r : Room) (ws : List (Int × Int)) (s : Gen) :
    DoorStep s (ws.foldl (fun acc w => addDoorsWall r acc w.1 w.2) s) := by
  induction ws generalizing s with
  | nil => exact DoorStep_refl s
  | cons w ws ih =>
    exact DoorStep_trans (DoorStep_addDoorsWall r s w.1 w.2) (ih _)

theorem DoorStep_addDoorsRoom (s : Gen) (r : Room) : DoorStep s (addDoorsRoom s r) :=
  DoorStep_foldWalls r (wallsList r) s

theorem DoorStep_foldRooms (rs : List Room) (s : Gen) :
    DoorStep s (rs.foldl addDoorsRoom s) := by
  induction rs generalizing s with
  | nil => exact DoorStep_refl s
  | cons r rs ih =>
    exact DoorStep_trans (DoorStep_addDoorsRoom s r) (ih _)

theorem DoorStep_addDoors (s : Gen) : DoorStep s (addDoors s) :=
  DoorStep_foldRooms s.rooms s

/-! ### Grid evolution across the whole pre-door pipeline -/

/-- Grid-only part of `FloorStep`: cells only keep their reading or
become floor. -/
def GridFloorLe (s s' : Gen) : Prop :=
  ∀ a b, getCell s' a b = getCell s a b ∨
    getCell s' a b = (getCell s a b).map (fun _ => Cell.floor)

theorem GridFloorLe_refl (s : Gen) : GridFloorLe s s := fun _ _ => Or.inl rfl

theorem GridFloorLe_trans {s t u : Gen} (h1 : GridFloorLe s t) (h2 : GridFloorLe t u) :
    GridFloorLe s u := by
  intro a b
  rcases h2 a b with hu | hu <;> rcases h1 a b with ht | ht
  · exact Or.inl (hu.trans ht)
  · exact Or.inr (hu.trans ht)
  · exact Or.inr (by rw [hu, ht])
  · exact Or.inr (by rw [hu, ht, map_floor_idem])

theorem GridFloorLe_of_FloorStep {s s' : Gen} (h : FloorStep s s') : GridFloorLe s s' :=
  h.2.2.2.2.2.2

theorem GridFloorLe_of_grid_eq {s s' : Gen} (h : s'.grid = s.grid) : GridFloorLe s s' := by
  intro a b
  left
  unfold getCell
  rw [h]

theorem GridFloorLe_roomsLoopAux (rc f : Nat) (s : Gen) (att : Nat) (s1 : Gen) (att' : Nat)
    (h : roomsLoopAux rc f s att = Except.ok (s1, att')) : GridFloorLe s s1 := by
  induction f generalizing s att with
  | zero =>
    simp only [roomsLoopAux, Except.ok.injEq, Prod.mk.injEq] at h
    rw [← h.1]
    exact GridFloorLe_refl s
  | succ f ih =>
    rw [roomsLoopAux_step] at h
    by_cases hlen : s.rooms.length < rc
    · rw [if_pos hlen] at h
      cases hgen : generateRoom s 4 10 with
      | error e =>
        rw [hgen] at h
        exact Except.noConfusion h
      | ok pr =>
        rw [hgen] at h
        obtain ⟨ro, s'⟩ := pr
        have hfr := generateRoom_frame s 4 10 ro s' hgen
        cases ro with
        | none =>
          have h' : roomsLoopAux rc f s' (att + 1) = Except.ok (s1, att') := h
          exact GridFloorLe_trans (GridFloorLe_of_grid_eq hfr.1) (ih s' (att + 1) h')
        | some r =>
          have h' : (match carveRoom { s' with rooms := s'.rooms ++ [r] } r with
            | Except.error e => Except.error e
            | Except.ok s2 => roomsLoopAux rc f s2 (att + 1)) = Except.ok (s1, att') := h
          cases hcarve : carveRoom { s' with rooms := s'.rooms ++ [r] } r with
          | error e =>
            rw [hcarve] at h'
            exact Except.noConfusion h'
          | ok s2 =>
            rw [hcarve] at h'
            have hc : GridFloorLe { s' with rooms := s'.rooms ++ [r] } s2 :=
              GridFloorLe_of_FloorStep (FloorStep_carveRoom _ r s2 hcarve)
            have hg : GridFloorLe s { s' with rooms := s'.rooms ++ [r] } :=
              GridFloorLe_of_grid_eq hfr.1
            exact GridFloorLe_trans hg (GridFloorLe_trans hc (ih s2 (att + 1) h'))
    · rw [if_neg hlen] at h
      simp only [Except.ok.injEq, Prod.mk.injEq] at h
      rw [← h.1]
      exact GridFloorLe_refl s

theorem GridFloorLe_connectPhase (ps : List (Room × Room)) (s : Gen) (s2 : Gen)
    (h : connectPhase s ps = Except.ok s2) : GridFloorLe s s2 := by
  induction ps generalizing s with
  | nil =>
    have h2 := Except.ok.inj h
    rw [← h2]
    exact GridFloorLe_refl s
  | cons p ps ih =>
    obtain ⟨ra, rb⟩ := p
    have h' : (match createCorridor s (getRoomCenter ra).1 (getRoomCenter ra).2
        (getRoomCenter rb).1 (getRoomCenter rb).2 with
      | Except.error e => Except.error e
      | Except.ok s1 => connectPhase s1 ps) = Except.ok s2 := h
    cases hcc : createCorridor s (getRoomCenter ra).1 (getRoomCenter ra).2
        (getRoomCenter rb).1 (getRoomCenter rb).2 with
    | error e =>
      rw [hcc] at h'
      exact Except.noConfusion h'
    | ok s1 =>
      rw [hcc] at h'
      exact GridFloorLe_trans
        (GridFloorLe_of_FloorStep (FloorStep_createCorridor s _ _ _ _ s1 hcc)) (ih s1 h')

theorem pickRoomCenter_snd (s : Gen) : (pickRoomCenter s).2 = (randNext s).2 := rfl

theorem GridFloorLe_extraPhase (s : Gen) (s2 : Gen)
    (h : extraPhase s = Except.ok s2) : GridFloorLe s s2 := by
  unfold extraPhase at h
  by_cases hlen : 3 < s.rooms.length
  · rw [if_pos hlen] at h
    have h' : (match createCorridor (pickRoomCenter (pickRoomCenter s).2).2
        (pickRoomCenter s).1.1 (pickRoomCenter s).1.2
        (pickRoomCenter (pickRoomCenter s).2).1.1
        (pickRoomCenter (pickRoomCenter s).2).1.2 with
      | Except.error e => Except.error e
      | Except.ok s3 =>
        createCorridor (pickRoomCenter (pickRoomCenter s3).2).2
          (pickRoomCenter s3).1.1 (pickRoomCenter s3).1.2
          (pickRoomCenter (pickRoomCenter s3).2).1.1
          (pickRoomCenter (pickRoomCenter s3).2).1.2) = Except.ok s2 := h
    cases hcc : createCorridor (pickRoomCenter (pickRoomCenter s).2).2
        (pickRoomCenter s).1.1 (pickRoomCenter s).1.2
        (pickRoomCenter (pickRoomCenter s).2).1.1
        (pickRoomCenter (pickRoomCenter s).2).1.2 with
    | error e =>
      rw [hcc] at h'
      exact Except.noConfusion h'
    | ok s3 =>
      rw [hcc] at h'
      have e1 : (pickRoomCenter (pickRoomCenter s).2).2.grid = s.grid := by
        rw [pickRoomCenter_snd, pickRoomCenter_snd, randNext_grid, randNext_grid]
      have e2 : (pickRoomCenter (pickRoomCenter s3).2).2.grid = s3.grid := by
        rw [pickRoomCenter_snd, pickRoomCenter_snd, randNext_grid, randNext_grid]
      exact GridFloorLe_trans (GridFloorLe_of_grid_eq e1)
        (GridFloorLe_trans
          (GridFloorLe_of_FloorStep (FloorStep_createCorridor _ _ _ _ _ s3 hcc))
          (GridFloorLe_trans (GridFloorLe_of_grid_eq e2)
            (GridFloorLe_of_FloorStep (FloorStep_createCorridor _ _ _ _ _ s2 h'))))
  · rw [if_neg hlen] at h
    have h2 := Except.ok.inj h
    rw [← h2]
    exact GridFloorLe_refl s

theorem GridFloorLe_generatePre (s : Gen) (rc : Nat) (s3 : Gen)
    (h : generatePre s rc = Except.ok s3) : GridFloorLe s s3 := by
  unfold generatePre at h
  cases hloop : roomsLoopAux rc 100 s 0 with
  | error e =>
    rw [hloop] at h
    exact Except.noConfusion h
  | ok pr =>
    rw [hloop] at h
    obtain ⟨s1, att⟩ := pr
    have h' : (match connectPhase s1 (consecPairs s1.rooms) with
      | Except.error e => Except.error e
      | Except.ok s2 => extraPhase s2) = Except.ok s3 := h
    cases hconn : connectPhase s1 (consecPairs s1.rooms) with
    | error e =>
      rw [hconn] at h'
      exact Except.noConfusion h'
    | ok s2 =>
      rw [hconn] at h'
      exact GridFloorLe_trans (GridFloorLe_roomsLoopAux rc 100 s 0 s1 att hloop)
        (GridFloorLe_trans (GridFloorLe_connectPhase _ s1 s2 hconn)
          (GridFloorLe_extraPhase s2 s3 h'))

/-- A fresh grid reads wall everywhere it reads at all. -/
theorem getCell_mkGen_wall (w h : Nat) (t : String) (rng : List Q) (a b : Int) (c : Cell)
    (hc : getCell (mkGen w h t rng) a b = some c) : c = Cell.wall := by
  unfold getCell at hc
  by_cases hab : 0 ≤ b ∧ 0 ≤ a
  · rw [if_pos hab] at hc
    have hrepl : ((mkGen w h t rng).grid)[b.toNat]? =
        (if b.toNat < h then some (List.replicate w Cell.wall) else none) := by
      show (List.replicate h (List.replicate w Cell.wall))[b.toNat]? = _
      rw [List.getElem?_replicate]
    rw [hrepl] at hc
    by_cases hbh : b.toNat < h
    · rw [if_pos hbh] at hc
      have hc2 : (List.replicate w Cell.wall)[a.toNat]? = some c := hc
      rw [List.getElem?_replicate] at hc2
      by_cases haw : a.toNat < w
      · rw [if_pos haw] at hc2
        exact (Option.some_inj.mp hc2).symm
      · rw [if_neg haw] at hc2
        exact Option.noConfusion hc2
    · rw [if_neg hbh] at hc
      exact Option.noConfusion hc
  · rw [if_neg hab] at hc
    exact Option.noConfusion hc

/-! ### Claim C3: room separation -/

/-- The spec's margin expansion: the rectangle grown by one cell on
every side. -/
def expandRoom (r : Room) : Room :=
  ⟨r.x - 1, r.y - 1, r.width + 2, r.height + 2⟩

/-- Intersection of two axis-aligned integer rectangles. -/
def rectsIntersect (a b : Room) : Prop :=
  a.x < b.x + b.width ∧ b.x < a.x + a.width ∧
  a.y < b.y + b.height ∧ b.y < a.y + a.height

instance (a b : Room) : Decidable (rectsIntersect a b) :=
  inferInstanceAs (Decidable (_ ∧ _ ∧ _ ∧ _))

/-- The overlap test of `generateRoom` is exactly "the candidate
expanded by one cell intersects the existing room (unexpanded)". -/
theorem overlapsRoom_iff (x y w h : Int) (room : Room) :
    overlapsRoom x y w h room = true ↔ rectsIntersect (expandRoom ⟨x, y, w, h⟩) room := by
  unfold overlapsRoom rectsIntersect expandRoom
  simp only [Bool.and_eq_true, decide_eq_true_eq]
  omega

theorem sep_symm (a b : Room) (h : ¬rectsIntersect (expandRoom a) b) :
    ¬rectsIntersect (expandRoom b) a := by
  unfold rectsIntersect expandRoom at *
  dsimp only at *
  omega

/-- An accepted proposal is separated (with the one-cell margin) from
every previously accepted room. -/
theorem generateRoom_sep (s : Gen) (minS maxS : Int) (r : Room) (s1 : Gen)
    (h : generateRoom s minS maxS = Except.ok (some r, s1)) :
    ∀ room ∈ s.rooms, ¬rectsIntersect (expandRoom r) room := by
  unfold generateRoom at h
  cases hts : themeStyle s.theme with
  | none =>
    rw [hts] at h
    exact Except.noConfusion h
  | some st =>
    rw [hts] at h
    rw [ite_eq_iff] at h
    rcases h with ⟨hany, h⟩ | ⟨hany, h⟩
    · simp only [Except.ok.injEq, Prod.mk.injEq] at h
      exact Option.noConfusion h.1
    · simp only [Except.ok.injEq, Prod.mk.injEq, Option.some.injEq] at h
      intro room hmem
      have hf := Bool.eq_false_iff.mpr hany
      rw [List.any_eq_false] at hf
      rw [← h.1]
      intro hint
      exact hf room hmem ((overlapsRoom_iff _ _ _ _ room).mpr hint)

theorem roomsLoopAux_pairwise (rc f : Nat) (s : Gen) (att : Nat) (s1 : Gen) (att' : Nat)
    (h : roomsLoopAux rc f s att = Except.ok (s1, att'))
    (hpw : s.rooms.Pairwise (fun a b => ¬rectsIntersect (expandRoom a) b)) :
    s1.rooms.Pairwise (fun a b => ¬rectsIntersect (expandRoom a) b) := by
  induction f generalizing s att with
  | zero =>
    simp only [roomsLoopAux, Except.ok.injEq, Prod.mk.injEq] at h
    rw [← h.1]
    exact hpw
  | succ f ih =>
    rw [roomsLoopAux_step] at h
    by_cases hlen : s.rooms.length < rc
    · rw [if_pos hlen] at h
      cases hgen : generateRoom s 4 10 with
      | error e =>
        rw [hgen] at h
        exact Except.noConfusion h
      | ok pr =>
        rw [hgen] at h
        obtain ⟨ro, s'⟩ := pr
        have hfr := generateRoom_frame s 4 10 ro s' hgen
        cases ro with
        | none =>
          have h' : roomsLoopAux rc f s' (att + 1) = Except.ok (s1, att') := h
          exact ih s' (att + 1) h' (hfr.2.1 ▸ hpw)
        | some r =>
          have h' : (match carveRoom { s' with rooms := s'.rooms ++ [r] } r with
            | Except.error e => Except.error e
            | Except.ok s2 => roomsLoopAux rc f s2 (att + 1)) = Except.ok (s1, att') := h
          cases hcarve : carveRoom { s' with rooms := s'.rooms ++ [r] } r with
          | error e =>
            rw [hcarve] at h'
            exact Except.noConfusion h'
          | ok s2 =>
            rw [hcarve] at h'
            have hsep := generateRoom_sep s 4 10 r s' hgen
            have happ : (s'.rooms ++ [r]).Pairwise
                (fun a b => ¬rectsIntersect (expandRoom a) b) := by
              rw [List.pairwise_append]
              refine ⟨hfr.2.1 ▸ hpw, List.pairwise_singleton _ r, ?_⟩
              intro a ha b hb
              rw [List.mem_singleton] at hb
              rw [hb]
              rw [hfr.2.1] at ha
              exact sep_symm r a (hsep a ha)
            have hrooms2 : s2.rooms = s'.rooms ++ [r] :=
              (FloorStep_carveRoom _ r s2 hcarve).2.2.2.1
            exact ih s2 (att + 1) h' (by rw [hrooms2]; exact happ)
    · rw [if_neg hlen] at h
      simp only [Except.ok.injEq, Prod.mk.injEq] at h
      rw [← h.1]
      exact hpw

theorem connectPhase_rooms (ps : List (Room × Room)) (s s2 : Gen)
    (h : connectPhase s ps = Except.ok s2) : s2.rooms = s.rooms := by
  induction ps generalizing s with
  | nil =>
    have h2 := Except.ok.inj h
    rw [← h2]
  | cons p ps ih =>
    obtain ⟨ra, rb⟩ := p
    have h' : (match createCorridor s (getRoomCenter ra).1 (getRoomCenter ra).2
        (getRoomCenter rb).1 (getRoomCenter rb).2 with
      | Except.error e => Except.error e
      | Except.ok s1 => connectPhase s1 ps) = Except.ok s2 := h
    cases hcc : createCorridor s (getRoomCenter ra).1 (getRoomCenter ra).2
        (getRoomCenter rb).1 (getRoomCenter rb).2 with
    | error e =>
      rw [hcc] at h'
      exact Except.noConfusion h'
    | ok s1 =>
      rw [hcc] at h'
      rw [ih s1 h', (FloorStep_createCorridor s _ _ _ _ s1 hcc).2.2.2.1]

theorem extraPhase_rooms (s s2 : Gen) (h : extraPhase s = Except.ok s2) :
    s2.rooms = s.rooms := by
  unfold extraPhase at h
  by_cases hlen : 3 < s.rooms.length
  · rw [if_pos hlen] at h
    have h' : (match createCorridor (pickRoomCenter (pickRoomCenter s).2).2
        (pickRoomCenter s).1.1 (pickRoomCenter s).1.2
        (pickRoomCenter (pickRoomCenter s).2).1.1
        (pickRoomCenter (pickRoomCenter s).2).1.2 with
      | Except.error e => Except.error e
      | Except.ok s3 =>
        createCorridor (pickRoomCenter (pickRoomCenter s3).2).2
          (pickRoomCenter s3).1.1 (pickRoomCenter s3).1.2
          (pickRoomCenter (pickRoomCenter s3).2).1.1
          (pickRoomCenter (pickRoomCenter s3).2).1.2) = Except.ok s2 := h
    cases hcc : createCorridor (pickRoomCenter (pickRoomCenter s).2).2
        (pickRoomCenter s).1.1 (pickRoomCenter s).1.2
        (pickRoomCenter (pickRoomCenter s).2).1.1
        (pickRoomCenter (pickRoomCenter s).2).1.2 with
    | error e =>
      rw [hcc] at h'
      exact Except.noConfusion h'
    | ok s3 =>
      rw [hcc] at h'
      have e1 : (pickRoomCenter (pickRoomCenter s).2).2.rooms = s.rooms := by
        rw [pickRoomCenter_snd, pickRoomCenter_snd, randNext_rooms, randNext_rooms]
      have e2 : (pickRoomCenter (pickRoomCenter s3).2).2.rooms = s3.rooms := by
        rw [pickRoomCenter_snd, pickRoomCenter_snd, randNext_rooms, randNext_rooms]
      rw [(FloorStep_createCorridor _ _ _ _ _ s2 h').2.2.2.1, e2,
        (FloorStep_createCorridor _ _ _ _ _ s3 hcc).2.2.2.1, e1]
  · rw [if_neg hlen] at h
    have h2 := Except.ok.inj h
    rw [← h2]

theorem addDoors_rooms (s : Gen) : (addDoors s).rooms = s.rooms :=
  (DoorStep_addDoors s).2.2.2.1

theorem generatePre_pairwise (s : Gen) (rc : Nat) (s3 : Gen)
    (h : generatePre s rc = Except.ok s3)
    (hpw : s.rooms.Pairwise (fun a b => ¬rectsIntersect (expandRoom a) b)) :
    s3.rooms.Pairwise (fun a b => ¬rectsIntersect (expandRoom a) b) := by
  unfold generatePre at h
  cases hloop : roomsLoopAux rc 100 s 0 with
  | error e =>
    rw [hloop] at h
    exact Except.noConfusion h
  | ok pr =>
    rw [hloop] at h
    obtain ⟨s1, att⟩ := pr
    have h' : (match connectPhase s1 (consecPairs s1.rooms) with
      | Except.error e => Except.error e
      | Except.ok s2 => extraPhase s2) = Except.ok s3 := h
    cases hconn : connectPhase s1 (consecPairs s1.rooms) with
    | error e =>
      rw [hconn] at h'
      exact Except.noConfusion h'
    | ok s2 =>
      rw [hconn] at h'
      rw [extraPhase_rooms s2 s3 h', connectPhase_rooms _ s1 s2 hconn]
      exact roomsLoopAux_pairwise rc 100 s 0 s1 att hloop hpw

/-- C3 (amended).  For every completed generation run, the accepted
rooms are pairwise separated in the sense actually enforced by the
sampler: the one-cell margin expansion of either room does not meet the
other room's (unexpanded) rectangle — i.e. any two accepted rooms are
separated by at least one cell of wall.  (The two margin-expanded
rectangles themselves may still intersect, in the single shared gap
row or column; the original claim fails there.) -/
theorem claim_C3_amended (w h : Nat) (key : String) (rng : List Q) (rc : Nat) (s1 : Gen)
    (hgen : generate (mkGen w h key rng) rc = Except.ok s1) :
    s1.rooms.Pairwise (fun a b =>
      ¬rectsIntersect (expandRoom a) b ∧ ¬rectsIntersect (expandRoom b) a) := by
  unfold generate at hgen
  cases hpre : generatePre (mkGen w h key rng) rc with
  | error e =>
    rw [hpre] at hgen
    exact Except.noConfusion hgen
  | ok s3 =>
    rw [hpre] at hgen
    have h2 := Except.ok.inj hgen
    rw [← h2, addDoors_rooms]
    have hpw := generatePre_pairwise (mkGen w h key rng) rc s3 hpre List.Pairwise.nil
    exact hpw.imp (fun hr => ⟨hr, sep_symm _ _ hr⟩)

/-- Random stream for the C3 counterexample: dungeon theme on a 20×20
grid, first room at (1,1), second proposal at (6,1), leaving exactly a
one-cell gap. -/
def sepStream : List Q :=
  [⟨0, 1⟩, ⟨0, 1⟩, ⟨0, 1⟩, ⟨0, 1⟩, ⟨0, 1⟩, ⟨0, 1⟩, ⟨5, 14⟩, ⟨0, 1⟩]

/-- The completed run of that counterexample scenario. -/
def sepRes : Gen :=
  match generate (mkGen 20 20 "dungeon" sepStream) 2 with
  | Except.ok s => s
  | Except.error _ => mkGen 0 0 "" []

/-- C3 counterexample: the sampler accepts the two rooms `(1,1,4,4)`
and `(6,1,4,4)` in one run, yet their margin-expanded rectangles
intersect (they share the column `x = 5`), refuting the claim that the
expansions of accepted rooms never intersect. -/
theorem claim_C3_counterexample :
    generate (mkGen 20 20 "dungeon" sepStream) 2 = Except.ok sepRes ∧
    sepRes.rooms = [⟨1, 1, 4, 4⟩, ⟨6, 1, 4, 4⟩] ∧
    rectsIntersect (expandRoom ⟨1, 1, 4, 4⟩) (expandRoom ⟨6, 1, 4, 4⟩) := by
  refine ⟨by rfl, by decide, by decide⟩

/-- C3 amended-claim witness: the same concrete run, through
`claim_C3_amended`. -/
theorem claim_C3_amended_witness :
    sepRes.rooms.Pairwise (fun a b =>
      ¬rectsIntersect (expandRoom a) b ∧ ¬rectsIntersect (expandRoom b) a) :=
  claim_C3_amended 20 20 "dungeon" sepStream 2 sepRes (by rfl)

/-! ### Claims C1 and C2: the counterexample scenario

Camp theme on a 16×16 grid with two rooms.  The stream below makes the
sampler accept `(1,1,4,4)` and `(6,7,4,4)`; the organic carve leaves
the first room's corner `(4,4)` as wall (its corner draw is 0); the
greedy corridor between the centres `(3,3)` and `(8,9)` floors the
perimeter cell `(4,5)` without touching `(4,4)`; the door pass then
sees floor at `(4,5)` below the room edge and converts `(4,4)` — a
wall — into a door. -/

def campStream : List Q :=
  [⟨0, 1⟩, ⟨0, 1⟩, ⟨0, 1⟩, ⟨0, 1⟩, ⟨9, 10⟩, ⟨9, 10⟩, ⟨9, 10⟩, ⟨0, 1⟩,
   ⟨0, 1⟩, ⟨0, 1⟩, ⟨1, 2⟩, ⟨3, 5⟩, ⟨9, 10⟩, ⟨9, 10⟩, ⟨9, 10⟩, ⟨9, 10⟩]

def campInit : Gen := mkGen 16 16 "camp" campStream

/-- The state of the counterexample run immediately before the door
pass. -/
def campPre : Gen :=
  match generatePre campInit 2 with
  | Except.ok s => s
  | Except.error _ => mkGen 0 0 "" []

/-! ### Claim C2: which transitions the pass can perform -/

/-- C2 (amended).  During a generation pass every cell transition is
Wall→Floor, Floor→Door, or — in the door pass, when a non-rectangular
carve left the room-edge cell uncarved — Wall→Door; never Door→Floor
and never Floor→Wall.  Precisely: room carving and corridor routing
only ever set cells to floor, door placement only ever sets cells to
door, and the state the door pass starts from contains no door at all
(so no Door→Floor transition can occur inside a pass).  The original
claim's exclusion of Wall→Door is refuted by
`claim_C2_counterexample`. -/
theorem claim_C2_amended :
    (∀ (s : Gen) (r : Room) (s2 : Gen), carveRoom s r = Except.ok s2 →
      ∀ a b, getCell s2 a b = getCell s a b ∨
        getCell s2 a b = (getCell s a b).map (fun _ => Cell.floor)) ∧
    (∀ (s : Gen) (x1 y1 x2 y2 : Int) (s2 : Gen),
      createCorridor s x1 y1 x2 y2 = Except.ok s2 →
      ∀ a b, getCell s2 a b = getCell s a b ∨
        getCell s2 a b = (getCell s a b).map (fun _ => Cell.floor)) ∧
    (∀ (s : Gen) (a b : Int), getCell (addDoors s) a b = getCell s a b ∨
      getCell (addDoors s) a b = (getCell s a b).map (fun _ => Cell.door)) ∧
    (∀ (w h : Nat) (key : String) (rng : List Q) (rc : Nat) (s3 : Gen),
      generatePre (mkGen w h key rng) rc = Except.ok s3 →
      ∀ a b c, getCell s3 a b = some c → c = Cell.wall ∨ c = Cell.floor) := by
  refine ⟨?_, ?_, ?_, ?_⟩
  · intro s r s2 hcv a b
    exact (FloorStep_carveRoom s r s2 hcv).2.2.2.2.2.2 a b
  · intro s x1 y1 x2 y2 s2 hcc a b
    exact (FloorStep_createCorridor s x1 y1 x2 y2 s2 hcc).2.2.2.2.2.2 a b
  · intro s a b
    exact (DoorStep_addDoors s).2.2.2.2.2.2 a b
  · intro w h key rng rc s3 hpre a b c hc
    rcases GridFloorLe_generatePre (mkGen w h key rng) rc s3 hpre a b with hg | hg
    · rw [hg] at hc
      exact Or.inl (getCell_mkGen_wall w h key rng a b c hc)
    · rw [hg] at hc
      cases ho : getCell (mkGen w h key rng) a b with
      | none =>
        rw [ho] at hc
        exact Option.noConfusion hc
      | some u =>
        rw [ho] at hc
        exact Or.inr (Option.some_inj.mp hc).symm

/-- Result of a small concrete dungeon corridor, for the C2 witness. -/
def corrRes : Gen :=
  match createCorridor (mkGen 6 6 "dungeon" []) 1 1 3 2 with
  | Except.ok s => s
  | Except.error _ => mkGen 0 0 "" []

/-- C2 witness: each conjunct of the amended claim applied at a
concrete input. -/
theorem claim_C2_amended_witness :
    (getCell (carveStandardRoom (mkGen 6 6 "dungeon" []) ⟨1, 1, 2, 2⟩) 1 1 =
        getCell (mkGen 6 6 "dungeon" []) 1 1 ∨
      getCell (carveStandardRoom (mkGen 6 6 "dungeon" []) ⟨1, 1, 2, 2⟩) 1 1 =
        (getCell (mkGen 6 6 "dungeon" []) 1 1).map (fun _ => Cell.floor)) ∧
    (getCell corrRes 2 1 = getCell (mkGen 6 6 "dungeon" []) 2 1 ∨
      getCell corrRes 2 1 =
        (getCell (mkGen 6 6 "dungeon" []) 2 1).map (fun _ => Cell.floor)) ∧
    (getCell (addDoors campPre) 4 4 = getCell campPre 4 4 ∨
      getCell (addDoors campPre) 4 4 =
        (getCell campPre 4 4).map (fun _ => Cell.door)) ∧
    (Cell.wall = Cell.wall ∨ Cell.wall = Cell.floor) :=
  ⟨claim_C2_amended.1 (mkGen 6 6 "dungeon" []) ⟨1, 1, 2, 2⟩
      (carveStandardRoom (mkGen 6 6 "dungeon" []) ⟨1, 1, 2, 2⟩) (by rfl) 1 1,
   claim_C2_amended.2.1 (mkGen 6 6 "dungeon" []) 1 1 3 2 corrRes (by rfl) 2 1,
   claim_C2_amended.2.2.1 campPre 4 4,
   claim_C2_amended.2.2.2 16 16 "camp" campStream 2 campPre (by rfl) 4 4 Cell.wall
     (by decide)⟩

/-- C2 counterexample: in the camp-theme run above, the cell `(4,4)`
is wall at the end of the carving/corridor phase and door after the
door pass — a Wall→Door transition, which the original claim says
never happens. -/
theorem claim_C2_counterexample :
    generatePre campInit 2 = Except.ok campPre ∧
    getCell campPre 4 4 = some Cell.wall ∧
    getCell (addDoors campPre) 4 4 = some Cell.door :=
  ⟨by rfl, by decide, by decide⟩

/-! ### Claim C1: the exact behaviour of the door pass

The wall loop of `addDoors` examines each perimeter cell of a room and,
when that cell is in bounds and floor, writes a door at the adjacent
interior cell — without ever reading the interior cell.  We derive a
pointwise description of the whole per-room pass: a cell changes exactly
when some perimeter rule fires for it, and then it becomes a door. -/

/-- Some perimeter rule of the wall loop fires at `(a, b)`: the cell sits
on the matching edge of the room's boundary ring and the perimeter cell
just outside it reads floor. -/
def doorCause (s : Gen) (r : Room) (a b : Int) : Prop :=
  (b = r.y ∧ r.x ≤ a ∧ a < r.x + r.width ∧
    getCell s a (r.y - 1) = some Cell.floor) ∨
  (b = r.y + r.height - 1 ∧ r.x ≤ a ∧ a < r.x + r.width ∧
    getCell s a (r.y + r.height) = some Cell.floor) ∨
  (a = r.x ∧ r.y ≤ b ∧ b < r.y + r.height ∧
    getCell s (r.x - 1) b = some Cell.floor) ∨
  (a = r.x + r.width - 1 ∧ r.y ≤ b ∧ b < r.y + r.height ∧
    getCell s (r.x + r.width) b = some Cell.floor)

instance (s : Gen) (r : Room) (a b : Int) : Decidable (doorCause s r a b) :=
  inferInstanceAs (Decidable (_ ∨ _ ∨ _ ∨ _))

/-- The boundary ring of a room: its first or last row, or first or last
column. -/
def onBoundaryRing (r : Room) (a b : Int) : Prop :=
  ((b = r.y ∨ b = r.y + r.height - 1) ∧ r.x ≤ a ∧ a < r.x + r.width) ∨
  ((a = r.x ∨ a = r.x + r.width - 1) ∧ r.y ≤ b ∧ b < r.y + r.height)

instance (r : Room) (a b : Int) : Decidable (onBoundaryRing r a b) :=
  inferInstanceAs (Decidable (_ ∨ _))

theorem onBoundaryRing_of_doorCause (s : Gen) (r : Room) (a b : Int)
    (h : doorCause s r a b) : onBoundaryRing r a b := by
  rcases h with ⟨h1, h2, h3, -⟩ | ⟨h1, h2, h3, -⟩ | ⟨h1, h2, h3, -⟩ | ⟨h1, h2, h3, -⟩
  · exact Or.inl ⟨Or.inl h1, h2, h3⟩
  · exact Or.inl ⟨Or.inr h1, h2, h3⟩
  · exact Or.inr ⟨Or.inl h1, h2, h3⟩
  · exact Or.inr ⟨Or.inr h1, h2, h3⟩

/-- A wall cell of the top ring: only the first edge rule can fire, and it
writes a door at the cell one row below, provided the wall cell is
readable and floor. -/
theorem addDoorsWall_top (r : Room) (s : Gen) (hWF : WF s) (wx : Int)
    (hx : r.x ≤ wx ∧ wx < r.x + r.width) (hh : 1 ≤ r.height) :
    addDoorsWall r s wx (r.y - 1) =
      if getCell s wx (r.y - 1) = some Cell.floor then setCell s wx r.y Cell.door
      else s := by
  obtain ⟨hx1, hx2⟩ := hx
  by_cases hfl : getCell s wx (r.y - 1) = some Cell.floor
  · have hb := (getCell_isSome_iff s hWF wx (r.y - 1)).mp (by rw [hfl]; rfl)
    unfold addDoorsWall
    dsimp only
    rw [if_pos hb, if_pos hfl,
      if_pos (show r.y - 1 = r.y - 1 from rfl),
      if_neg (show ¬(r.y - 1 = r.y + r.height) from by omega),
      if_neg (show ¬(wx = r.x - 1) from by omega),
      if_neg (show ¬(wx = r.x + r.width) from by omega)]
    rw [if_pos hfl]
  · unfold addDoorsWall
    dsimp only
    rw [if_neg hfl, ite_self, if_neg hfl]

/-- A wall cell of the bottom ring: only the second edge rule fires; it
writes a door one row above. -/
theorem addDoorsWall_bottom (r : Room) (s : Gen) (hWF : WF s) (wx : Int)
    (hx : r.x ≤ wx ∧ wx < r.x + r.width) (hh : 1 ≤ r.height) :
    addDoorsWall r s wx (r.y + r.height) =
      if getCell s wx (r.y + r.height) = some Cell.floor then
        setCell s wx (r.y + r.height - 1) Cell.door
      else s := by
  obtain ⟨hx1, hx2⟩ := hx
  by_cases hfl : getCell s wx (r.y + r.height) = some Cell.floor
  · have hb := (getCell_isSome_iff s hWF wx (r.y + r.height)).mp (by rw [hfl]; rfl)
    unfold addDoorsWall
    dsimp only
    rw [if_pos hb, if_pos hfl,
      if_neg (show ¬(r.y + r.height = r.y - 1) from by omega),
      if_pos (show r.y + r.height = r.y + r.height from rfl),
      if_neg (show ¬(wx = r.x - 1) from by omega),
      if_neg (show ¬(wx = r.x + r.width) from by omega)]
    rw [if_pos hfl]
  · unfold addDoorsWall
    dsimp only
    rw [if_neg hfl, ite_self, if_neg hfl]

/-- A wall cell of the left ring: only the third edge rule fires; it
writes a door one column to the right. -/
theorem addDoorsWall_left (r : Room) (s : Gen) (hWF : WF s) (wy : Int)
    (hy : r.y ≤ wy ∧ wy < r.y + r.height) (hw : 1 ≤ r.width) :
    addDoorsWall r s (r.x - 1) wy =
      if getCell s (r.x - 1) wy = some Cell.floor then setCell s r.x wy Cell.door
      else s := by
  obtain ⟨hy1, hy2⟩ := hy
  by_cases hfl : getCell s (r.x - 1) wy = some Cell.floor
  · have hb := (getCell_isSome_iff s hWF (r.x - 1) wy).mp (by rw [hfl]; rfl)
    unfold addDoorsWall
    dsimp only
    rw [if_pos hb, if_pos hfl,
      if_neg (show ¬(wy = r.y - 1) from by omega),
      if_neg (show ¬(wy = r.y + r.height) from by omega),
      if_pos (show r.x - 1 = r.x - 1 from rfl),
      if_neg (show ¬(r.x - 1 = r.x + r.width) from by omega)]
    rw [if_pos hfl]
  · unfold addDoorsWall
    dsimp only
    rw [if_neg hfl, ite_self, if_neg hfl]

/-- A wall cell of the right ring: only the fourth edge rule fires; it
writes a door one column to the left. -/
theorem addDoorsWall_right (r : Room) (s : Gen) (hWF : WF s) (wy : Int)
    (hy : r.y ≤ wy ∧ wy < r.y + r.height) (hw : 1 ≤ r.width) :
    addDoorsWall r s (r.x + r.width) wy =
      if getCell s (r.x + r.width) wy = some Cell.floor then
        setCell s (r.x + r.width - 1) wy Cell.door
      else s := by
  obtain ⟨hy1, hy2⟩ := hy
  by_cases hfl : getCell s (r.x + r.width) wy = some Cell.floor
  · have hb := (getCell_isSome_iff s hWF (r.x + r.width) wy).mp (by rw [hfl]; rfl)
    unfold addDoorsWall
    dsimp only
    rw [if_pos hb, if_pos hfl,
      if_neg (show ¬(wy = r.y - 1) from by omega),
      if_neg (show ¬(wy = r.y + r.height) from by omega),
      if_neg (show ¬(r.x + r.width = r.x - 1) from by omega),
      if_pos (show r.x + r.width = r.x + r.width from rfl)]
    rw [if_pos hfl]
  · unfold addDoorsWall
    dsimp only
    rw [if_neg hfl, ite_self, if_neg hfl]

/-- Folding the wall loop over a stretch of the top ring: well-formedness
is preserved and the resulting grid is described pointwise — a cell of
row `r.y` above whose head the perimeter reads floor becomes a door,
every other cell keeps its reading. -/
theorem foldTop_getCell (r : Room) (hh : 1 ≤ r.height) :
    ∀ (n : Nat) (x0 : Int) (s : Gen), WF s → r.x ≤ x0 →
      x0 + (n : Int) ≤ r.x + r.width →
      WF (((intRange x0 n).map (fun i => (i, r.y - 1))).foldl
          (fun acc w => addDoorsWall r acc w.1 w.2) s) ∧
      ∀ a b, getCell (((intRange x0 n).map (fun i => (i, r.y - 1))).foldl
          (fun acc w => addDoorsWall r acc w.1 w.2) s) a b =
        if b = r.y ∧ x0 ≤ a ∧ a < x0 + (n : Int) ∧
            getCell s a (r.y - 1) = some Cell.floor
        then (getCell s a b).map (fun _ => Cell.door) else getCell s a b := by
  intro n
  induction n with
  | zero =>
    intro x0 s hWF h0 h1
    refine ⟨hWF, fun a b => ?_⟩
    have hc : ¬(b = r.y ∧ x0 ≤ a ∧ a < x0 + ((0 : Nat) : Int) ∧
        getCell s a (r.y - 1) = some Cell.floor) := by
      rintro ⟨-, h2, h3, -⟩
      omega
    rw [if_neg hc]
    rfl
  | succ n ih =>
    intro x0 s hWF hx0 hx1
    have hx0w : x0 < r.x + r.width := by omega
    have hW1 := addDoorsWall_top r s hWF x0 ⟨hx0, hx0w⟩ hh
    have hfold : ((intRange x0 (n + 1)).map (fun i => (i, r.y - 1))).foldl
        (fun acc w => addDoorsWall r acc w.1 w.2) s =
      ((intRange (x0 + 1) n).map (fun i => (i, r.y - 1))).foldl
        (fun acc w => addDoorsWall r acc w.1 w.2) (addDoorsWall r s x0 (r.y - 1)) := rfl
    by_cases hc : getCell s x0 (r.y - 1) = some Cell.floor
    · have hs1 : addDoorsWall r s x0 (r.y - 1) = setCell s x0 r.y Cell.door := by
        rw [hW1, if_pos hc]
      obtain ⟨ihWF, ihget⟩ := ih (x0 + 1) (setCell s x0 r.y Cell.door)
        (WF_setCell s x0 r.y Cell.door hWF) (by omega) (by omega)
      refine ⟨?_, ?_⟩
      · rw [hfold, hs1]
        exact ihWF
      · intro a b
        rw [hfold, hs1, ihget a b]
        have hread : getCell (setCell s x0 r.y Cell.door) a (r.y - 1) =
            getCell s a (r.y - 1) := by
          rw [getCell_setCell]
          exact if_neg (by rintro ⟨-, hb⟩; omega)
        rw [hread, getCell_setCell s x0 r.y Cell.door a b]
        by_cases hab : a = x0 ∧ b = r.y
        · rw [if_pos hab]
          obtain ⟨ha, hb⟩ := hab
          rw [if_neg (show ¬(b = r.y ∧ x0 + 1 ≤ a ∧ a < x0 + 1 + (n : Int) ∧
              getCell s a (r.y - 1) = some Cell.floor) from by
            rintro ⟨-, h2, -, -⟩; omega)]
          rw [if_pos (show b = r.y ∧ x0 ≤ a ∧ a < x0 + ((n + 1 : Nat) : Int) ∧
              getCell s a (r.y - 1) = some Cell.floor from
            ⟨hb, by omega, by omega, by rw [ha]; exact hc⟩)]
          rw [ha, hb]
        · rw [if_neg hab]
          refine if_congr ?_ rfl rfl
          constructor
          · rintro ⟨h1, h2, h3, h4⟩
            exact ⟨h1, by omega, by omega, h4⟩
          · rintro ⟨h1, h2, h3, h4⟩
            by_cases hax : a = x0
            · exact absurd ⟨hax, h1⟩ hab
            · exact ⟨h1, by omega, by omega, h4⟩
    · have hs1 : addDoorsWall r s x0 (r.y - 1) = s := by
        rw [hW1, if_neg hc]
      obtain ⟨ihWF, ihget⟩ := ih (x0 + 1) s hWF (by omega) (by omega)
      refine ⟨by rw [hfold, hs1]; exact ihWF, fun a b => ?_⟩
      rw [hfold, hs1, ihget a b]
      refine if_congr ?_ rfl rfl
      constructor
      · rintro ⟨h1, h2, h3, h4⟩
        exact ⟨h1, by omega, by omega, h4⟩
      · rintro ⟨h1, h2, h3, h4⟩
        by_cases hax : a = x0
        · rw [hax] at h4
          exact absurd h4 hc
        · exact ⟨h1, by omega, by omega, h4⟩

/-- Folding the wall loop over a stretch of the bottom ring. -/
theorem foldBottom_getCell (r : Room) (hh : 1 ≤ r.height) :
    ∀ (n : Nat) (x0 : Int) (s : Gen), WF s → r.x ≤ x0 →
      x0 + (n : Int) ≤ r.x + r.width →
      WF (((intRange x0 n).map (fun i => (i, r.y + r.height))).foldl
          (fun acc w => addDoorsWall r acc w.1 w.2) s) ∧
      ∀ a b, getCell (((intRange x0 n).map (fun i => (i, r.y + r.height))).foldl
          (fun acc w => addDoorsWall r acc w.1 w.2) s) a b =
        if b = r.y + r.height - 1 ∧ x0 ≤ a ∧ a < x0 + (n : Int) ∧
            getCell s a (r.y + r.height) = some Cell.floor
        then (getCell s a b).map (fun _ => Cell.door) else getCell s a b := by
  intro n
  induction n with
  | zero =>
    intro x0 s hWF h0 h1
    refine ⟨hWF, fun a b => ?_⟩
    have hc : ¬(b = r.y + r.height - 1 ∧ x0 ≤ a ∧ a < x0 + ((0 : Nat) : Int) ∧
        getCell s a (r.y + r.height) = some Cell.floor) := by
      rintro ⟨-, h2, h3, -⟩
      omega
    rw [if_neg hc]
    rfl
  | succ n ih =>
    intro x0 s hWF hx0 hx1
    have hx0w : x0 < r.x + r.width := by omega
    have hW1 := addDoorsWall_bottom r s hWF x0 ⟨hx0, hx0w⟩ hh
    have hfold : ((intRange x0 (n + 1)).map (fun i => (i, r.y + r.height))).foldl
        (fun acc w => addDoorsWall r acc w.1 w.2) s =
      ((intRange (x0 + 1) n).map (fun i => (i, r.y + r.height))).foldl
        (fun acc w => addDoorsWall r acc w.1 w.2)
        (addDoorsWall r s x0 (r.y + r.height)) := rfl
    by_cases hc : getCell s x0 (r.y + r.height) = some Cell.floor
    · have hs1 : addDoorsWall r s x0 (r.y + r.height) =
          setCell s x0 (r.y + r.height - 1) Cell.door := by
        rw [hW1, if_pos hc]
      obtain ⟨ihWF, ihget⟩ := ih (x0 + 1) (setCell s x0 (r.y + r.height - 1) Cell.door)
        (WF_setCell s x0 (r.y + r.height - 1) Cell.door hWF) (by omega) (by omega)
      refine ⟨?_, ?_⟩
      · rw [hfold, hs1]
        exact ihWF
      · intro a b
        rw [hfold, hs1, ihget a b]
        have hread : getCell (setCell s x0 (r.y + r.height - 1) Cell.door) a
            (r.y + r.height) = getCell s a (r.y + r.height) := by
          rw [getCell_setCell]
          exact if_neg (by rintro ⟨-, hb⟩; omega)
        rw [hread, getCell_setCell s x0 (r.y + r.height - 1) Cell.door a b]
        by_cases hab : a = x0 ∧ b = r.y + r.height - 1
        · rw [if_pos hab]
          obtain ⟨ha, hb⟩ := hab
          rw [if_neg (show ¬(b = r.y + r.height - 1 ∧ x0 + 1 ≤ a ∧
              a < x0 + 1 + (n : Int) ∧
              getCell s a (r.y + r.height) = some Cell.floor) from by
            rintro ⟨-, h2, -, -⟩; omega)]
          rw [if_pos (show b = r.y + r.height - 1 ∧ x0 ≤ a ∧
              a < x0 + ((n + 1 : Nat) : Int) ∧
              getCell s a (r.y + r.height) = some Cell.floor from
            ⟨hb, by omega, by omega, by rw [ha]; exact hc⟩)]
          rw [ha, hb]
        · rw [if_neg hab]
          refine if_congr ?_ rfl rfl
          constructor
          · rintro ⟨h1, h2, h3, h4⟩
            exact ⟨h1, by omega, by omega, h4⟩
          · rintro ⟨h1, h2, h3, h4⟩
            by_cases hax : a = x0
            · exact absurd ⟨hax, h1⟩ hab
            · exact ⟨h1, by omega, by omega, h4⟩
    · have hs1 : addDoorsWall r s x0 (r.y + r.height) = s := by
        rw [hW1, if_neg hc]
      obtain ⟨ihWF, ihget⟩ := ih (x0 + 1) s hWF (by omega) (by omega)
      refine ⟨by rw [hfold, hs1]; exact ihWF, fun a b => ?_⟩
      rw [hfold, hs1, ihget a b]
      refine if_congr ?_ rfl rfl
      constructor
      · rintro ⟨h1, h2, h3, h4⟩
        exact ⟨h1, by omega, by omega, h4⟩
      · rintro ⟨h1, h2, h3, h4⟩
        by_cases hax : a = x0
        · rw [hax] at h4
          exact absurd h4 hc
        · exact ⟨h1, by omega, by omega, h4⟩

/-- Folding the wall loop over a stretch of the left ring. -/
theorem foldLeft_getCell (r : Room) (hw : 1 ≤ r.width) :
    ∀ (n : Nat) (y0 : Int) (s : Gen), WF s → r.y ≤ y0 →
      y0 + (n : Int) ≤ r.y + r.height →
      WF (((intRange y0 n).map (fun i => (r.x - 1, i))).foldl
          (fun acc w => addDoorsWall r acc w.1 w.2) s) ∧
      ∀ a b, getCell (((intRange y0 n).map (fun i => (r.x - 1, i))).foldl
          (fun acc w => addDoorsWall r acc w.1 w.2) s) a b =
        if a = r.x ∧ y0 ≤ b ∧ b < y0 + (n : Int) ∧
            getCell s (r.x - 1) b = some Cell.floor
        then (getCell s a b).map (fun _ => Cell.door) else getCell s a b := by
  intro n
  induction n with
  | zero =>
    intro y0 s hWF h0 h1
    refine ⟨hWF, fun a b => ?_⟩
    have hc : ¬(a = r.x ∧ y0 ≤ b ∧ b < y0 + ((0 : Nat) : Int) ∧
        getCell s (r.x - 1) b = some Cell.floor) := by
      rintro ⟨-, h2, h3, -⟩
      omega
    rw [if_neg hc]
    rfl
  | succ n ih =>
    intro y0 s hWF hy0 hy1
    have hy0h : y0 < r.y + r.height := by omega
    have hW1 := addDoorsWall_left r s hWF y0 ⟨hy0, hy0h⟩ hw
    have hfold : ((intRange y0 (n + 1)).map (fun i => (r.x - 1, i))).foldl
        (fun acc w => addDoorsWall r acc w.1 w.2) s =
      ((intRange (y0 + 1) n).map (fun i => (r.x - 1, i))).foldl
        (fun acc w => addDoorsWall r acc w.1 w.2) (addDoorsWall r s (r.x - 1) y0) := rfl
    by_cases hc : getCell s (r.x - 1) y0 = some Cell.floor
    · have hs1 : addDoorsWall r s (r.x - 1) y0 = setCell s r.x y0 Cell.door := by
        rw [hW1, if_pos hc]
      obtain ⟨ihWF, ihget⟩ := ih (y0 + 1) (setCell s r.x y0 Cell.door)
        (WF_setCell s r.x y0 Cell.door hWF) (by omega) (by omega)
      refine ⟨?_, ?_⟩
      · rw [hfold, hs1]
        exact ihWF
      · intro a b
        rw [hfold, hs1, ihget a b]
        have hread : getCell (setCell s r.x y0 Cell.door) (r.x - 1) b =
            getCell s (r.x - 1) b := by
          rw [getCell_setCell]
          exact if_neg (by rintro ⟨ha, -⟩; omega)
        rw [hread, getCell_setCell s r.x y0 Cell.door a b]
        by_cases hab : a = r.x ∧ b = y0
        · rw [if_pos hab]
          obtain ⟨ha, hb⟩ := hab
          rw [if_neg (show ¬(a = r.x ∧ y0 + 1 ≤ b ∧ b < y0 + 1 + (n : Int) ∧
              getCell s (r.x - 1) b = some Cell.floor) from by
            rintro ⟨-, h2, -, -⟩; omega)]
          rw [if_pos (show a = r.x ∧ y0 ≤ b ∧ b < y0 + ((n + 1 : Nat) : Int) ∧
              getCell s (r.x - 1) b = some Cell.floor from
            ⟨ha, by omega, by omega, by rw [hb]; exact hc⟩)]
          rw [ha, hb]
        · rw [if_neg hab]
          refine if_congr ?_ rfl rfl
          constructor
          · rintro ⟨h1, h2, h3, h4⟩
            exact ⟨h1, by omega, by omega, h4⟩
          · rintro ⟨h1, h2, h3, h4⟩
            by_cases hby : b = y0
            · exact absurd ⟨h1, hby⟩ hab
            · exact ⟨h1, by omega, by omega, h4⟩
    · have hs1 : addDoorsWall r s (r.x - 1) y0 = s := by
        rw [hW1, if_neg hc]
      obtain ⟨ihWF, ihget⟩ := ih (y0 + 1) s hWF (by omega) (by omega)
      refine ⟨by rw [hfold, hs1]; exact ihWF, fun a b => ?_⟩
      rw [hfold, hs1, ihget a b]
      refine if_congr ?_ rfl rfl
      constructor
      · rintro ⟨h1, h2, h3, h4⟩
        exact ⟨h1, by omega, by omega, h4⟩
      · rintro ⟨h1, h2, h3, h4⟩
        by_cases hby : b = y0
        · rw [hby] at h4
          exact absurd h4 hc
        · exact ⟨h1, by omega, by omega, h4⟩

/-- Folding the wall loop over a stretch of the right ring. -/
theorem foldRight_getCell (r : Room) (hw : 1 ≤ r.width) :
    ∀ (n : Nat) (y0 : Int) (s : Gen), WF s → r.y ≤ y0 →
      y0 + (n : Int) ≤ r.y + r.height →
      WF (((intRange y0 n).map (fun i => (r.x + r.width, i))).foldl
          (fun acc w => addDoorsWall r acc w.1 w.2) s) ∧
      ∀ a b, getCell (((intRange y0 n).map (fun i => (r.x + r.width, i))).foldl
          (fun acc w => addDoorsWall r acc w.1 w.2) s) a b =
        if a = r.x + r.width - 1 ∧ y0 ≤ b ∧ b < y0 + (n : Int) ∧
            getCell s (r.x + r.width) b = some Cell.floor
        then (getCell s a b).map (fun _ => Cell.door) else getCell s a b := by
  intro n
  induction n with
  | zero =>
    intro y0 s hWF h0 h1
    refine ⟨hWF, fun a b => ?_⟩
    have hc : ¬(a = r.x + r.width - 1 ∧ y0 ≤ b ∧ b < y0 + ((0 : Nat) : Int) ∧
        getCell s (r.x + r.width) b = some Cell.floor) := by
      rintro ⟨-, h2, h3, -⟩
      omega
    rw [if_neg hc]
    rfl
  | succ n ih =>
    intro y0 s hWF hy0 hy1
    have hy0h : y0 < r.y + r.height := by omega
    have hW1 := addDoorsWall_right r s hWF y0 ⟨hy0, hy0h⟩ hw
    have hfold : ((intRange y0 (n + 1)).map (fun i => (r.x + r.width, i))).foldl
        (fun acc w => addDoorsWall r acc w.1 w.2) s =
      ((intRange (y0 + 1) n).map (fun i => (r.x + r.width, i))).foldl
        (fun acc w => addDoorsWall r acc w.1 w.2)
        (addDoorsWall r s (r.x + r.width) y0) := rfl
    by_cases hc : getCell s (r.x + r.width) y0 = some Cell.floor
    · have hs1 : addDoorsWall r s (r.x + r.width) y0 =
          setCell s (r.x + r.width - 1) y0 Cell.door := by
        rw [hW1, if_pos hc]
      obtain ⟨ihWF, ihget⟩ := ih (y0 + 1) (setCell s (r.x + r.width - 1) y0 Cell.door)
        (WF_setCell s (r.x + r.width - 1) y0 Cell.door hWF) (by omega) (by omega)
      refine ⟨?_, ?_⟩
      · rw [hfold, hs1]
        exact ihWF
      · intro a b
        rw [hfold, hs1, ihget a b]
        have hread : getCell (setCell s (r.x + r.width - 1) y0 Cell.door)
            (r.x + r.width) b = getCell s (r.x + r.width) b := by
          rw [getCell_setCell]
          exact if_neg (by rintro ⟨ha, -⟩; omega)
        rw [hread, getCell_setCell s (r.x + r.width - 1) y0 Cell.door a b]
        by_cases hab : a = r.x + r.width - 1 ∧ b = y0
        · rw [if_pos hab]
          obtain ⟨ha, hb⟩ := hab
          rw [if_neg (show ¬(a = r.x + r.width - 1 ∧ y0 + 1 ≤ b ∧
              b < y0 + 1 + (n : Int) ∧
              getCell s (r.x + r.width) b = some Cell.floor) from by
            rintro ⟨-, h2, -, -⟩; omega)]
          rw [if_pos (show a = r.x + r.width - 1 ∧ y0 ≤ b ∧
              b < y0 + ((n + 1 : Nat) : Int) ∧
              getCell s (r.x + r.width) b = some Cell.floor from
            ⟨ha, by omega, by omega, by rw [hb]; exact hc⟩)]
          rw [ha, hb]
        · rw [if_neg hab]
          refine if_congr ?_ rfl rfl
          constructor
          · rintro ⟨h1, h2, h3, h4⟩
            exact ⟨h1, by omega, by omega, h4⟩
          · rintro ⟨h1, h2, h3, h4⟩
            by_cases hby : b = y0
            · exact absurd ⟨h1, hby⟩ hab
            · exact ⟨h1, by omega, by omega, h4⟩
    · have hs1 : addDoorsWall r s (r.x + r.width) y0 = s := by
        rw [hW1, if_neg hc]
      obtain ⟨ihWF, ihget⟩ := ih (y0 + 1) s hWF (by omega) (by omega)
      refine ⟨by rw [hfold, hs1]; exact ihWF, fun a b => ?_⟩
      rw [hfold, hs1, ihget a b]
      refine if_congr ?_ rfl rfl
      constructor
      · rintro ⟨h1, h2, h3, h4⟩
        exact ⟨h1, by omega, by omega, h4⟩
      · rintro ⟨h1, h2, h3, h4⟩
        by_cases hby : b = y0
        · rw [hby] at h4
          exact absurd h4 hc
        · exact ⟨h1, by omega, by omega, h4⟩

/-- The wall-loop fold restricted to the top ring of `wallsList`. -/
def foldT (r : Room) (s : Gen) : Gen :=
  ((intRange r.x r.width.toNat).map (fun i => (i, r.y - 1))).foldl
    (fun acc w => addDoorsWall r acc w.1 w.2) s

/-- The wall-loop fold restricted to the bottom ring of `wallsList`. -/
def foldB (r : Room) (s : Gen) : Gen :=
  ((intRange r.x r.width.toNat).map (fun i => (i, r.y + r.height))).foldl
    (fun acc w => addDoorsWall r acc w.1 w.2) s

/-- The wall-loop fold restricted to the left ring of `wallsList`. -/
def foldL (r : Room) (s : Gen) : Gen :=
  ((intRange r.y r.height.toNat).map (fun i => (r.x - 1, i))).foldl
    (fun acc w => addDoorsWall r acc w.1 w.2) s

/-- The wall-loop fold restricted to the right ring of `wallsList`. -/
def foldR (r : Room) (s : Gen) : Gen :=
  ((intRange r.y r.height.toNat).map (fun i => (r.x + r.width, i))).foldl
    (fun acc w => addDoorsWall r acc w.1 w.2) s

theorem addDoorsRoom_eq_folds (s : Gen) (r : Room) :
    addDoorsRoom s r = foldR r (foldL r (foldB r (foldT r s))) := by
  unfold addDoorsRoom wallsList foldT foldB foldL foldR
  rw [List.foldl_append, List.foldl_append, List.foldl_append]

theorem foldT_getCell (r : Room) (hw : 1 ≤ r.width) (hh : 1 ≤ r.height)
    (s : Gen) (hWF : WF s) :
    WF (foldT r s) ∧ ∀ a b, getCell (foldT r s) a b =
      if b = r.y ∧ r.x ≤ a ∧ a < r.x + r.width ∧
          getCell s a (r.y - 1) = some Cell.floor
      then (getCell s a b).map (fun _ => Cell.door) else getCell s a b := by
  obtain ⟨hWF2, hget⟩ := foldTop_getCell r hh r.width.toNat r.x s hWF le_rfl (by omega)
  refine ⟨hWF2, fun a b => ?_⟩
  refine (hget a b).trans (if_congr ?_ rfl rfl)
  constructor <;> rintro ⟨h1, h2, h3, h4⟩ <;> exact ⟨h1, h2, by omega, h4⟩

theorem foldB_getCell (r : Room) (hw : 1 ≤ r.width) (hh : 1 ≤ r.height)
    (s : Gen) (hWF : WF s) :
    WF (foldB r s) ∧ ∀ a b, getCell (foldB r s) a b =
      if b = r.y + r.height - 1 ∧ r.x ≤ a ∧ a < r.x + r.width ∧
          getCell s a (r.y + r.height) = some Cell.floor
      then (getCell s a b).map (fun _ => Cell.door) else getCell s a b := by
  obtain ⟨hWF2, hget⟩ := foldBottom_getCell r hh r.width.toNat r.x s hWF le_rfl (by omega)
  refine ⟨hWF2, fun a b => ?_⟩
  refine (hget a b).trans (if_congr ?_ rfl rfl)
  constructor <;> rintro ⟨h1, h2, h3, h4⟩ <;> exact ⟨h1, h2, by omega, h4⟩

theorem foldL_getCell (r : Room) (hw : 1 ≤ r.width) (hh : 1 ≤ r.height)
    (s : Gen) (hWF : WF s) :
    WF (foldL r s) ∧ ∀ a b, getCell (foldL r s) a b =
      if a = r.x ∧ r.y ≤ b ∧ b < r.y + r.height ∧
          getCell s (r.x - 1) b = some Cell.floor
      then (getCell s a b).map (fun _ => Cell.door) else getCell s a b := by
  obtain ⟨hWF2, hget⟩ := foldLeft_getCell r hw r.height.toNat r.y s hWF le_rfl (by omega)
  refine ⟨hWF2, fun a b => ?_⟩
  refine (hget a b).trans (if_congr ?_ rfl rfl)
  constructor <;> rintro ⟨h1, h2, h3, h4⟩ <;> exact ⟨h1, h2, by omega, h4⟩

theorem foldR_getCell (r : Room) (hw : 1 ≤ r.width) (hh : 1 ≤ r.height)
    (s : Gen) (hWF : WF s) :
    WF (foldR r s) ∧ ∀ a b, getCell (foldR r s) a b =
      if a = r.x + r.width - 1 ∧ r.y ≤ b ∧ b < r.y + r.height ∧
          getCell s (r.x + r.width) b = some Cell.floor
      then (getCell s a b).map (fun _ => Cell.door) else getCell s a b := by
  obtain ⟨hWF2, hget⟩ := foldRight_getCell r hw r.height.toNat r.y s hWF le_rfl (by omega)
  refine ⟨hWF2, fun a b => ?_⟩
  refine (hget a b).trans (if_congr ?_ rfl rfl)
  constructor <;> rintro ⟨h1, h2, h3, h4⟩ <;> exact ⟨h1, h2, by omega, h4⟩

/-- Layering two conditional door writes over the same reading collapses
to their disjunction. -/
theorem layer_door (o : Option Cell) (c d : Prop) [Decidable c] [Decidable d] :
    (if d then (if c then o.map (fun _ => Cell.door) else o).map (fun _ => Cell.door)
     else if c then o.map (fun _ => Cell.door) else o) =
    if c ∨ d then o.map (fun _ => Cell.door) else o := by
  by_cases hc : c <;> by_cases hd : d <;>
    simp [hc, hd, map_door_idem] <;> cases o <;> rfl

/-- Pointwise description of the per-room door pass: a cell becomes a
door exactly when one of the four perimeter rules fires for it in the
entry state, and every other cell keeps its reading.  (The rules read
only perimeter cells, which no rule writes, so the four rings act
independently.) -/
theorem addDoorsRoom_getCell (s : Gen) (r : Room) (hw : 1 ≤ r.width)
    (hh : 1 ≤ r.height) (hWF : WF s) :
    WF (addDoorsRoom s r) ∧
    ∀ a b, getCell (addDoorsRoom s r) a b =
      if doorCause s r a b then (getCell s a b).map (fun _ => Cell.door)
      else getCell s a b := by
  obtain ⟨W1, F1⟩ := foldT_getCell r hw hh s hWF
  obtain ⟨W2, F2⟩ := foldB_getCell r hw hh (foldT r s) W1
  obtain ⟨W3, F3⟩ := foldL_getCell r hw hh (foldB r (foldT r s)) W2
  obtain ⟨W4, F4⟩ := foldR_getCell r hw hh (foldL r (foldB r (foldT r s))) W3
  constructor
  · rw [addDoorsRoom_eq_folds]
    exact W4
  · intro a b
    have hr2 : getCell (foldT r s) a (r.y + r.height) =
        getCell s a (r.y + r.height) := by
      rw [F1 a (r.y + r.height)]
      exact if_neg (by rintro ⟨h1, -, -, -⟩; omega)
    have hr3a : getCell (foldT r s) (r.x - 1) b = getCell s (r.x - 1) b := by
      rw [F1 (r.x - 1) b]
      exact if_neg (by rintro ⟨-, h2, -, -⟩; omega)
    have hr3 : getCell (foldB r (foldT r s)) (r.x - 1) b =
        getCell s (r.x - 1) b := by
      rw [F2 (r.x - 1) b]
      refine (if_neg ?_).trans hr3a
      rintro ⟨-, h2, -, -⟩
      omega
    have hr4a : getCell (foldT r s) (r.x + r.width) b =
        getCell s (r.x + r.width) b := by
      rw [F1 (r.x + r.width) b]
      exact if_neg (by rintro ⟨-, -, h3, -⟩; omega)
    have hr4b : getCell (foldB r (foldT r s)) (r.x + r.width) b =
        getCell s (r.x + r.width) b := by
      rw [F2 (r.x + r.width) b]
      refine (if_neg ?_).trans hr4a
      rintro ⟨-, -, h3, -⟩
      omega
    have hr4 : getCell (foldL r (foldB r (foldT r s))) (r.x + r.width) b =
        getCell s (r.x + r.width) b := by
      rw [F3 (r.x + r.width) b]
      refine (if_neg ?_).trans hr4b
      rintro ⟨h1, -, -, -⟩
      omega
    have g1 := F1 a b
    have g12 : getCell (foldB r (foldT r s)) a b =
        if (b = r.y ∧ r.x ≤ a ∧ a < r.x + r.width ∧
              getCell s a (r.y - 1) = some Cell.floor) ∨
           (b = r.y + r.height - 1 ∧ r.x ≤ a ∧ a < r.x + r.width ∧
              getCell s a (r.y + r.height) = some Cell.floor)
        then (getCell s a b).map (fun _ => Cell.door) else getCell s a b := by
      have hc2 : (b = r.y + r.height - 1 ∧ r.x ≤ a ∧ a < r.x + r.width ∧
          getCell (foldT r s) a (r.y + r.height) = some Cell.floor) ↔
          (b = r.y + r.height - 1 ∧ r.x ≤ a ∧ a < r.x + r.width ∧
          getCell s a (r.y + r.height) = some Cell.floor) := by
        rw [hr2]
      refine (F2 a b).trans ?_
      refine (if_congr hc2 rfl rfl).trans ?_
      rw [g1]
      exact layer_door (getCell s a b) _ _
    have g123 : getCell (foldL r (foldB r (foldT r s))) a b =
        if ((b = r.y ∧ r.x ≤ a ∧ a < r.x + r.width ∧
              getCell s a (r.y - 1) = some Cell.floor) ∨
            (b = r.y + r.height - 1 ∧ r.x ≤ a ∧ a < r.x + r.width ∧
              getCell s a (r.y + r.height) = some Cell.floor)) ∨
           (a = r.x ∧ r.y ≤ b ∧ b < r.y + r.height ∧
              getCell s (r.x - 1) b = some Cell.floor)
        then (getCell s a b).map (fun _ => Cell.door) else getCell s a b := by
      have hc3 : (a = r.x ∧ r.y ≤ b ∧ b < r.y + r.height ∧
          getCell (foldB r (foldT r s)) (r.x - 1) b = some Cell.floor) ↔
          (a = r.x ∧ r.y ≤ b ∧ b < r.y + r.height ∧
          getCell s (r.x - 1) b = some Cell.floor) := by
        rw [hr3]
      refine (F3 a b).trans ?_
      refine (if_congr hc3 rfl rfl).trans ?_
      rw [g12]
      exact layer_door (getCell s a b) _ _
    have gAll : getCell (foldR r (foldL r (foldB r (foldT r s)))) a b =
        if (((b = r.y ∧ r.x ≤ a ∧ a < r.x + r.width ∧
              getCell s a (r.y - 1) = some Cell.floor) ∨
            (b = r.y + r.height - 1 ∧ r.x ≤ a ∧ a < r.x + r.width ∧
              getCell s a (r.y + r.height) = some Cell.floor)) ∨
           (a = r.x ∧ r.y ≤ b ∧ b < r.y + r.height ∧
              getCell s (r.x - 1) b = some Cell.floor)) ∨
           (a = r.x + r.width - 1 ∧ r.y ≤ b ∧ b < r.y + r.height ∧
              getCell s (r.x + r.width) b = some Cell.floor)
        then (getCell s a b).map (fun _ => Cell.door) else getCell s a b := by
      have hc4 : (a = r.x + r.width - 1 ∧ r.y ≤ b ∧ b < r.y + r.height ∧
          getCell (foldL r (foldB r (foldT r s))) (r.x + r.width) b =
            some Cell.floor) ↔
          (a = r.x + r.width - 1 ∧ r.y ≤ b ∧ b < r.y + r.height ∧
          getCell s (r.x + r.width) b = some Cell.floor) := by
        rw [hr4]
      refine (F4 a b).trans ?_
      refine (if_congr hc4 rfl rfl).trans ?_
      rw [g123]
      exact layer_door (getCell s a b) _ _
    rw [addDoorsRoom_eq_folds, gAll]
    refine if_congr ?_ rfl rfl
    unfold doorCause
    constructor
    · rintro (((h | h) | h) | h)
      · exact Or.inl h
      · exact Or.inr (Or.inl h)
      · exact Or.inr (Or.inr (Or.inl h))
      · exact Or.inr (Or.inr (Or.inr h))
    · rintro (h | h | h | h)
      · exact Or.inl (Or.inl (Or.inl h))
      · exact Or.inl (Or.inl (Or.inr h))
      · exact Or.inl (Or.inr h)
      · exact Or.inr h

/-- Lifting the per-room description over the whole room list: any cell
the full door pass changes has become a door and lies on the boundary
ring of one of the rooms. -/
theorem addDoorsFold_changed (rs : List Room) :
    ∀ (s : Gen), WF s → (∀ r0 ∈ rs, 1 ≤ r0.width ∧ 1 ≤ r0.height) →
    ∀ a b, getCell (rs.foldl addDoorsRoom s) a b ≠ getCell s a b →
      getCell (rs.foldl addDoorsRoom s) a b =
        (getCell s a b).map (fun _ => Cell.door) ∧
      ∃ r0 ∈ rs, onBoundaryRing r0 a b := by
  induction rs with
  | nil =>
    intro s _ _ a b hch
    exact absurd rfl hch
  | cons r rs ih =>
    intro s hWF hsz a b hch
    obtain ⟨hwr, hhr⟩ := hsz r (List.mem_cons_self r rs)
    obtain ⟨hWF1, hF⟩ := addDoorsRoom_getCell s r hwr hhr hWF
    have hfold : (r :: rs).foldl addDoorsRoom s =
        rs.foldl addDoorsRoom (addDoorsRoom s r) := rfl
    by_cases hch1 : getCell (addDoorsRoom s r) a b = getCell s a b
    · obtain ⟨hv, hex⟩ := ih (addDoorsRoom s r) hWF1
        (fun r0 h0 => hsz r0 (List.mem_cons_of_mem r h0)) a b
        (by rw [hch1]; exact hch)
      obtain ⟨r0, hr0, hb0⟩ := hex
      constructor
      · rw [hfold, hv, hch1]
      · exact ⟨r0, List.mem_cons_of_mem r hr0, hb0⟩
    · have hcause : doorCause s r a b := by
        by_contra hcond
        rw [hF a b, if_neg hcond] at hch1
        exact hch1 rfl
      have hv1 : getCell (addDoorsRoom s r) a b =
          (getCell s a b).map (fun _ => Cell.door) := by
        rw [hF a b, if_pos hcause]
      have hDS := DoorStep_foldRooms rs (addDoorsRoom s r)
      have hfin : getCell (rs.foldl addDoorsRoom (addDoorsRoom s r)) a b =
          (getCell s a b).map (fun _ => Cell.door) := by
        rcases hDS.2.2.2.2.2.2 a b with hg | hg
        · rw [hg, hv1]
        · rw [hg, hv1, map_door_idem]
      exact ⟨hfin, ⟨r, List.mem_cons_self r rs,
        onBoundaryRing_of_doorCause s r a b hcause⟩⟩

/-- A well-formedness check over the rows of a concrete grid. -/
theorem WF_of_rows (s : Gen) (h1 : s.grid.length = s.height)
    (h2 : ∀ row ∈ s.grid, row.length = s.width) : WF s :=
  ⟨h1, fun _ row hi => h2 row (List.getElem?_mem hi)⟩

theorem WF_campPre : WF campPre :=
  WF_of_rows campPre (by decide) (by decide)

/-- C1 (amended).  The door pass converts the adjacent interior cell to
a door whenever the room-perimeter cell outside it is in bounds and
floor, regardless of the interior cell's previous classification: the
wall loop never reads the interior cell, and under a non-rectangular
carve that cell can still be wall (`claim_C1_counterexample`).  What
does hold of the original claim: every cell changed by the per-room
pass, and by the whole door pass, becomes a door and lies on the
boundary ring of one of the rooms; and conversely every readable
interior cell with a floor perimeter cell beside it does end up a
door. -/
theorem claim_C1_amended (s : Gen) (r : Room) (hw : 1 ≤ r.width)
    (hh : 1 ≤ r.height) (hWF : WF s)
    (hsz : ∀ r0 ∈ s.rooms, 1 ≤ r0.width ∧ 1 ≤ r0.height) :
    (∀ a b, getCell (addDoorsRoom s r) a b ≠ getCell s a b →
      getCell (addDoorsRoom s r) a b = (getCell s a b).map (fun _ => Cell.door) ∧
      doorCause s r a b ∧ onBoundaryRing r a b) ∧
    (∀ a b, doorCause s r a b → (getCell s a b).isSome →
      getCell (addDoorsRoom s r) a b = some Cell.door) ∧
    (∀ a b, getCell (addDoors s) a b ≠ getCell s a b →
      getCell (addDoors s) a b = (getCell s a b).map (fun _ => Cell.door) ∧
      ∃ r0 ∈ s.rooms, onBoundaryRing r0 a b) := by
  obtain ⟨hWF2, hF⟩ := addDoorsRoom_getCell s r hw hh hWF
  refine ⟨?_, ?_, ?_⟩
  · intro a b hch
    have hcause : doorCause s r a b := by
      by_contra hc
      rw [hF a b, if_neg hc] at hch
      exact hch rfl
    exact ⟨by rw [hF a b, if_pos hcause], hcause,
      onBoundaryRing_of_doorCause s r a b hcause⟩
  · intro a b hcause hsome
    rw [hF a b, if_pos hcause]
    obtain ⟨c, hc⟩ := Option.isSome_iff_exists.mp hsome
    rw [hc]
    rfl
  · intro a b hch
    exact addDoorsFold_changed s.rooms s hWF hsz a b hch

/-- C1 witness: in the camp-theme run, the perimeter cell `(4,5)` below
room `(1,1,4,4)` is floor, so the interior edge cell `(4,4)` is
converted to a door by the per-room pass. -/
theorem claim_C1_amended_witness :
    getCell (addDoorsRoom campPre ⟨1, 1, 4, 4⟩) 4 4 = some Cell.door :=
  (claim_C1_amended campPre ⟨1, 1, 4, 4⟩ (by decide) (by decide) WF_campPre
    (by decide)).2.1 4 4 (by decide) (by decide)

/-- C1 counterexample: the full `generate` of the camp run produces a
door at `(4,4)` although that cell was a wall — not a floor — right
before door placement, refuting the original claim's "was classified
Floor immediately before" part. -/
theorem claim_C1_counterexample :
    generate campInit 2 = Except.ok (addDoors campPre) ∧
    getCell campPre 4 4 = some Cell.wall ∧
    getCell (addDoors campPre) 4 4 = some Cell.door :=
  ⟨by rfl, by decide, by decide⟩

/-! ### Claim C4: no out-of-bounds writes on large enough grids

We track the invariant that every accepted room sits inside the grid
with a 1-cell border (which the position draw of `generateRoom`
enforces), and show that every write of carving, corridor routing and
door placement stays inside `[0,width) × [0,height)` — the sticky `oob`
flag of the embedding stays `false` through an entire `generate`. -/

/-- The shape the position and size draws guarantee for accepted
rooms: the rectangle sits inside the grid with at least one cell to
every border. -/
def roomOK (W H : Nat) (r : Room) : Prop :=
  1 ≤ r.x ∧ 1 ≤ r.y ∧ 4 ≤ r.width ∧ 4 ≤ r.height ∧
  r.x + r.width + 2 ≤ (W : Int) ∧ r.y + r.height + 2 ≤ (H : Int)

instance (W H : Nat) (r : Room) : Decidable (roomOK W H r) :=
  inferInstanceAs (Decidable (_ ∧ _ ∧ _ ∧ _ ∧ _ ∧ _))

/-- All accepted rooms of a state are in shape. -/
def GoodRooms (s : Gen) : Prop := ∀ r ∈ s.rooms, roomOK s.width s.height r

/-- A state reached from `s` by in-bounds writes only: well-formed,
clean `oob` flag, same dimensions. -/
def SafeOver (s t : Gen) : Prop :=
  WF t ∧ t.oob = false ∧ t.width = s.width ∧ t.height = s.height

theorem WF_of_frame {s t : Gen} (hg : t.grid = s.grid) (hw : t.width = s.width)
    (hh : t.height = s.height) (h : WF s) : WF t := by
  constructor
  · rw [hg, hh]
    exact h.1
  · intro i row hi
    rw [hw]
    refine h.2 i row ?_
    rw [← hg]
    exact hi

theorem setCell_safe (s t : Gen) (X Y : Int) (v : Cell)
    (hWF : WF t) (hoob : t.oob = false) (hw : t.width = s.width)
    (hh : t.height = s.height)
    (hb : 0 ≤ X ∧ X < (s.width : Int) ∧ 0 ≤ Y ∧ Y < (s.height : Int)) :
    WF (setCell t X Y v) ∧ (setCell t X Y v).oob = false ∧
    (setCell t X Y v).width = s.width ∧ (setCell t X Y v).height = s.height := by
  have hsome : (getCell t X Y).isSome := by
    rw [getCell_isSome_iff t hWF X Y, hw, hh]
    exact hb
  refine ⟨WF_setCell t X Y v hWF, ?_, (setCell_width t X Y v).trans hw,
    (setCell_height t X Y v).trans hh⟩
  rw [setCell_oob_of_isSome t X Y v hsome]
  exact hoob

theorem SafeOver_setCell (s t : Gen) (X Y : Int) (v : Cell) (h : SafeOver s t)
    (hb : 0 ≤ X ∧ X < (s.width : Int) ∧ 0 ≤ Y ∧ Y < (s.height : Int)) :
    SafeOver s (setCell t X Y v) :=
  setCell_safe s t X Y v h.1 h.2.1 h.2.2.1 h.2.2.2 hb

theorem SafeOver_randNext (s t : Gen) (h : SafeOver s t) :
    SafeOver s (randNext t).2 := by
  rw [randNext_snd]
  exact h

theorem SafeOver_condSet (s t : Gen) (c : Prop) [Decidable c] (X Y : Int) (v : Cell)
    (h : SafeOver s t)
    (hb : 0 ≤ X ∧ X < (s.width : Int) ∧ 0 ≤ Y ∧ Y < (s.height : Int)) :
    SafeOver s (if c then setCell t X Y v else t) := by
  split
  · exact SafeOver_setCell s t X Y v h hb
  · exact h

theorem carveRowAux_safe (y : Int) :
    ∀ (n : Nat) (x : Int) (s t : Gen), SafeOver s t →
      0 ≤ x → x + (n : Int) ≤ (s.width : Int) →
      0 ≤ y → y < (s.height : Int) →
      SafeOver s (carveRowAux y n x t) := by
  intro n
  induction n with
  | zero =>
    intro x s t h _ _ _ _
    exact h
  | succ n ih =>
    intro x s t h hx0 hxn hy0 hy1
    exact ih (x + 1) s (setCell t x y Cell.floor)
      (SafeOver_setCell s t x y Cell.floor h ⟨hx0, by omega, hy0, hy1⟩)
      (by omega) (by omega) hy0 hy1

theorem carveRectAux_safe (x0 : Int) (w : Nat) :
    ∀ (n : Nat) (y : Int) (s t : Gen), SafeOver s t →
      0 ≤ x0 → x0 + (w : Int) ≤ (s.width : Int) →
      0 ≤ y → y + (n : Int) ≤ (s.height : Int) →
      SafeOver s (carveRectAux x0 w n y t) := by
  intro n
  induction n with
  | zero =>
    intro y s t h _ _ _ _
    exact h
  | succ n ih =>
    intro y s t h hx0 hxw hy0 hyn
    exact ih (y + 1) s (carveRowAux y w x0 t)
      (carveRowAux_safe y w x0 s t h hx0 hxw hy0 (by omega))
      hx0 hxw (by omega) (by omega)

theorem carveIrrCell_safe (r : Room) (x y : Int) (s t : Gen) (h : SafeOver s t)
    (hb : 0 ≤ x ∧ x < (s.width : Int) ∧ 0 ≤ y ∧ y < (s.height : Int)) :
    SafeOver s (carveIrrCell r x y t) := by
  unfold carveIrrCell
  dsimp only
  split
  · exact SafeOver_setCell s (randNext t).2 x y Cell.floor
      (SafeOver_randNext s t h) hb
  · exact SafeOver_randNext s t h

theorem carveIrrRow_safe (r : Room) (y : Int) :
    ∀ (n : Nat) (x : Int) (s t : Gen), SafeOver s t →
      0 ≤ x → x + (n : Int) ≤ (s.width : Int) →
      0 ≤ y → y < (s.height : Int) →
      SafeOver s (carveIrrRow r y n x t) := by
  intro n
  induction n with
  | zero =>
    intro x s t h _ _ _ _
    exact h
  | succ n ih =>
    intro x s t h hx0 hxn hy0 hy1
    exact ih (x + 1) s (carveIrrCell r x y t)
      (carveIrrCell_safe r x y s t h ⟨hx0, by omega, hy0, hy1⟩)
      (by omega) (by omega) hy0 hy1

theorem carveIrrRect_safe (r : Room) :
    ∀ (n : Nat) (y : Int) (s t : Gen), SafeOver s t →
      0 ≤ r.x → r.x + ((r.width.toNat : Nat) : Int) ≤ (s.width : Int) →
      0 ≤ y → y + (n : Int) ≤ (s.height : Int) →
      SafeOver s (carveIrrRect r n y t) := by
  intro n
  induction n with
  | zero =>
    intro y s t h _ _ _ _
    exact h
  | succ n ih =>
    intro y s t h hx0 hxw hy0 hyn
    exact ih (y + 1) s (carveIrrRow r y r.width.toNat r.x t)
      (carveIrrRow_safe r y r.width.toNat r.x s t h hx0 hxw hy0 (by omega))
      hx0 hxw (by omega) (by omega)

theorem carveCircCell_safe (r : Room) (x y : Int) (s t : Gen) (h : SafeOver s t)
    (hb : 0 ≤ x ∧ x < (s.width : Int) ∧ 0 ≤ y ∧ y < (s.height : Int)) :
    SafeOver s (carveCircCell r x y t) := by
  unfold carveCircCell
  split
  · exact SafeOver_setCell s t x y Cell.floor h hb
  · exact h

theorem carveCircRow_safe (r : Room) (y : Int) :
    ∀ (n : Nat) (x : Int) (s t : Gen), SafeOver s t →
      0 ≤ x → x + (n : Int) ≤ (s.width : Int) →
      0 ≤ y → y < (s.height : Int) →
      SafeOver s (carveCircRow r y n x t) := by
  intro n
  induction n with
  | zero =>
    intro x s t h _ _ _ _
    exact h
  | succ n ih =>
    intro x s t h hx0 hxn hy0 hy1
    exact ih (x + 1) s (carveCircCell r x y t)
      (carveCircCell_safe r x y s t h ⟨hx0, by omega, hy0, hy1⟩)
      (by omega) (by omega) hy0 hy1

theorem carveCircRect_safe (r : Room) :
    ∀ (n : Nat) (y : Int) (s t : Gen), SafeOver s t →
      0 ≤ r.x → r.x + ((r.width.toNat : Nat) : Int) ≤ (s.width : Int) →
      0 ≤ y → y + (n : Int) ≤ (s.height : Int) →
      SafeOver s (carveCircRect r n y t) := by
  intro n
  induction n with
  | zero =>
    intro y s t h _ _ _ _
    exact h
  | succ n ih =>
    intro y s t h hx0 hxw hy0 hyn
    exact ih (y + 1) s (carveCircRow r y r.width.toNat r.x t)
      (carveCircRow_safe r y r.width.toNat r.x s t h hx0 hxw hy0 (by omega))
      hx0 hxw (by omega) (by omega)

theorem carveOrgCell_safe (r : Room) (x y : Int) (s t : Gen) (h : SafeOver s t)
    (hb : 0 ≤ x ∧ x < (s.width : Int) ∧ 0 ≤ y ∧ y < (s.height : Int)) :
    SafeOver s (carveOrgCell r x y t) := by
  unfold carveOrgCell
  dsimp only
  split
  · split
    · exact SafeOver_setCell s (randNext t).2 x y Cell.floor
        (SafeOver_randNext s t h) hb
    · exact SafeOver_randNext s t h
  · exact SafeOver_setCell s t x y Cell.floor h hb

theorem carveOrgRow_safe (r : Room) (y : Int) :
    ∀ (n : Nat) (x : Int) (s t : Gen), SafeOver s t →
      0 ≤ x → x + (n : Int) ≤ (s.width : Int) →
      0 ≤ y → y < (s.height : Int) →
      SafeOver s (carveOrgRow r y n x t) := by
  intro n
  induction n with
  | zero =>
    intro x s t h _ _ _ _
    exact h
  | succ n ih =>
    intro x s t h hx0 hxn hy0 hy1
    exact ih (x + 1) s (carveOrgCell r x y t)
      (carveOrgCell_safe r x y s t h ⟨hx0, by omega, hy0, hy1⟩)
      (by omega) (by omega) hy0 hy1

theorem carveOrgRect_safe (r : Room) :
    ∀ (n : Nat) (y : Int) (s t : Gen), SafeOver s t →
      0 ≤ r.x → r.x + ((r.width.toNat : Nat) : Int) ≤ (s.width : Int) →
      0 ≤ y → y + (n : Int) ≤ (s.height : Int) →
      SafeOver s (carveOrgRect r n y t) := by
  intro n
  induction n with
  | zero =>
    intro y s t h _ _ _ _
    exact h
  | succ n ih =>
    intro y s t h hx0 hxw hy0 hyn
    exact ih (y + 1) s (carveOrgRow r y r.width.toNat r.x t)
      (carveOrgRow_safe r y r.width.toNat r.x s t h hx0 hxw hy0 (by omega))
      hx0 hxw (by omega) (by omega)

/-- Every carving style writes only inside the room rectangle, which
sits inside the grid. -/
theorem carveRoom_safe (s t : Gen) (r : Room) (s2 : Gen) (h : SafeOver s t)
    (hb : 0 ≤ r.x ∧ r.x + r.width ≤ (s.width : Int) ∧
      0 ≤ r.y ∧ r.y + r.height ≤ (s.height : Int))
    (hw0 : 0 ≤ r.width) (hh0 : 0 ≤ r.height)
    (hcv : carveRoom t r = Except.ok s2) : SafeOver s s2 := by
  obtain ⟨hbx, hbw, hby, hbh⟩ := hb
  unfold carveRoom at hcv
  cases hts : themeStyle t.theme with
  | none =>
    rw [hts] at hcv
    exact Except.noConfusion hcv
  | some st =>
    rw [hts] at hcv
    cases st with
    | rectangular =>
      rw [← Except.ok.inj hcv]
      exact carveRectAux_safe r.x r.width.toNat r.height.toNat r.y s t h
        hbx (by omega) hby (by omega)
    | irregular =>
      rw [← Except.ok.inj hcv]
      exact carveIrrRect_safe r r.height.toNat r.y s t h hbx (by omega) hby (by omega)
    | organic =>
      rw [← Except.ok.inj hcv]
      exact carveOrgRect_safe r r.height.toNat r.y s t h hbx (by omega) hby (by omega)
    | formal =>
      have h4 : (if qlt ⟨7, 10⟩ (randNext t).1 ∧ 6 ≤ r.width ∧ 6 ≤ r.height then
          Except.ok (carveCircularRoom (randNext t).2 r)
        else Except.ok (carveStandardRoom (randNext t).2 r)) = Except.ok s2 := hcv
      split at h4
      · rw [← Except.ok.inj h4]
        exact carveCircRect_safe r r.height.toNat r.y s (randNext t).2
          (SafeOver_randNext s t h) hbx (by omega) hby (by omega)
      · rw [← Except.ok.inj h4]
        exact carveRectAux_safe r.x r.width.toNat r.height.toNat r.y s (randNext t).2
          (SafeOver_randNext s t h) hbx (by omega) hby (by omega)

theorem corrH_safe (x2 y : Int) (f : Nat) (x : Int) (s t : Gen) (h : SafeOver s t)
    (hb : 0 ≤ min x x2 ∧ max x x2 < (s.width : Int) ∧
      0 ≤ y ∧ y < (s.height : Int)) :
    SafeOver s (corrH x2 y f x t).1 := by
  obtain ⟨hWF, hoob, hw, hh⟩ := h
  obtain ⟨h1, h2⟩ := corrH_oob x2 y f x t hWF hoob (by rw [hw, hh]; exact hb)
  have hfr := corrH_frame x2 y f x t
  exact ⟨h2, h1, hfr.1.trans hw, hfr.2.1.trans hh⟩

theorem corrV_safe (y2 x : Int) (f : Nat) (y : Int) (s t : Gen) (h : SafeOver s t)
    (hb : 0 ≤ x ∧ x < (s.width : Int) ∧
      0 ≤ min y y2 ∧ max y y2 < (s.height : Int)) :
    SafeOver s (corrV y2 x f y t).1 := by
  obtain ⟨hWF, hoob, hw, hh⟩ := h
  obtain ⟨h1, h2⟩ := corrV_oob y2 x f y t hWF hoob (by rw [hw, hh]; exact hb)
  have hfr := corrV_frame y2 x f y t
  exact ⟨h2, h1, hfr.1.trans hw, hfr.2.1.trans hh⟩

theorem corrOrganic_safe (x2 y2 : Int) (f : Nat) (x y : Int) (s t : Gen)
    (h : SafeOver s t)
    (hb : 0 ≤ min x x2 ∧ max x x2 < (s.width : Int) ∧
      0 ≤ min y y2 ∧ max y y2 < (s.height : Int)) :
    SafeOver s (corrOrganic x2 y2 f x y t).1 := by
  obtain ⟨hWF, hoob, hw, hh⟩ := h
  obtain ⟨h1, h2⟩ := corrOrganic_oob x2 y2 f x y t hWF hoob (by rw [hw, hh]; exact hb)
  have hfr := corrOrganic_frame x2 y2 f x y t
  exact ⟨h2, h1, hfr.1.trans hw, hfr.2.1.trans hh⟩

/-- A corridor between two in-bounds endpoints writes only in-bounds
cells, in every theme. -/
theorem createCorridor_safe (s t : Gen) (x1 y1 x2 y2 : Int) (s2 : Gen)
    (h : SafeOver s t)
    (hb1 : 0 ≤ x1 ∧ x1 < (s.width : Int) ∧ 0 ≤ y1 ∧ y1 < (s.height : Int))
    (hb2 : 0 ≤ x2 ∧ x2 < (s.width : Int) ∧ 0 ≤ y2 ∧ y2 < (s.height : Int))
    (hcc : createCorridor t x1 y1 x2 y2 = Except.ok s2) : SafeOver s s2 := by
  obtain ⟨hx10, hx11, hy10, hy11⟩ := hb1
  obtain ⟨hx20, hx21, hy20, hy21⟩ := hb2
  unfold createCorridor at hcc
  cases hts : themeStyle t.theme with
  | none =>
    rw [hts] at hcc
    exact Except.noConfusion hcc
  | some st =>
    rw [hts] at hcc
    cases st with
    | organic =>
      rw [← Except.ok.inj hcc]
      have hreach := corrOrganic_reach x2 y2 ((x1 - x2).natAbs + (y1 - y2).natAbs)
        x1 y1 t le_rfl
      rw [hreach.1, hreach.2]
      exact SafeOver_setCell s _ x2 y2 Cell.floor
        (corrOrganic_safe x2 y2 _ x1 y1 s t h
          ⟨by omega, by omega, by omega, by omega⟩)
        ⟨hx20, hx21, hy20, hy21⟩
    | rectangular =>
      rw [← Except.ok.inj hcc]
      have hrH := corrH_reach x2 y1 (x1 - x2).natAbs x1 t le_rfl
      have hrV := corrV_reach y2 (corrH x2 y1 (x1 - x2).natAbs x1 t).2
        (y1 - y2).natAbs y1 (corrH x2 y1 (x1 - x2).natAbs x1 t).1 le_rfl
      rw [hrV, hrH]
      refine SafeOver_setCell s _ x2 y2 Cell.floor ?_ ⟨hx20, hx21, hy20, hy21⟩
      exact corrV_safe y2 x2 _ y1 s _
        (corrH_safe x2 y1 _ x1 s t h ⟨by omega, by omega, by omega, by omega⟩)
        ⟨by omega, by omega, by omega, by omega⟩
    | irregular =>
      rw [← Except.ok.inj hcc]
      have hrH := corrH_reach x2 y1 (x1 - x2).natAbs x1 t le_rfl
      have hrV := corrV_reach y2 (corrH x2 y1 (x1 - x2).natAbs x1 t).2
        (y1 - y2).natAbs y1 (corrH x2 y1 (x1 - x2).natAbs x1 t).1 le_rfl
      rw [hrV, hrH]
      refine SafeOver_setCell s _ x2 y2 Cell.floor ?_ ⟨hx20, hx21, hy20, hy21⟩
      exact corrV_safe y2 x2 _ y1 s _
        (corrH_safe x2 y1 _ x1 s t h ⟨by omega, by omega, by omega, by omega⟩)
        ⟨by omega, by omega, by omega, by omega⟩
    | formal =>
      rw [← Except.ok.inj hcc]
      have hrH := corrH_reach x2 y1 (x1 - x2).natAbs x1 t le_rfl
      have hrV := corrV_reach y2 (corrH x2 y1 (x1 - x2).natAbs x1 t).2
        (y1 - y2).natAbs y1 (corrH x2 y1 (x1 - x2).natAbs x1 t).1 le_rfl
      rw [hrV, hrH]
      refine SafeOver_setCell s _ x2 y2 Cell.floor ?_ ⟨hx20, hx21, hy20, hy21⟩
      exact corrV_safe y2 x2 _ y1 s _
        (corrH_safe x2 y1 _ x1 s t h ⟨by omega, by omega, by omega, by omega⟩)
        ⟨by omega, by omega, by omega, by omega⟩

theorem generateRoom_validRng (s : Gen) (minS maxS : Int) (r? : Option Room) (s1 : Gen)
    (hv : validRng s.rng)
    (h : generateRoom s minS maxS = Except.ok (r?, s1)) : validRng s1.rng := by
  have hd : validRng ((((s.rng.drop 1).drop 1).drop 1).drop 1) :=
    validRng_drop (validRng_drop (validRng_drop (validRng_drop hv 1) 1) 1) 1
  unfold generateRoom at h
  cases hts : themeStyle s.theme with
  | none =>
    rw [hts] at h
    exact Except.noConfusion h
  | some st =>
    rw [hts] at h
    rw [ite_eq_iff] at h
    rcases h with ⟨-, h⟩ | ⟨-, h⟩ <;>
    · simp only [Except.ok.injEq, Prod.mk.injEq] at h
      rw [← h.2]
      rw [randNext_rng, randNext_rng, randNext_rng, randNext_rng]
      exact hd

/-- The size draws put an accepted room's dimensions in `[4,12]`, and
the position draws put it inside the grid with a 1-cell border — on a
grid at least 20 cells wide and tall. -/
theorem generateRoom_roomOK (s : Gen) (r : Room) (s1 : Gen)
    (hv : validRng s.rng) (hW : 20 ≤ s.width) (hH : 20 ≤ s.height)
    (h : generateRoom s 4 10 = Except.ok (some r, s1)) :
    roomOK s.width s.height r := by
  have hq1 : validQ (randNext s).1 := randNext_fst_valid hv
  have hv1 : validRng (randNext s).2.rng := by
    rw [randNext_rng]
    exact validRng_drop hv 1
  have hq2 : validQ (randNext (randNext s).2).1 := randNext_fst_valid hv1
  have hv2 : validRng (randNext (randNext s).2).2.rng := by
    rw [randNext_rng]
    exact validRng_drop hv1 1
  have hq3 : validQ (randNext (randNext (randNext s).2).2).1 := randNext_fst_valid hv2
  have hv3 : validRng (randNext (randNext (randNext s).2).2).2.rng := by
    rw [randNext_rng]
    exact validRng_drop hv2 1
  have hq4 : validQ (randNext (randNext (randNext (randNext s).2).2).2).1 :=
    randNext_fst_valid hv3
  unfold generateRoom at h
  cases hts : themeStyle s.theme with
  | none =>
    rw [hts] at h
    exact Except.noConfusion h
  | some st =>
    rw [hts] at h
    rw [ite_eq_iff] at h
    rcases h with ⟨-, h⟩ | ⟨-, h⟩
    · simp only [Except.ok.injEq, Prod.mk.injEq] at h
      exact Option.noConfusion h.1
    · simp only [Except.ok.injEq, Prod.mk.injEq, Option.some.injEq] at h
      rw [← h.1]
      unfold roomOK
      dsimp only
      obtain ⟨hA0, hA1⟩ := qfloor_qmul_qint_bounds hq1 (show (1 : Int) ≤ 10 - 4 + 1 by omega)
      obtain ⟨hB0, hB1⟩ := qfloor_qmul_qint_bounds hq2 (show (1 : Int) ≤ 10 - 4 + 1 by omega)
      obtain ⟨hD0, hD1⟩ := qfloor_qmul_qint_bounds hq4 (show (1 : Int) ≤
        (s.height : Int) - (qfloor (qmul (randNext (randNext s).2).1 (qint (10 - 4 + 1))) + 4)
          - 2 from by omega)
      by_cases hst : st = RoomStyle.formal
      · rw [if_pos hst]
        obtain ⟨hC0, hC1⟩ := qfloor_qmul_qint_bounds hq3 (show (1 : Int) ≤
          (s.width : Int) - (qfloor (qmul (randNext s).1 (qint (10 - 4 + 1))) + 4 + 2)
            - 2 from by omega)
        exact ⟨by omega, by omega, by omega, by omega, by omega, by omega⟩
      · rw [if_neg hst]
        obtain ⟨hC0, hC1⟩ := qfloor_qmul_qint_bounds hq3 (show (1 : Int) ≤
          (s.width : Int) - (qfloor (qmul (randNext s).1 (qint (10 - 4 + 1))) + 4)
            - 2 from by omega)
        exact ⟨by omega, by omega, by omega, by omega, by omega, by omega⟩

/-- The room-sampling loop preserves safety: every accepted room is in
shape and every carve writes inside its rectangle. -/
theorem roomsLoopAux_safe (rc : Nat) :
    ∀ (f : Nat) (s t : Gen) (att : Nat) (s1 : Gen) (att' : Nat),
      roomsLoopAux rc f t att = Except.ok (s1, att') →
      SafeOver s t → validRng t.rng →
      20 ≤ s.width → 20 ≤ s.height →
      (∀ r ∈ t.rooms, roomOK s.width s.height r) →
      SafeOver s s1 ∧ validRng s1.rng ∧
        (∀ r ∈ s1.rooms, roomOK s.width s.height r) := by
  intro f
  induction f with
  | zero =>
    intro s t att s1 att' h hSO hv hW hH hg
    simp only [roomsLoopAux, Except.ok.injEq, Prod.mk.injEq] at h
    rw [← h.1]
    exact ⟨hSO, hv, hg⟩
  | succ f ih =>
    intro s t att s1 att' h hSO hv hW hH hg
    rw [roomsLoopAux_step] at h
    by_cases hlen : t.rooms.length < rc
    · rw [if_pos hlen] at h
      cases hgen : generateRoom t 4 10 with
      | error e =>
        rw [hgen] at h
        exact Except.noConfusion h
      | ok pr =>
        rw [hgen] at h
        obtain ⟨ro, s'⟩ := pr
        have hfr := generateRoom_frame t 4 10 ro s' hgen
        have hv' : validRng s'.rng := generateRoom_validRng t 4 10 ro s' hv hgen
        have hSO' : SafeOver s s' :=
          ⟨WF_of_frame hfr.1 hfr.2.2.2.1 hfr.2.2.2.2.1 hSO.1,
           by rw [hfr.2.2.2.2.2.2]; exact hSO.2.1,
           hfr.2.2.2.1.trans hSO.2.2.1, hfr.2.2.2.2.1.trans hSO.2.2.2⟩
        have hg' : ∀ r ∈ s'.rooms, roomOK s.width s.height r := by
          rw [hfr.2.1]
          exact hg
        cases ro with
        | none =>
          have h' : roomsLoopAux rc f s' (att + 1) = Except.ok (s1, att') := h
          exact ih s s' (att + 1) s1 att' h' hSO' hv' hW hH hg'
        | some r =>
          have h' : (match carveRoom { s' with rooms := s'.rooms ++ [r] } r with
            | Except.error e => Except.error e
            | Except.ok s2 => roomsLoopAux rc f s2 (att + 1)) = Except.ok (s1, att') := h
          cases hcarve : carveRoom { s' with rooms := s'.rooms ++ [r] } r with
          | error e =>
            rw [hcarve] at h'
            exact Except.noConfusion h'
          | ok s2 =>
            rw [hcarve] at h'
            have hOKr : roomOK s.width s.height r := by
              have h0 := generateRoom_roomOK t r s' hv
                (by rw [hSO.2.2.1]; exact hW) (by rw [hSO.2.2.2]; exact hH) hgen
              rw [← hSO.2.2.1, ← hSO.2.2.2]
              exact h0
            obtain ⟨hr1, hr2, hr3, hr4, hr5, hr6⟩ := hOKr
            have hSO'' : SafeOver s { s' with rooms := s'.rooms ++ [r] } := hSO'
            have hSO2 : SafeOver s s2 :=
              carveRoom_safe s { s' with rooms := s'.rooms ++ [r] } r s2 hSO''
                ⟨by omega, by omega, by omega, by omega⟩ (by omega) (by omega) hcarve
            have hFS := FloorStep_carveRoom { s' with rooms := s'.rooms ++ [r] } r s2 hcarve
            have hv2 : validRng s2.rng := hFS.2.2.2.2.2.1 hv'
            have hg2 : ∀ r0 ∈ s2.rooms, roomOK s.width s.height r0 := by
              rw [hFS.2.2.2.1]
              show ∀ r0 ∈ s'.rooms ++ [r], _
              intro r0 hr0
              rcases List.mem_append.mp hr0 with hin | hin
              · exact hg' r0 hin
              · rw [List.mem_singleton.mp hin]
                exact ⟨hr1, hr2, hr3, hr4, hr5, hr6⟩
            exact ih s s2 (att + 1) s1 att' h' hSO2 hv2 hW hH hg2
    · rw [if_neg hlen] at h
      simp only [Except.ok.injEq, Prod.mk.injEq] at h
      rw [← h.1]
      exact ⟨hSO, hv, hg⟩

theorem consecPairs_mem :
    ∀ (l : List Room) (p : Room × Room), p ∈ consecPairs l → p.1 ∈ l ∧ p.2 ∈ l := by
  intro l
  induction l with
  | nil =>
    intro p hp
    exact absurd hp (List.not_mem_nil p)
  | cons a rest ih =>
    cases rest with
    | nil =>
      intro p hp
      exact absurd hp (List.not_mem_nil p)
    | cons b rest2 =>
      intro p hp
      rcases List.mem_cons.mp hp with hh | hh
      · rw [hh]
        exact ⟨List.mem_cons_self a (b :: rest2),
          List.mem_cons_of_mem a (List.mem_cons_self b rest2)⟩
      · obtain ⟨h1, h2⟩ := ih p hh
        exact ⟨List.mem_cons_of_mem a h1, List.mem_cons_of_mem a h2⟩

/-- The randomly drawn index of `pickRoomCenter` is in range, so the
picked centre is the centre of one of the accepted rooms — strictly
inside the grid. -/
theorem pickRoomCenter_bounds (s t : Gen) (hv : validRng t.rng)
    (hrooms : ∀ r ∈ t.rooms, roomOK s.width s.height r)
    (hlen : 0 < t.rooms.length) :
    0 ≤ (pickRoomCenter t).1.1 ∧ (pickRoomCenter t).1.1 < (s.width : Int) ∧
    0 ≤ (pickRoomCenter t).1.2 ∧ (pickRoomCenter t).1.2 < (s.height : Int) := by
  have hq := randNext_fst_valid hv
  obtain ⟨hi0, hi1⟩ := qfloor_qmul_qint_bounds hq
    (show (1 : Int) ≤ (t.rooms.length : Int) by omega)
  have hlt : (qfloor (qmul (randNext t).1 (qint (t.rooms.length : Int)))).toNat <
      t.rooms.length := by omega
  have hfst : (pickRoomCenter t).1 = getRoomCenter (t.rooms.getD
      ((qfloor (qmul (randNext t).1 (qint (t.rooms.length : Int)))).toNat)
      ⟨0, 0, 0, 0⟩) := by
    show getRoomCenter ((randNext t).2.rooms.getD _ _) = _
    rw [randNext_rooms]
  have hmem : t.rooms.getD
      ((qfloor (qmul (randNext t).1 (qint (t.rooms.length : Int)))).toNat)
      ⟨0, 0, 0, 0⟩ ∈ t.rooms := by
    rw [List.getD_eq_getElem t.rooms ⟨0, 0, 0, 0⟩ hlt]
    exact List.getElem_mem hlt
  obtain ⟨hr1, hr2, hr3, hr4, hr5, hr6⟩ := hrooms _ hmem
  obtain ⟨hc1, hc2, hc3, hc4⟩ := getRoomCenter_bounds
    (t.rooms.getD ((qfloor (qmul (randNext t).1 (qint (t.rooms.length : Int)))).toNat)
      ⟨0, 0, 0, 0⟩) (by omega) (by omega)
  rw [hfst]
  exact ⟨by omega, by omega, by omega, by omega⟩

/-- The sequential connection loop only routes corridors between room
centres, which are in bounds. -/
theorem connectPhase_safe (ps : List (Room × Room)) :
    ∀ (s t s2 : Gen), connectPhase t ps = Except.ok s2 → SafeOver s t →
      validRng t.rng →
      (∀ r ∈ t.rooms, roomOK s.width s.height r) →
      (∀ p ∈ ps, p.1 ∈ t.rooms ∧ p.2 ∈ t.rooms) →
      SafeOver s s2 ∧ validRng s2.rng ∧
        (∀ r ∈ s2.rooms, roomOK s.width s.height r) := by
  induction ps with
  | nil =>
    intro s t s2 h hSO hv hg hp
    have h2 := Except.ok.inj h
    rw [← h2]
    exact ⟨hSO, hv, hg⟩
  | cons p ps ih =>
    intro s t s2 h hSO hv hg hp
    obtain ⟨ra, rb⟩ := p
    have hmem := hp (ra, rb) (List.mem_cons_self _ _)
    obtain ⟨ha1, ha2, ha3, ha4, ha5, ha6⟩ := hg ra hmem.1
    obtain ⟨hb1, hb2, hb3, hb4, hb5, hb6⟩ := hg rb hmem.2
    obtain ⟨hca1, hca2, hca3, hca4⟩ := getRoomCenter_bounds ra (by omega) (by omega)
    obtain ⟨hcb1, hcb2, hcb3, hcb4⟩ := getRoomCenter_bounds rb (by omega) (by omega)
    have h' : (match createCorridor t (getRoomCenter ra).1 (getRoomCenter ra).2
        (getRoomCenter rb).1 (getRoomCenter rb).2 with
      | Except.error e => Except.error e
      | Except.ok s1 => connectPhase s1 ps) = Except.ok s2 := h
    cases hcc : createCorridor t (getRoomCenter ra).1 (getRoomCenter ra).2
        (getRoomCenter rb).1 (getRoomCenter rb).2 with
    | error e =>
      rw [hcc] at h'
      exact Except.noConfusion h'
    | ok s1 =>
      rw [hcc] at h'
      have hSO1 : SafeOver s s1 :=
        createCorridor_safe s t _ _ _ _ s1 hSO
          ⟨by omega, by omega, by omega, by omega⟩
          ⟨by omega, by omega, by omega, by omega⟩ hcc
      have hFS := FloorStep_createCorridor t _ _ _ _ s1 hcc
      have hv1 : validRng s1.rng := hFS.2.2.2.2.2.1 hv
      have hrooms1 : s1.rooms = t.rooms := hFS.2.2.2.1
      refine ih s s1 s2 h' hSO1 hv1 ?_ ?_
      · rw [hrooms1]
        exact hg
      · rw [hrooms1]
        exact fun p hp2 => hp p (List.mem_cons_of_mem _ hp2)

/-- The two extra corridors also run between picked room centres. -/
theorem extraPhase_safe (s t s2 : Gen) (h : extraPhase t = Except.ok s2)
    (hSO : SafeOver s t) (hv : validRng t.rng)
    (hg : ∀ r ∈ t.rooms, roomOK s.width s.height r) :
    SafeOver s s2 ∧ validRng s2.rng ∧
      (∀ r ∈ s2.rooms, roomOK s.width s.height r) := by
  unfold extraPhase at h
  by_cases hlen : 3 < t.rooms.length
  · rw [if_pos hlen] at h
    have hv1 : validRng (pickRoomCenter t).2.rng := by
      rw [pickRoomCenter_snd, randNext_rng]
      exact validRng_drop hv 1
    have hg1 : ∀ r ∈ (pickRoomCenter t).2.rooms, roomOK s.width s.height r := by
      rw [pickRoomCenter_snd, randNext_rooms]
      exact hg
    have hlen1 : 0 < (pickRoomCenter t).2.rooms.length := by
      rw [pickRoomCenter_snd, randNext_rooms]
      omega
    have hSOa : SafeOver s (pickRoomCenter (pickRoomCenter t).2).2 := by
      rw [pickRoomCenter_snd, pickRoomCenter_snd]
      exact SafeOver_randNext s _ (SafeOver_randNext s t hSO)
    have hva : validRng (pickRoomCenter (pickRoomCenter t).2).2.rng := by
      rw [pickRoomCenter_snd, randNext_rng]
      exact validRng_drop hv1 1
    have hga : ∀ r ∈ (pickRoomCenter (pickRoomCenter t).2).2.rooms,
        roomOK s.width s.height r := by
      rw [pickRoomCenter_snd, randNext_rooms]
      exact hg1
    obtain ⟨hpa1, hpa2, hpa3, hpa4⟩ := pickRoomCenter_bounds s t hv hg (by omega)
    obtain ⟨hpb1, hpb2, hpb3, hpb4⟩ :=
      pickRoomCenter_bounds s (pickRoomCenter t).2 hv1 hg1 hlen1
    have h' : (match createCorridor (pickRoomCenter (pickRoomCenter t).2).2
        (pickRoomCenter t).1.1 (pickRoomCenter t).1.2
        (pickRoomCenter (pickRoomCenter t).2).1.1
        (pickRoomCenter (pickRoomCenter t).2).1.2 with
      | Except.error e => Except.error e
      | Except.ok s3 =>
        createCorridor (pickRoomCenter (pickRoomCenter s3).2).2
          (pickRoomCenter s3).1.1 (pickRoomCenter s3).1.2
          (pickRoomCenter (pickRoomCenter s3).2).1.1
          (pickRoomCenter (pickRoomCenter s3).2).1.2) = Except.ok s2 := h
    cases hcc : createCorridor (pickRoomCenter (pickRoomCenter t).2).2
        (pickRoomCenter t).1.1 (pickRoomCenter t).1.2
        (pickRoomCenter (pickRoomCenter t).2).1.1
        (pickRoomCenter (pickRoomCenter t).2).1.2 with
    | error e =>
      rw [hcc] at h'
      exact Except.noConfusion h'
    | ok s3 =>
      rw [hcc] at h'
      have hSO3 : SafeOver s s3 :=
        createCorridor_safe s (pickRoomCenter (pickRoomCenter t).2).2 _ _ _ _ s3 hSOa
          ⟨hpa1, hpa2, hpa3, hpa4⟩ ⟨hpb1, hpb2, hpb3, hpb4⟩ hcc
      have hFS3 := FloorStep_createCorridor (pickRoomCenter (pickRoomCenter t).2).2
        _ _ _ _ s3 hcc
      have hv3 : validRng s3.rng := hFS3.2.2.2.2.2.1 hva
      have hg3 : ∀ r ∈ s3.rooms, roomOK s.width s.height r := by
        rw [hFS3.2.2.2.1]
        exact hga
      have hlen3 : 0 < s3.rooms.length := by
        rw [hFS3.2.2.2.1, pickRoomCenter_snd, randNext_rooms, pickRoomCenter_snd,
          randNext_rooms]
        omega
      have hv31 : validRng (pickRoomCenter s3).2.rng := by
        rw [pickRoomCenter_snd, randNext_rng]
        exact validRng_drop hv3 1
      have hg31 : ∀ r ∈ (pickRoomCenter s3).2.rooms, roomOK s.width s.height r := by
        rw [pickRoomCenter_snd, randNext_rooms]
        exact hg3
      have hlen31 : 0 < (pickRoomCenter s3).2.rooms.length := by
        rw [pickRoomCenter_snd, randNext_rooms]
        exact hlen3
      have hSOb : SafeOver s (pickRoomCenter (pickRoomCenter s3).2).2 := by
        rw [pickRoomCenter_snd, pickRoomCenter_snd]
        exact SafeOver_randNext s _ (SafeOver_randNext s s3 hSO3)
      have hvb : validRng (pickRoomCenter (pickRoomCenter s3).2).2.rng := by
        rw [pickRoomCenter_snd, randNext_rng]
        exact validRng_drop hv31 1
      have hgb : ∀ r ∈ (pickRoomCenter (pickRoomCenter s3).2).2.rooms,
          roomOK s.width s.height r := by
        rw [pickRoomCenter_snd, randNext_rooms]
        exact hg31
      obtain ⟨hqa1, hqa2, hqa3, hqa4⟩ := pickRoomCenter_bounds s s3 hv3 hg3 hlen3
      obtain ⟨hqb1, hqb2, hqb3, hqb4⟩ :=
        pickRoomCenter_bounds s (pickRoomCenter s3).2 hv31 hg31 hlen31
      have hSO2 : SafeOver s s2 :=
        createCorridor_safe s (pickRoomCenter (pickRoomCenter s3).2).2 _ _ _ _ s2 hSOb
          ⟨hqa1, hqa2, hqa3, hqa4⟩ ⟨hqb1, hqb2, hqb3, hqb4⟩ h'
      have hFS2 := FloorStep_createCorridor (pickRoomCenter (pickRoomCenter s3).2).2
        _ _ _ _ s2 h'
      refine ⟨hSO2, hFS2.2.2.2.2.2.1 hvb, ?_⟩
      rw [hFS2.2.2.2.1]
      exact hgb
  · rw [if_neg hlen] at h
    have h2 := Except.ok.inj h
    rw [← h2]
    exact ⟨hSO, hv, hg⟩

/-- All three pre-door phases keep every write in bounds. -/
theorem generatePre_safe (s : Gen) (rc : Nat) (s3 : Gen)
    (h : generatePre s rc = Except.ok s3)
    (hWF : WF s) (hoob : s.oob = false) (hv : validRng s.rng)
    (hW : 20 ≤ s.width) (hH : 20 ≤ s.height) (hg : GoodRooms s) :
    SafeOver s s3 ∧ validRng s3.rng ∧
      (∀ r ∈ s3.rooms, roomOK s.width s.height r) := by
  unfold generatePre at h
  cases hloop : roomsLoopAux rc 100 s 0 with
  | error e =>
    rw [hloop] at h
    exact Except.noConfusion h
  | ok pr =>
    rw [hloop] at h
    obtain ⟨s1, att⟩ := pr
    obtain ⟨hSO1, hv1, hg1⟩ := roomsLoopAux_safe rc 100 s s 0 s1 att hloop
      ⟨hWF, hoob, rfl, rfl⟩ hv hW hH hg
    have h' : (match connectPhase s1 (consecPairs s1.rooms) with
      | Except.error e => Except.error e
      | Except.ok s2 => extraPhase s2) = Except.ok s3 := h
    cases hconn : connectPhase s1 (consecPairs s1.rooms) with
    | error e =>
      rw [hconn] at h'
      exact Except.noConfusion h'
    | ok s2 =>
      rw [hconn] at h'
      obtain ⟨hSO2, hv2, hg2⟩ := connectPhase_safe (consecPairs s1.rooms) s s1 s2
        hconn hSO1 hv1 hg1 (fun p hp => consecPairs_mem s1.rooms p hp)
      exact extraPhase_safe s s2 s3 h' hSO2 hv2 hg2

/-- Every write of the wall loop targets an interior ring cell of its
room, which is in bounds whenever the room is. -/
theorem addDoorsWall_safe (r : Room) (s t : Gen) (h : SafeOver s t)
    (hr : 0 ≤ r.x ∧ r.x + r.width ≤ (s.width : Int) ∧
      0 ≤ r.y ∧ r.y + r.height ≤ (s.height : Int))
    (hw1 : 1 ≤ r.width) (hh1 : 1 ≤ r.height) (wx wy : Int) :
    SafeOver s (addDoorsWall r t wx wy) := by
  obtain ⟨hrx, hrw, hry, hrh⟩ := hr
  have hwt := h.2.2.1
  have hht := h.2.2.2
  unfold addDoorsWall
  dsimp only
  split
  · rename_i hbnd
    obtain ⟨hb1, hb2, hb3, hb4⟩ := hbnd
    split
    · refine SafeOver_condSet s _ _ (r.x + r.width - 1) wy Cell.door
        (SafeOver_condSet s _ _ r.x wy Cell.door
          (SafeOver_condSet s _ _ wx (r.y + r.height - 1) Cell.door
            (SafeOver_condSet s _ _ wx r.y Cell.door h
              ⟨by omega, by omega, by omega, by omega⟩)
            ⟨by omega, by omega, by omega, by omega⟩)
          ⟨by omega, by omega, by omega, by omega⟩)
        ⟨by omega, by omega, by omega, by omega⟩
    · exact h
  · exact h

theorem foldWalls_safe (r : Room) (s : Gen)
    (hr : 0 ≤ r.x ∧ r.x + r.width ≤ (s.width : Int) ∧
      0 ≤ r.y ∧ r.y + r.height ≤ (s.height : Int))
    (hw1 : 1 ≤ r.width) (hh1 : 1 ≤ r.height) :
    ∀ (ws : List (Int × Int)) (t : Gen), SafeOver s t →
      SafeOver s (ws.foldl (fun acc w => addDoorsWall r acc w.1 w.2) t) := by
  intro ws
  induction ws with
  | nil =>
    intro t h
    exact h
  | cons w ws ih =>
    intro t h
    exact ih _ (addDoorsWall_safe r s t h hr hw1 hh1 w.1 w.2)

theorem addDoorsRoom_safe (r : Room) (s t : Gen) (h : SafeOver s t)
    (hr : 0 ≤ r.x ∧ r.x + r.width ≤ (s.width : Int) ∧
      0 ≤ r.y ∧ r.y + r.height ≤ (s.height : Int))
    (hw1 : 1 ≤ r.width) (hh1 : 1 ≤ r.height) :
    SafeOver s (addDoorsRoom t r) :=
  foldWalls_safe r s hr hw1 hh1 (wallsList r) t h

theorem addDoorsFold_safe (rs : List Room) :
    ∀ (s t : Gen), SafeOver s t →
      (∀ r ∈ rs, roomOK s.width s.height r) →
      SafeOver s (rs.foldl addDoorsRoom t) := by
  induction rs with
  | nil =>
    intro s t h _
    exact h
  | cons r rs ih =>
    intro s t h hOK
    obtain ⟨h1, h2, h3, h4, h5, h6⟩ := hOK r (List.mem_cons_self r rs)
    exact ih s (addDoorsRoom t r)
      (addDoorsRoom_safe r s t h ⟨by omega, by omega, by omega, by omega⟩
        (by omega) (by omega))
      (fun r0 h0 => hOK r0 (List.mem_cons_of_mem r h0))

/-- C4.  On a grid at least 20 cells wide and tall (enough for the
maximum room size plus border margins), a completed `generate` never
attempts an out-of-bounds grid write: the embedding's sticky `oob`
flag — raised by any write outside `[0,width) × [0,height)` — is still
`false` in the final state, which is also still a well-formed
`height × width` grid; and the interactive-element routines never
write to the grid at all. -/
theorem claim_C4 (w h : Nat) (key : String) (rng : List Q) (rc : Nat) (s2 : Gen)
    (hw : 20 ≤ w) (hh : 20 ≤ h) (hv : validRng rng)
    (hgen : generate (mkGen w h key rng) rc = Except.ok s2) :
    (s2.oob = false ∧ WF s2) ∧
    (∀ (t : Gen) (ty : String) (x y : Int),
      (addInteractiveElement t ty x y).2.grid = t.grid ∧
      (removeInteractiveElement t x y).grid = t.grid) := by
  constructor
  · unfold generate at hgen
    cases hpre : generatePre (mkGen w h key rng) rc with
    | error e =>
      rw [hpre] at hgen
      exact Except.noConfusion hgen
    | ok s3 =>
      rw [hpre] at hgen
      have h2 := Except.ok.inj hgen
      obtain ⟨hSO3, hv3, hg3⟩ := generatePre_safe (mkGen w h key rng) rc s3 hpre
        (WF_mkGen w h key rng) rfl hv hw hh
        (fun r hr => absurd hr (List.not_mem_nil r))
      have hSOd : SafeOver (mkGen w h key rng) (addDoors s3) := by
        have := addDoorsFold_safe s3.rooms (mkGen w h key rng) s3 hSO3 hg3
        exact this
      rw [← h2]
      exact ⟨hSOd.2.1, hSOd.1⟩
  · intro t ty x y
    constructor
    · unfold addInteractiveElement
      dsimp only
      split
      · show ({ (randNext t).2 with elems := _ } : Gen).grid = t.grid
        rw [randNext_snd]
      · rfl
    · rfl

/-- C4 witness: the trivial run (zero rooms requested) on a 20×20
dungeon grid completes with the flag down, and the element routines on
its result leave the grid alone. -/
theorem claim_C4_witness :
    (((mkGen 20 20 "dungeon" []).oob = false ∧ WF (mkGen 20 20 "dungeon" [])) ∧
    (∀ (t : Gen) (ty : String) (x y : Int),
      (addInteractiveElement t ty x y).2.grid = t.grid ∧
      (removeInteractiveElement t x y).grid = t.grid)) :=
  claim_C4 20 20 "dungeon" [] 0 (mkGen 20 20 "dungeon" [])
    (by decide) (by decide) validRng_nil (by rfl)

end DnD
